import Mathlib

/-!
# xyz::polymorphic (experimental/polymorphic_inline_vtable.h)

A shallow embedding of the allocator-aware, value-semantic container
`xyz::polymorphic<T, A>` and of its control block
`xyz::detail::direct_control_block<T, U, A>`.

* The free store is an association list from block addresses to control blocks.
* Containers live in a store indexed by identity, so that `this != &other`
  and every other aliasing question is a comparison of indices.
* What the allocator and the payload's constructor do (the address returned,
  `std::bad_alloc`, a throwing constructor) is an `Oracle` argument.
* `none` stands for an execution that has no defined result: a failed
  `assert`, the use of a container that does not exist, or the use of a
  control block that is not live.
-/

namespace xyz

/-- Failure conditions an operation can report to its caller. -/
inductive Failure where
  | bad_alloc
  | construction
deriving DecidableEq, Repr

/-- How an operation ended: it returned, or it threw. -/
inductive Status where
  | returned
  | threw (f : Failure)
deriving DecidableEq, Repr

/-- An allocator object of type `A`. Its state is the pool it draws from;
`operator==` on allocators compares that state. -/
structure Alloc where
  pool : Nat
deriving DecidableEq, Repr

/-- The facts about `A` and `T` that the header reads through
`std::allocator_traits<A>` and through default construction. -/
structure Env (V : Type) where
  /-- Value of `propagate_on_container_copy_assignment`. -/
  pocca : Bool
  /-- Value of `propagate_on_container_move_assignment`. -/
  pocma : Bool
  /-- Value of `propagate_on_container_swap`. -/
  pocs : Bool
  /-- The function `select_on_container_copy_construction`. -/
  socc : Alloc → Alloc
  /-- The allocator `A()` that a constructor without allocator argument gets. -/
  default_alloc : Alloc
  /-- The payload `T()` that the default constructor builds. -/
  default_value : V

/-- A `direct_control_block`: the access pointer `p_` (the address of the
allocation whose `u_` it designates), the payload `u_`, and as instrumentation
the allocator through which the block's memory was obtained. The two vtable
entries are the same two lambdas for every block and are the functions
`control_block.destroy` and `control_block.clone` below. -/
structure Block (V : Type) where
  p_ : Nat
  u_ : V
  allocated_by : Alloc
deriving DecidableEq, Repr

/-- Calls on the rebound allocator and on the vtable, in program order. A call
is recorded when it is made, so `construct` is recorded whether the payload's
constructor returns or throws. -/
inductive Event where
  | allocate (a : Alloc) (mem : Nat)
  | construct (a : Alloc) (mem : Nat)
  | destroy (a : Alloc) (cb : Nat)
  | deallocate (a : Alloc) (cb : Nat)
  | clone (a : Alloc) (src : Nat)
deriving DecidableEq, Repr

/-- The free store together with the record of allocator and vtable calls. -/
structure Mem (V : Type) where
  heap : List (Nat × Block V)
  log : List Event
deriving DecidableEq, Repr

/-- The control block stored at an address, if one is live there. -/
def lookup {V : Type} : List (Nat × Block V) → Nat → Option (Block V)
  | [], _ => none
  | (a, b) :: rest, p => if a = p then some b else lookup rest p

/-- The store without the block at an address. -/
def remove {V : Type} : List (Nat × Block V) → Nat → List (Nat × Block V)
  | [], _ => []
  | (a, b) :: rest, p => if a = p then rest else (a, b) :: remove rest p

/-- Addresses of the live blocks. -/
def live {V : Type} (h : List (Nat × Block V)) : List Nat := h.map Prod.fst

/-- What the environment does during one allocate-then-construct sequence:
`allocate` throws, or it returns `mem` and the payload constructor throws, or
it returns `mem` and the payload constructor succeeds. -/
inductive Oracle where
  | bad_alloc
  | ctor_throws (mem : Nat)
  | ok (mem : Nat)
deriving DecidableEq, Repr

/-- The address the allocator hands out, if it hands out one. -/
def Oracle.address : Oracle → Option Nat
  | .bad_alloc => none
  | .ctor_throws mem => some mem
  | .ok mem => some mem

/-- The allocator's contract: memory handed out is not part of a live block. -/
def Oracle.fresh {V : Type} (o : Oracle) (h : List (Nat × Block V)) : Prop :=
  ∀ a, o.address = some a → a ∉ live h

instance {V : Type} (o : Oracle) (h : List (Nat × Block V)) : Decidable (o.fresh h) := by
  unfold Oracle.fresh
  cases o with
  | bad_alloc => exact isTrue (by intro a h; cases h)
  | ctor_throws mem =>
    exact decidable_of_iff (mem ∉ live h)
      ⟨fun hm a ha => by cases ha; exact hm, fun hh => hh mem rfl⟩
  | ok mem =>
    exact decidable_of_iff (mem ∉ live h)
      ⟨fun hm a ha => by cases ha; exact hm, fun hh => hh mem rfl⟩

/-- The sequence `allocate; try construct; catch deallocate, rethrow` that the
clone lambda (lines 78-86) and the constructors (lines 117-125, 137-145,
158-166) share. The constructor of `direct_control_block` stores the payload
and sets `p_ = &u_` (line 89). When the constructor throws, `construct` has
been called and `deallocate` follows it. -/
def allocate_construct {V : Type} (o : Oracle) (m : Mem V) (alloc : Alloc) (v : V) :
    Mem V × Except Failure Nat :=
  match o with
  | .bad_alloc => (m, .error .bad_alloc)
  | .ctor_throws mem =>
    ({ m with log := m.log ++
        [.allocate alloc mem, .construct alloc mem, .deallocate alloc mem] },
      .error .construction)
  | .ok mem =>
    ({ heap := (mem, { p_ := mem, u_ := v, allocated_by := alloc }) :: m.heap,
       log := m.log ++ [.allocate alloc mem, .construct alloc mem] },
      .ok mem)

/-- The destroy lambda (lines 68-73), reached through `control_block::destroy`:
destroy the block at `p` and give its memory back through `alloc`. -/
def control_block.destroy {V : Type} (m : Mem V) (p : Nat) (alloc : Alloc) : Option (Mem V) :=
  match lookup m.heap p with
  | none => none
  | some _ =>
    some { heap := remove m.heap p,
           log := m.log ++ [.destroy alloc p, .deallocate alloc p] }

/-- The clone lambda (lines 75-87), reached through `control_block::clone`:
a new block obtained through `alloc` whose payload is copy-constructed from
the payload of the block at `p`. A copy constructor that returns yields an
object equal to its source (`std::copy_constructible`). -/
def control_block.clone {V : Type} (o : Oracle) (m : Mem V) (p : Nat) (alloc : Alloc) :
    Option (Mem V × Except Failure Nat) :=
  match lookup m.heap p with
  | none => none
  | some cb =>
    some (allocate_construct o { m with log := m.log ++ [.clone alloc p] } alloc cb.u_)

/-- The data members of a `polymorphic<T, A>`: `cb_` (`none` is `nullptr`) and
`alloc_`. -/
structure Polymorphic where
  cb_ : Option Nat
  alloc_ : Alloc
deriving DecidableEq, Repr

/-- A program state: the free store and the containers, indexed by identity.
A slot holding `none` is a container whose lifetime has ended. -/
structure State (V : Type) where
  mem : Mem V
  objs : List (Option Polymorphic)
deriving DecidableEq, Repr

/-- The container with identity `i`, if it is alive. -/
def State.obj {V : Type} (s : State V) (i : Nat) : Option Polymorphic :=
  (s.objs[i]?).getD none

/-- Overwrite the container with identity `i`. -/
def State.set_obj {V : Type} (s : State V) (i : Nat) (x : Polymorphic) : State V :=
  { s with objs := s.objs.set i (some x) }

/-- Assign `cb_` of container `i`. -/
def State.set_cb {V : Type} (s : State V) (i : Nat) (cb : Option Nat) : Option (State V) :=
  (s.obj i).map fun x => s.set_obj i { x with cb_ := cb }

/-- Assign `alloc_` of container `i`. -/
def State.set_alloc {V : Type} (s : State V) (i : Nat) (a : Alloc) : Option (State V) :=
  (s.obj i).map fun x => s.set_obj i { x with alloc_ := a }

/-- A new container comes into existence; its identity is the next free index. -/
def State.new_obj {V : Type} (s : State V) (x : Polymorphic) : State V :=
  { s with objs := s.objs ++ [some x] }

/-- The lifetime of container `i` ends. -/
def State.end_obj {V : Type} (s : State V) (i : Nat) : State V :=
  { s with objs := s.objs.set i none }

/-! ## Member functions of `polymorphic` -/

variable {V : Type}

/-- The body shared by the default constructor (lines 111-126) and the two
in-place constructors (lines 128-146, 148-167): `alloc_` is initialised, a
block is allocated through it and the payload is constructed in it. -/
def construct_in_place (alloc : Alloc) (v : V) (o : Oracle) (s : State V) :
    Option (State V × Status) :=
  match allocate_construct o s.mem alloc v with
  | (m, .ok mem) =>
    some (({ s with mem := m }).new_obj { cb_ := some mem, alloc_ := alloc }, .returned)
  | (m, .error f) => some ({ s with mem := m }, .threw f)

/-- The constructor `polymorphic()` (lines 111-126). -/
def polymorphic.default (env : Env V) (o : Oracle) (s : State V) : Option (State V × Status) :=
  construct_in_place env.default_alloc env.default_value o s

/-- The constructor `polymorphic(in_place_type<U>, ts...)` (lines 128-146); `v` is the
payload that `U(ts...)` builds. -/
def polymorphic.in_place (env : Env V) (v : V) (o : Oracle) (s : State V) :
    Option (State V × Status) :=
  construct_in_place env.default_alloc v o s

/-- The constructor `polymorphic(allocator_arg, alloc, in_place_type<U>, ts...)`
(lines 148-167). -/
def polymorphic.alloc_in_place (alloc : Alloc) (v : V) (o : Oracle) (s : State V) :
    Option (State V × Status) :=
  construct_in_place alloc v o s

/-- The constructor `polymorphic(allocator_arg, alloc, const polymorphic& other)`
(lines 176-181), `other` being container `j`. -/
def polymorphic.alloc_copy (alloc : Alloc) (j : Nat) (o : Oracle) (s : State V) :
    Option (State V × Status) :=
  match s.obj j with
  | none => none
  | some other =>
    match other.cb_ with
    | none => none
    | some p =>
      match control_block.clone o s.mem p alloc with
      | none => none
      | some (m, .ok mem) =>
        some (({ s with mem := m }).new_obj { cb_ := some mem, alloc_ := alloc }, .returned)
      | some (m, .error f) => some ({ s with mem := m }, .threw f)

/-- The constructor `polymorphic(const polymorphic& other)` (lines 169-174). -/
def polymorphic.copy (env : Env V) (j : Nat) (o : Oracle) (s : State V) :
    Option (State V × Status) :=
  match s.obj j with
  | none => none
  | some other => polymorphic.alloc_copy (env.socc other.alloc_) j o s

/-- The constructor `polymorphic(allocator_arg, alloc, polymorphic&& other)`
(lines 189-194). -/
def polymorphic.alloc_move (alloc : Alloc) (j : Nat) (s : State V) :
    Option (State V × Status) :=
  match s.obj j with
  | none => none
  | some other =>
    match other.cb_ with
    | none => none
    | some p =>
      match s.set_cb j none with
      | none => none
      | some s1 => some (s1.new_obj { cb_ := some p, alloc_ := alloc }, .returned)

/-- The constructor `polymorphic(polymorphic&& other)` (lines 183-187). -/
def polymorphic.move (j : Nat) (s : State V) : Option (State V × Status) :=
  match s.obj j with
  | none => none
  | some other => polymorphic.alloc_move other.alloc_ j s

/-- The member `reset()` (lines 281-286) of container `i`. -/
def polymorphic.reset (i : Nat) (s : State V) : Option (State V) :=
  match s.obj i with
  | none => none
  | some self =>
    match self.cb_ with
    | none => some s
    | some p =>
      match control_block.destroy s.mem p self.alloc_ with
      | none => none
      | some m => ({ s with mem := m }).set_cb i none

/-- The destructor `~polymorphic()` (line 196) of container `i`. -/
def polymorphic.destructor (i : Nat) (s : State V) : Option (State V × Status) :=
  match polymorphic.reset i s with
  | none => none
  | some s1 => some (s1.end_obj i, .returned)

/-- The statements of both `swap` bodies after their assertions (lines 263-266
and 274-277): `std::swap` of the two `cb_`, then of the two `alloc_` when
`propagate_on_container_swap` holds. Every read and write goes through the
store, so `i = j` is the aliased call. -/
def swap_body (env : Env V) (i j : Nat) (s : State V) : Option (State V) :=
  match s.obj i, s.obj j with
  | some self, some other =>
    match s.set_cb i other.cb_ with
    | none => none
    | some s1 =>
      match s1.set_cb j self.cb_ with
      | none => none
      | some s2 =>
        if env.pocs then
          match s2.set_alloc i other.alloc_ with
          | none => none
          | some s3 => s3.set_alloc j self.alloc_
        else some s2
  | _, _ => none

/-- The member `swap(polymorphic& other)` (lines 259-267) of container `i`, with
`other` being container `j`. -/
def polymorphic.swap (env : Env V) (i j : Nat) (s : State V) : Option (State V × Status) :=
  match s.obj i, s.obj j with
  | some _, some other =>
    if other.cb_ = none then none
    else (swap_body env i j s).map fun s1 => (s1, .returned)
  | _, _ => none

/-- The friend `swap(polymorphic& lhs, polymorphic& rhs)` (lines 269-278). -/
def swap (env : Env V) (i j : Nat) (s : State V) : Option (State V × Status) :=
  match s.obj i, s.obj j with
  | some lhs, some rhs =>
    if lhs.cb_ = none then none
    else if rhs.cb_ = none then none
    else (swap_body env i j s).map fun s1 => (s1, .returned)
  | _, _ => none

/-- The end of the block in which the local `tmp` of copy assignment lives:
member `swap` with `tmp`, then `~tmp`. The local is the container created last. -/
def swap_and_drop_tmp (env : Env V) (i : Nat) (s : State V) : Option (State V × Status) :=
  let tmp := s.objs.length - 1
  match polymorphic.swap env i tmp s with
  | none => none
  | some (s1, _) => polymorphic.destructor tmp s1

/-- The operator `operator=(const polymorphic& other)` (lines 198-212) of
container `i`, with `other` being container `j`. -/
def polymorphic.copy_assign (env : Env V) (i j : Nat) (o : Oracle) (s : State V) :
    Option (State V × Status) :=
  match s.obj i, s.obj j with
  | some _, some other =>
    if other.cb_ = none then none
    else if i = j then some (s, .returned)
    else if env.pocca then
      match s.set_alloc i other.alloc_ with
      | none => none
      | some s1 =>
        match s1.obj i with
        | none => none
        | some self1 =>
          match polymorphic.alloc_copy self1.alloc_ j o s1 with
          | none => none
          | some (s2, .threw f) => some (s2, .threw f)
          | some (s2, .returned) => swap_and_drop_tmp env i s2
    else
      match polymorphic.copy env j o s with
      | none => none
      | some (s2, .threw f) => some (s2, .threw f)
      | some (s2, .returned) => swap_and_drop_tmp env i s2
  | _, _ => none

/-- The operator `operator=(polymorphic&& other)` (lines 214-231) of container
`i`, with `other` being container `j`. -/
def polymorphic.move_assign (env : Env V) (i j : Nat) (o : Oracle) (s : State V) :
    Option (State V × Status) :=
  match s.obj i, s.obj j with
  | some _, some other =>
    if other.cb_ = none then none
    else
      match polymorphic.reset i s with
      | none => none
      | some s1 =>
        match s1.obj i, s1.obj j with
        | some self1, some other1 =>
          if env.pocma then
            match s1.set_alloc i other1.alloc_ with
            | none => none
            | some s2 =>
              match s2.obj j with
              | none => none
              | some other2 =>
                match s2.set_cb j none with
                | none => none
                | some s3 => (s3.set_cb i other2.cb_).map fun s4 => (s4, .returned)
          else if self1.alloc_ = other1.alloc_ then
            match s1.set_cb j none with
            | none => none
            | some s3 => (s3.set_cb i other1.cb_).map fun s4 => (s4, .returned)
          else
            match other1.cb_ with
            | none => none
            | some p =>
              match control_block.clone o s1.mem p self1.alloc_ with
              | none => none
              | some (m, .error f) => some ({ s1 with mem := m }, .threw f)
              | some (m, .ok mem) =>
                match ({ s1 with mem := m }).set_cb i (some mem) with
                | none => none
                | some s2 => (polymorphic.reset j s2).map fun s3 => (s3, .returned)
        | _, _ => none
  | _, _ => none

/-- The member `valueless_after_move()` (lines 253-255). -/
def polymorphic.valueless_after_move (i : Nat) (s : State V) : Option Bool :=
  (s.obj i).map fun self => self.cb_.isNone

/-- The member `get_allocator()` (line 257). -/
def polymorphic.get_allocator (i : Nat) (s : State V) : Option Alloc :=
  (s.obj i).map fun self => self.alloc_

/-- The member `operator->()` (lines 233-241): the access pointer of the owned block. -/
def polymorphic.arrow (i : Nat) (s : State V) : Option Nat :=
  match s.obj i with
  | none => none
  | some self =>
    match self.cb_ with
    | none => none
    | some p => (lookup s.mem.heap p).map fun cb => cb.p_

/-- The member `operator*()` (lines 243-251): the payload the access pointer designates. -/
def polymorphic.deref (i : Nat) (s : State V) : Option V :=
  match polymorphic.arrow i s with
  | none => none
  | some q => (lookup s.mem.heap q).map fun cb => cb.u_

/-! ## The ownership invariant -/

/-- The control blocks the containers of a store own, with multiplicity. -/
def owned (objs : List (Option Polymorphic)) : List Nat :=
  objs.filterMap fun x => x.bind fun y => y.cb_

/-- Single ownership: the owned blocks are, counted with multiplicity, exactly
the live blocks, and no address is live twice. Every block's access pointer
designates the block's own payload. -/
def State.inv (s : State V) : Prop :=
  (owned s.objs).Perm (live s.mem.heap) ∧ (live s.mem.heap).Nodup ∧
    ∀ e ∈ s.mem.heap, e.2.p_ = e.1

instance (s : State V) : Decidable s.inv := by
  unfold State.inv; infer_instance

/-! ## Sequences of public operations -/

/-- A call of a public member of `polymorphic`, with what the environment does
during it where the call allocates. -/
inductive Op (V : Type) where
  | default (o : Oracle)
  | in_place (v : V) (o : Oracle)
  | alloc_in_place (a : Alloc) (v : V) (o : Oracle)
  | copy (j : Nat) (o : Oracle)
  | alloc_copy (a : Alloc) (j : Nat) (o : Oracle)
  | move (j : Nat)
  | alloc_move (a : Alloc) (j : Nat)
  | destructor (i : Nat)
  | copy_assign (i j : Nat) (o : Oracle)
  | move_assign (i j : Nat) (o : Oracle)
  | swap (i j : Nat)
  | free_swap (i j : Nat)
  | arrow (i : Nat)
  | deref (i : Nat)
  | valueless_after_move (i : Nat)
  | get_allocator (i : Nat)
deriving DecidableEq, Repr

/-- The allocator keeps its contract during the call: the address it hands out
is not live at the moment of the allocation. Move assignment allocates after
`reset()`, every other allocating call before it changes the free store. A call
that does not reach its allocation does not consult the oracle, and `bad_alloc`
is admissible in every state, so no behaviour of such a call is excluded. -/
def Op.admissible (op : Op V) (s : State V) : Bool :=
  match op with
  | .default o => decide (o.fresh s.mem.heap)
  | .in_place _ o => decide (o.fresh s.mem.heap)
  | .alloc_in_place _ _ o => decide (o.fresh s.mem.heap)
  | .copy _ o => decide (o.fresh s.mem.heap)
  | .alloc_copy _ _ o => decide (o.fresh s.mem.heap)
  | .copy_assign _ _ o => decide (o.fresh s.mem.heap)
  | .move_assign i _ o =>
    match polymorphic.reset i s with
    | some s1 => decide (o.fresh s1.mem.heap)
    | none => true
  | _ => true

/-- The call `op` made in state `s`. -/
def Op.call (env : Env V) (op : Op V) (s : State V) : Option (State V × Status) :=
  match op with
  | .default o => polymorphic.default env o s
  | .in_place v o => polymorphic.in_place env v o s
  | .alloc_in_place a v o => polymorphic.alloc_in_place a v o s
  | .copy j o => polymorphic.copy env j o s
  | .alloc_copy a j o => polymorphic.alloc_copy a j o s
  | .move j => polymorphic.move j s
  | .alloc_move a j => polymorphic.alloc_move a j s
  | .destructor i => polymorphic.destructor i s
  | .copy_assign i j o => polymorphic.copy_assign env i j o s
  | .move_assign i j o => polymorphic.move_assign env i j o s
  | .swap i j => polymorphic.swap env i j s
  | .free_swap i j => xyz.swap env i j s
  | .arrow i => (polymorphic.arrow i s).map fun _ => (s, .returned)
  | .deref i => (polymorphic.deref i s).map fun _ => (s, .returned)
  | .valueless_after_move i => (polymorphic.valueless_after_move i s).map fun _ => (s, .returned)
  | .get_allocator i => (polymorphic.get_allocator i s).map fun _ => (s, .returned)

/-- One step of a client program: a call with its asserted preconditions
satisfied, on containers that exist, with an allocator that keeps its contract. -/
def step (env : Env V) (op : Op V) (s : State V) : Option (State V × Status) :=
  if op.admissible s then op.call env s else none

/-- A client program: calls made one after the other; a call that reports a
failure is followed by the next call. -/
def run (env : Env V) : List (Op V) → State V → Option (State V)
  | [], s => some s
  | op :: ops, s =>
    match step env op s with
    | none => none
    | some (s1, _) => run env ops s1

/-- The state before the first call: nothing allocated, no container. -/
def State.init : State V := { mem := { heap := [], log := [] }, objs := [] }

/-- The call moves from container `k`: a move construction or a move assignment
with `k` as its source. -/
def Op.moves_from (op : Op V) (k : Nat) : Bool :=
  match op with
  | .move j => j = k
  | .alloc_move _ j => j = k
  | .move_assign _ j _ => j = k
  | _ => false

/-- Number of `destroy` calls on the block at `p` in a record. -/
def destroys (log : List Event) (p : Nat) : Nat :=
  (log.filter fun e => match e with
    | .destroy _ q => q = p
    | _ => false).length

/-- Number of `allocate` calls in a record. -/
def allocations (log : List Event) : Nat :=
  (log.filter fun e => match e with
    | .allocate _ _ => true
    | _ => false).length

/-- Number of `deallocate` calls in a record. -/
def deallocations (log : List Event) : Nat :=
  (log.filter fun e => match e with
    | .deallocate _ _ => true
    | _ => false).length

/-- Number of `clone` calls in a record. -/
def clones (log : List Event) : Nat :=
  (log.filter fun e => match e with
    | .clone _ _ => true
    | _ => false).length

/-! ## Concrete states used to instantiate the theorems -/

/-- An allocator type with no propagation trait set and the identity as its
copy selection. -/
def demo_env : Env Nat :=
  { pocca := false, pocma := false, pocs := false, socc := fun a => a,
    default_alloc := ⟨0⟩, default_value := 0 }

/-- The program that builds `demo_state`: two in-place constructions with the
unequal allocators 1 and 2. -/
def demo_ops : List (Op Nat) :=
  [.alloc_in_place ⟨1⟩ 7 (.ok 100), .alloc_in_place ⟨2⟩ 9 (.ok 200)]

/-- Container 0 owns block 100 (payload 7, allocator 1), container 1 owns block
200 (payload 9, allocator 2). -/
def demo_state : State Nat :=
  { mem := { heap := [(200, ⟨200, 9, ⟨2⟩⟩), (100, ⟨100, 7, ⟨1⟩⟩)],
             log := [.allocate ⟨1⟩ 100, .construct ⟨1⟩ 100,
                     .allocate ⟨2⟩ 200, .construct ⟨2⟩ 200] },
    objs := [some ⟨some 100, ⟨1⟩⟩, some ⟨some 200, ⟨2⟩⟩] }

/-- How many times a slot of the store owns the block at `a`: once if the slot
holds a container whose `cb_` is `a`, otherwise not at all. -/
def owns (x : Option Polymorphic) (a : Nat) : Nat :=
  if (x.bind fun y => y.cb_) = some a then 1 else 0

/-- The free store and call record after `reset()` (lines 281-286) of a
container whose data members are `x` and whose block, if it has one, is live:
that block is destroyed through `x.alloc_`. -/
def after_reset (m : Mem V) (x : Polymorphic) : Mem V :=
  match x.cb_ with
  | none => m
  | some p => ⟨remove m.heap p, m.log ++ [.destroy x.alloc_ p, .deallocate x.alloc_ p]⟩

/-- An allocator type with every propagation trait set. -/
def demo_env_propagating : Env Nat :=
  { pocca := true, pocma := true, pocs := true, socc := fun a => a,
    default_alloc := ⟨0⟩, default_value := 0 }

/-- A client program with failing calls: two constructions, a copy assignment
whose payload copy throws, a move assignment whose clone cannot allocate, a
copy and a move construction, a member swap called on a valueless container, a
move assignment that transfers, a destruction, a default construction whose
payload constructor throws, and a copy assignment to a valueless container. -/
def demo_program : List (Op Nat) :=
  [.alloc_in_place ⟨1⟩ 7 (.ok 100), .alloc_in_place ⟨2⟩ 9 (.ok 200),
   .copy_assign 0 1 (.ctor_throws 300), .move_assign 0 1 .bad_alloc, .copy 1 (.ok 100),
   .move 2, .swap 0 1, .move_assign 2 3 .bad_alloc, .destructor 1,
   .default (.ctor_throws 5), .copy_assign 3 0 (.ok 7)]

/-- The state `demo_program` ends in. -/
def demo_final : State Nat :=
  { mem := { heap := [(7, ⟨7, 9, ⟨1⟩⟩), (100, ⟨100, 9, ⟨2⟩⟩), (200, ⟨200, 9, ⟨2⟩⟩)],
             log := [.allocate ⟨1⟩ 100, .construct ⟨1⟩ 100, .allocate ⟨2⟩ 200,
                     .construct ⟨2⟩ 200, .clone ⟨2⟩ 200, .allocate ⟨2⟩ 300,
                     .construct ⟨2⟩ 300, .deallocate ⟨2⟩ 300, .destroy ⟨1⟩ 100,
                     .deallocate ⟨1⟩ 100, .clone ⟨1⟩ 200, .clone ⟨2⟩ 200, .allocate ⟨2⟩ 100,
                     .construct ⟨2⟩ 100, .allocate ⟨0⟩ 5, .construct ⟨0⟩ 5,
                     .deallocate ⟨0⟩ 5, .clone ⟨1⟩ 200, .allocate ⟨1⟩ 7, .construct ⟨1⟩ 7] },
    objs := [some ⟨some 200, ⟨1⟩⟩, none, some ⟨some 100, ⟨2⟩⟩, some ⟨some 7, ⟨2⟩⟩, none] }

/-- The call `op`, made in state `s` and ending with status `st`, is one of the
calls that leave container `k` without a block: a move from `k`, a move
assignment to `k` that reported a failure (it has run `reset()`, line 217), or
a member `swap` with argument `k` called on a valueless container (the
assertion of line 262 is on the argument only). -/
def Op.vacates (op : Op V) (s : State V) (st : Status) (k : Nat) : Bool :=
  match op with
  | .move j => j = k
  | .alloc_move _ j => j = k
  | .move_assign i j _ => j = k || (i = k && st != .returned)
  | .swap i j => j = k && (polymorphic.valueless_after_move i s == some true)
  | _ => false

/-- A program without failure: after the two constructions, container 2 is move
constructed from container 0, then the member `swap` of the now valueless
container 0 is called with container 1. -/
def demo_swap_program : List (Op Nat) :=
  demo_ops ++ [.move 0, .swap 0 1]

/-- The state `demo_swap_program` ends in: container 1 is valueless. -/
def demo_swapped : State Nat :=
  { mem := demo_state.mem,
    objs := [some ⟨some 200, ⟨1⟩⟩, some ⟨none, ⟨2⟩⟩, some ⟨some 100, ⟨1⟩⟩] }

/-- A program with a reported failure: after the two constructions, the move
assignment of container 1 to container 0 takes the clone path and the
allocation fails. -/
def demo_failing_program : List (Op Nat) :=
  demo_ops ++ [.move_assign 0 1 .bad_alloc]

/-- The effect of one call on the list of allocations that have not been
given back: `allocate` adds its address under its allocator, `deallocate`
removes it. -/
def track (acc : List (Alloc × Nat)) (e : Event) : List (Alloc × Nat) :=
  match e with
  | .allocate a mem => (a, mem) :: acc
  | .deallocate a cb => acc.erase (a, cb)
  | _ => acc

/-- The allocations a record of calls leaves outstanding. -/
def outstanding (log : List Event) : List (Alloc × Nat) :=
  log.foldl track []

/-- The state after the first construction of `demo_ops`: container 0, owning
block 100, is the only container. -/
def demo_single : State Nat :=
  { mem := { heap := [(100, ⟨100, 7, ⟨1⟩⟩)],
             log := [.allocate ⟨1⟩ 100, .construct ⟨1⟩ 100] },
    objs := [some ⟨some 100, ⟨1⟩⟩] }

/-! ## Lemmas on the store -/

theorem lookup_mem {h : List (Nat × Block V)} {p : Nat} {cb : Block V}
    (hl : lookup h p = some cb) : (p, cb) ∈ h := by
  induction h with
  | nil => simp [lookup] at hl
  | cons e rest ih =>
    obtain ⟨a, b⟩ := e
    by_cases hap : a = p
    · simp [lookup, hap] at hl
      simp [hap, hl]
    · simp [lookup, hap] at hl
      exact List.mem_cons_of_mem _ (ih hl)

theorem lookup_live {h : List (Nat × Block V)} {p : Nat} {cb : Block V}
    (hl : lookup h p = some cb) : p ∈ live h :=
  List.mem_map.mpr ⟨(p, cb), lookup_mem hl, rfl⟩

theorem live_lookup {h : List (Nat × Block V)} {p : Nat} (hp : p ∈ live h) :
    ∃ cb, lookup h p = some cb := by
  induction h with
  | nil => simp [live] at hp
  | cons e rest ih =>
    obtain ⟨a, b⟩ := e
    by_cases hap : a = p
    · exact ⟨b, by simp [lookup, hap]⟩
    · have : p ∈ live rest := by
        simp only [live, List.map_cons, List.mem_cons] at hp
        rcases hp with hp | hp
        · exact absurd hp.symm hap
        · exact hp
      obtain ⟨cb, hcb⟩ := ih this
      exact ⟨cb, by simp [lookup, hap, hcb]⟩

theorem lookup_cons_ne {h : List (Nat × Block V)} {a p : Nat} (b : Block V) (hap : a ≠ p) :
    lookup ((a, b) :: h) p = lookup h p := by
  simp [lookup, hap]

theorem lookup_cons_eq (h : List (Nat × Block V)) (a : Nat) (b : Block V) :
    lookup ((a, b) :: h) a = some b := by
  simp [lookup]

theorem live_remove (h : List (Nat × Block V)) (p : Nat) :
    live (remove h p) = (live h).erase p := by
  induction h with
  | nil => rfl
  | cons e rest ih =>
    obtain ⟨a, b⟩ := e
    by_cases hap : a = p
    · simp [remove, live, hap]
    · simp only [remove, hap, if_false, live, List.map_cons]
      rw [List.erase_cons_tail (by simpa using hap)]
      simp only [live] at ih
      rw [ih]

theorem lookup_remove_ne {h : List (Nat × Block V)} {p q : Nat} (hpq : p ≠ q) :
    lookup (remove h p) q = lookup h q := by
  induction h with
  | nil => rfl
  | cons e rest ih =>
    obtain ⟨a, b⟩ := e
    by_cases hap : a = p
    · simp [remove, hap, lookup, hpq]
    · by_cases haq : a = q
      · subst haq
        simp [remove, hap, lookup]
      · simp [remove, hap, lookup, haq, ih]

theorem mem_remove {h : List (Nat × Block V)} {p : Nat} {e : Nat × Block V}
    (he : e ∈ remove h p) : e ∈ h := by
  induction h with
  | nil => simp [remove] at he
  | cons e0 rest ih =>
    obtain ⟨a, b⟩ := e0
    by_cases hap : a = p
    · simp only [remove, hap, if_true] at he
      exact List.mem_cons_of_mem _ he
    · simp only [remove, hap, if_false, List.mem_cons] at he
      rcases he with he | he
      · simp [he]
      · exact List.mem_cons_of_mem _ (ih he)

theorem obj_lt {s : State V} {i : Nat} {x : Polymorphic} (h : s.obj i = some x) :
    i < s.objs.length := by
  by_contra hlt
  have hn : s.objs[i]? = none := List.getElem?_eq_none (Nat.le_of_not_lt hlt)
  simp [State.obj, hn] at h

theorem obj_eq_getElem {s : State V} {i : Nat} {x : Polymorphic} (h : s.obj i = some x) :
    s.objs[i]? = some (some x) := by
  have hlt := obj_lt h
  simp only [State.obj, List.getElem?_eq_getElem hlt, Option.getD_some] at h
  simp [List.getElem?_eq_getElem hlt, h]

theorem owned_mem {s : State V} {j p : Nat} {x : Polymorphic}
    (hx : s.obj j = some x) (hp : x.cb_ = some p) : p ∈ owned s.objs :=
  List.mem_filterMap.mpr ⟨some x, List.getElem?_mem (obj_eq_getElem hx), by simp [hp]⟩

theorem inv_owned_lookup {s : State V} (hinv : s.inv) {j p : Nat} {x : Polymorphic}
    (hx : s.obj j = some x) (hp : x.cb_ = some p) :
    ∃ cb, lookup s.mem.heap p = some cb ∧ cb.p_ = p := by
  obtain ⟨cb, hcb⟩ := live_lookup (hinv.1.subset (owned_mem hx hp))
  exact ⟨cb, hcb, hinv.2.2 _ (lookup_mem hcb)⟩

/-! ## Copy construction -/

theorem alloc_copy_ok {s : State V} {j p : Nat} {x : Polymorphic} {cb : Block V}
    (alloc : Alloc) (mem : Nat) (hx : s.obj j = some x) (hp : x.cb_ = some p)
    (hcb : lookup s.mem.heap p = some cb) :
    polymorphic.alloc_copy alloc j (.ok mem) s =
      some (⟨⟨(mem, ⟨mem, cb.u_, alloc⟩) :: s.mem.heap,
              s.mem.log ++ [.clone alloc p] ++ [.allocate alloc mem, .construct alloc mem]⟩,
             s.objs ++ [some ⟨some mem, alloc⟩]⟩, .returned) := by
  simp [polymorphic.alloc_copy, hx, hp, control_block.clone, hcb, allocate_construct,
    State.new_obj]

theorem copy_eq_alloc_copy (env : Env V) {s : State V} {j : Nat} {x : Polymorphic} (o : Oracle)
    (hx : s.obj j = some x) :
    polymorphic.copy env j o s = polymorphic.alloc_copy (env.socc x.alloc_) j o s := by
  simp [polymorphic.copy, hx]

/-- C1 (deep-copy law). In a state satisfying the ownership invariant, let
container `j` own the block at `p`. A copy construction from `j` that succeeds,
in the plain or in the allocator-extended form, with the allocator handing out
an address `mem` that is not live, returns with a new container (identity
`s.objs.length`) that is not valueless and owns the block at `mem`; the value
accessed through it equals the value accessed through `j`; `mem` differs from
`p` and so do the two payload addresses; container `j`, its block and its
value are unchanged. -/
theorem copy_construct_deep_copy (env : Env V) (alloc : Alloc) (s : State V) (j p mem : Nat)
    (x : Polymorphic) (hinv : s.inv) (hx : s.obj j = some x) (hp : x.cb_ = some p)
    (hfresh : (Oracle.ok mem).fresh s.mem.heap) :
    ∀ r ∈ [polymorphic.copy env j (.ok mem) s, polymorphic.alloc_copy alloc j (.ok mem) s],
      ∃ s' y v, r = some (s', .returned) ∧
        s'.obj s.objs.length = some y ∧ y.cb_ = some mem ∧
        polymorphic.valueless_after_move s.objs.length s' = some false ∧
        polymorphic.deref j s = some v ∧ polymorphic.deref s.objs.length s' = some v ∧
        mem ≠ p ∧
        polymorphic.arrow s.objs.length s' = some mem ∧ polymorphic.arrow j s' = some p ∧
        s'.obj j = some x ∧ lookup s'.mem.heap p = lookup s.mem.heap p ∧
        polymorphic.deref j s' = some v := by
  obtain ⟨cb, hcb, hself⟩ := inv_owned_lookup hinv hx hp
  have hne : mem ≠ p := fun h => hfresh mem rfl (h ▸ lookup_live hcb)
  have hlt := obj_lt hx
  have key : ∀ a : Alloc, ∃ s' y v,
      polymorphic.alloc_copy a j (.ok mem) s = some (s', .returned) ∧
        s'.obj s.objs.length = some y ∧ y.cb_ = some mem ∧
        polymorphic.valueless_after_move s.objs.length s' = some false ∧
        polymorphic.deref j s = some v ∧ polymorphic.deref s.objs.length s' = some v ∧
        mem ≠ p ∧
        polymorphic.arrow s.objs.length s' = some mem ∧ polymorphic.arrow j s' = some p ∧
        s'.obj j = some x ∧ lookup s'.mem.heap p = lookup s.mem.heap p ∧
        polymorphic.deref j s' = some v := by
    intro a
    refine ⟨_, ⟨some mem, a⟩, cb.u_, alloc_copy_ok a mem hx hp hcb, ?_⟩
    have hx2 := obj_eq_getElem hx
    simp [State.obj, polymorphic.valueless_after_move, polymorphic.deref, polymorphic.arrow,
      List.getElem?_append_left hlt, hx2, hp, hcb, hself, lookup, hne]
  intro r hr
  simp only [List.mem_cons, List.mem_singleton, List.not_mem_nil, or_false] at hr
  rcases hr with rfl | rfl
  · rw [copy_eq_alloc_copy env _ hx]; exact key _
  · exact key _

/-- C1 instantiated: copying container 0 of `demo_state` into a block at 300. -/
theorem copy_construct_deep_copy_witness :
    demo_state.inv ∧ demo_state.obj 0 = some ⟨some 100, ⟨1⟩⟩ ∧
      (Oracle.ok 300).fresh demo_state.mem.heap ∧
      ∀ r ∈ [polymorphic.copy demo_env 0 (.ok 300) demo_state,
              polymorphic.alloc_copy ⟨5⟩ 0 (.ok 300) demo_state],
        ∃ s' y v, r = some (s', .returned) ∧
          s'.obj demo_state.objs.length = some y ∧ y.cb_ = some 300 ∧
          polymorphic.valueless_after_move demo_state.objs.length s' = some false ∧
          polymorphic.deref 0 demo_state = some v ∧
          polymorphic.deref demo_state.objs.length s' = some v ∧
          300 ≠ 100 ∧
          polymorphic.arrow demo_state.objs.length s' = some 300 ∧
          polymorphic.arrow 0 s' = some 100 ∧
          s'.obj 0 = some ⟨some 100, ⟨1⟩⟩ ∧
          lookup s'.mem.heap 100 = lookup demo_state.mem.heap 100 ∧
          polymorphic.deref 0 s' = some v :=
  ⟨by decide, rfl, by decide,
    copy_construct_deep_copy demo_env ⟨5⟩ demo_state 0 100 300 ⟨some 100, ⟨1⟩⟩
      (by decide) rfl rfl (by decide)⟩

/-! ## Move construction -/

theorem alloc_move_ok {s : State V} {j p : Nat} {x : Polymorphic} (alloc : Alloc)
    (hx : s.obj j = some x) (hp : x.cb_ = some p) :
    polymorphic.alloc_move alloc j s =
      some (⟨s.mem, s.objs.set j (some ⟨none, x.alloc_⟩) ++ [some ⟨some p, alloc⟩]⟩,
        .returned) := by
  simp [polymorphic.alloc_move, hx, hp, State.set_cb, State.set_obj, State.new_obj]

theorem move_eq_alloc_move {s : State V} {j : Nat} {x : Polymorphic}
    (hx : s.obj j = some x) :
    polymorphic.move j s = polymorphic.alloc_move x.alloc_ j s := by
  simp [polymorphic.move, hx]

/-- C2 (move construction). In a state satisfying the ownership invariant, let
container `j` own the block at `p`. Move construction from `j`, in the plain or
in the allocator-extended form, returns (it has no failing outcome); afterwards
`valueless_after_move()` of `j` is true, the new container (identity
`s.objs.length`) owns the block at `p`, the free store and the record of
allocator and vtable calls are what they were (nothing allocated, cloned or
destroyed), and the value accessed through the new container is the value that
was accessed through `j` before. -/
theorem move_construct_transfers (alloc : Alloc) (s : State V) (j p : Nat)
    (x : Polymorphic) (hinv : s.inv) (hx : s.obj j = some x) (hp : x.cb_ = some p) :
    ∀ r ∈ [polymorphic.move j s, polymorphic.alloc_move alloc j s],
      ∃ s' y v, r = some (s', .returned) ∧
        polymorphic.valueless_after_move j s' = some true ∧
        s'.obj s.objs.length = some y ∧ y.cb_ = some p ∧
        s'.mem = s.mem ∧
        polymorphic.deref j s = some v ∧ polymorphic.deref s.objs.length s' = some v := by
  obtain ⟨cb, hcb, hself⟩ := inv_owned_lookup hinv hx hp
  have hlt := obj_lt hx
  have key : ∀ a : Alloc, ∃ s' y v,
      polymorphic.alloc_move a j s = some (s', .returned) ∧
        polymorphic.valueless_after_move j s' = some true ∧
        s'.obj s.objs.length = some y ∧ y.cb_ = some p ∧
        s'.mem = s.mem ∧
        polymorphic.deref j s = some v ∧ polymorphic.deref s.objs.length s' = some v := by
    intro a
    refine ⟨_, ⟨some p, a⟩, cb.u_, alloc_move_ok a hx hp, ?_⟩
    have hx2 := obj_eq_getElem hx
    have hlt2 : j < (s.objs.set j (some ⟨none, x.alloc_⟩)).length := by simpa using hlt
    simp [State.obj, polymorphic.valueless_after_move, polymorphic.deref, polymorphic.arrow,
      List.getElem?_append_left hlt2, List.getElem?_set, hlt, hx2, hp, hcb, hself]
  intro r hr
  simp only [List.mem_cons, List.mem_singleton, List.not_mem_nil, or_false] at hr
  rcases hr with rfl | rfl
  · rw [move_eq_alloc_move hx]; exact key _
  · exact key _

/-- C2 instantiated: moving from container 1 of `demo_state`. -/
theorem move_construct_transfers_witness :
    demo_state.inv ∧ demo_state.obj 1 = some ⟨some 200, ⟨2⟩⟩ ∧
      ∀ r ∈ [polymorphic.move 1 demo_state, polymorphic.alloc_move ⟨5⟩ 1 demo_state],
        ∃ s' y v, r = some (s', .returned) ∧
          polymorphic.valueless_after_move 1 s' = some true ∧
          s'.obj demo_state.objs.length = some y ∧ y.cb_ = some 200 ∧
          s'.mem = demo_state.mem ∧
          polymorphic.deref 1 demo_state = some v ∧
          polymorphic.deref demo_state.objs.length s' = some v :=
  ⟨by decide, rfl,
    move_construct_transfers ⟨5⟩ demo_state 1 200 ⟨some 200, ⟨2⟩⟩ (by decide) rfl rfl⟩

/-! ## Copy assignment -/

theorem alloc_copy_fail {s : State V} {j q : Nat} {y : Polymorphic} {cb : Block V}
    (alloc : Alloc) (o : Oracle) (hy : s.obj j = some y) (hq : y.cb_ = some q)
    (hcb : lookup s.mem.heap q = some cb) (ho : ∀ mem, o ≠ .ok mem) :
    ∃ m f, polymorphic.alloc_copy alloc j o s = some (⟨m, s.objs⟩, .threw f) ∧
      m.heap = s.mem.heap := by
  cases o with
  | bad_alloc =>
    exact ⟨⟨s.mem.heap, s.mem.log ++ [.clone alloc q]⟩, .bad_alloc,
      by simp [polymorphic.alloc_copy, hy, hq, control_block.clone, hcb, allocate_construct],
      rfl⟩
  | ctor_throws mem =>
    exact ⟨⟨s.mem.heap, s.mem.log ++ [.clone alloc q] ++
        [.allocate alloc mem, .construct alloc mem, .deallocate alloc mem]⟩, .construction,
      by simp [polymorphic.alloc_copy, hy, hq, control_block.clone, hcb, allocate_construct],
      rfl⟩
  | ok mem => exact absurd rfl (ho mem)

/-- C3 (copy assignment, strong guarantee on the value). In a state satisfying
the ownership invariant, let container `i` own the block at `p` and a different
container `j` own the block at `q`. Under either value of
`propagate_on_container_copy_assignment`, if the clone step of `i = j` fails
(the allocation fails, or it succeeds and the payload's copy constructor
throws), the assignment reports the failure and afterwards `i` is not
valueless, owns the block at `p`, the free store holds the same blocks with the
same contents, the value accessed through `i` is the one accessed before, and
container `j` and the value accessed through it are unchanged. -/
theorem copy_assign_failure_keeps_value (env : Env V) (s : State V) (i j p q : Nat)
    (x y : Polymorphic) (o : Oracle) (hinv : s.inv) (hij : i ≠ j)
    (hx : s.obj i = some x) (hp : x.cb_ = some p)
    (hy : s.obj j = some y) (hq : y.cb_ = some q) (ho : ∀ mem, o ≠ .ok mem) :
    ∃ s' f x' v, polymorphic.copy_assign env i j o s = some (s', .threw f) ∧
      s'.obj i = some x' ∧ x'.cb_ = some p ∧
      polymorphic.valueless_after_move i s' = some false ∧
      s'.mem.heap = s.mem.heap ∧
      polymorphic.deref i s = some v ∧ polymorphic.deref i s' = some v ∧
      s'.obj j = some y ∧ polymorphic.deref j s' = polymorphic.deref j s := by
  obtain ⟨cb, hcb, hself⟩ := inv_owned_lookup hinv hx hp
  obtain ⟨cq, hcq, hselfq⟩ := inv_owned_lookup hinv hy hq
  have hlt := obj_lt hx
  have hx2 := obj_eq_getElem hx
  have hy2 := obj_eq_getElem hy
  cases hpo : env.pocca with
  | false =>
    obtain ⟨m, f, hm, hheap⟩ := alloc_copy_fail (env.socc y.alloc_) o hy hq hcq ho
    refine ⟨⟨m, s.objs⟩, f, x, cb.u_, ?_, ?_⟩
    · simp [polymorphic.copy_assign, hx, hy, hq, hij, hpo, copy_eq_alloc_copy env o hy, hm]
    · simp [State.obj, polymorphic.valueless_after_move, polymorphic.deref, polymorphic.arrow,
        hx2, hy2, hp, hq, hcb, hcq, hself, hselfq, hheap]
  | true =>
    have hj1 : State.obj (V := V) ⟨s.mem, s.objs.set i (some ⟨x.cb_, y.alloc_⟩)⟩ j = some y := by
      simp [State.obj, List.getElem?_set, hij, hy2]
    obtain ⟨m, f, hm, hheap⟩ := alloc_copy_fail (s := ⟨s.mem, s.objs.set i (some ⟨x.cb_, y.alloc_⟩)⟩)
      y.alloc_ o hj1 hq hcq ho
    refine ⟨⟨m, s.objs.set i (some ⟨x.cb_, y.alloc_⟩)⟩, f, ⟨x.cb_, y.alloc_⟩, cb.u_, ?_, ?_⟩
    · simp [polymorphic.copy_assign, hx, hy, hq, hij, hpo, State.set_alloc, State.set_obj]
      simp [State.obj, List.getElem?_set, hlt]
      rw [hm]
    · simp at hheap
      simp [State.obj, polymorphic.valueless_after_move, polymorphic.deref, polymorphic.arrow,
        List.getElem?_set, hlt, hij, hx2, hy2, hp, hq, hcb, hcq, hself, hselfq, hheap]

/-- C3 instantiated: `propagate_on_container_copy_assignment` set, the payload's
copy constructor throws in the block at 300. -/
theorem copy_assign_failure_keeps_value_witness :
    demo_state.inv ∧ (0 : Nat) ≠ 1 ∧ demo_state.obj 0 = some ⟨some 100, ⟨1⟩⟩ ∧
      demo_state.obj 1 = some ⟨some 200, ⟨2⟩⟩ ∧
      (∀ mem, Oracle.ctor_throws 300 ≠ .ok mem) ∧
      ∃ s' f x' v,
        polymorphic.copy_assign { demo_env with pocca := true } 0 1 (.ctor_throws 300) demo_state
          = some (s', .threw f) ∧
        s'.obj 0 = some x' ∧ x'.cb_ = some 100 ∧
        polymorphic.valueless_after_move 0 s' = some false ∧
        s'.mem.heap = demo_state.mem.heap ∧
        polymorphic.deref 0 demo_state = some v ∧ polymorphic.deref 0 s' = some v ∧
        s'.obj 1 = some ⟨some 200, ⟨2⟩⟩ ∧
        polymorphic.deref 1 s' = polymorphic.deref 1 demo_state :=
  ⟨by decide, by decide, rfl, rfl, (fun _ h => by cases h),
    copy_assign_failure_keeps_value { demo_env with pocca := true } demo_state 0 1 100 200
      ⟨some 100, ⟨1⟩⟩ ⟨some 200, ⟨2⟩⟩ (.ctor_throws 300) (by decide) (by decide) rfl rfl rfl rfl
      (fun _ h => by cases h)⟩

/-! ## Counting owners -/

theorem count_owned_cons (x : Option Polymorphic) (l : List (Option Polymorphic)) (a : Nat) :
    (owned (x :: l)).count a = owns x a + (owned l).count a := by
  unfold owned owns
  cases h : (x.bind fun y => y.cb_) with
  | none => simp [List.filterMap_cons, h]
  | some b =>
    by_cases hb : b = a
    · simp [List.filterMap_cons, h, hb]; omega
    · simp [List.filterMap_cons, h, hb, List.count_cons]

theorem count_owned_append (l : List (Option Polymorphic)) (x : Option Polymorphic) (a : Nat) :
    (owned (l ++ [x])).count a = (owned l).count a + owns x a := by
  induction l with
  | nil => simpa [owned] using count_owned_cons x [] a
  | cons y l ih =>
    rw [List.cons_append, count_owned_cons, count_owned_cons, ih]; omega

theorem count_owned_set {l : List (Option Polymorphic)} {i : Nat} {old : Option Polymorphic}
    (new : Option Polymorphic) (a : Nat) (h : l[i]? = some old) :
    (owned (l.set i new)).count a + owns old a = (owned l).count a + owns new a := by
  induction l generalizing i with
  | nil => simp at h
  | cons y l ih =>
    cases i with
    | zero =>
      simp at h
      subst h
      simp only [List.set_cons_zero, count_owned_cons]; omega
    | succ i =>
      simp at h
      have := ih h
      simp only [List.set_cons_succ, count_owned_cons]; omega

theorem inv_count {s : State V} (hinv : s.inv) (a : Nat) :
    (owned s.objs).count a = (live s.mem.heap).count a ∧ (live s.mem.heap).count a ≤ 1 :=
  ⟨hinv.1.count_eq a, List.nodup_iff_count_le_one.mp hinv.2.1 a⟩

theorem inv_distinct {s : State V} (hinv : s.inv) {i j p q : Nat} {x y : Polymorphic}
    (hij : i ≠ j) (hx : s.obj i = some x) (hp : x.cb_ = some p)
    (hy : s.obj j = some y) (hq : y.cb_ = some q) : p ≠ q := by
  intro hpq
  subst hpq
  have h1 := count_owned_set none p (obj_eq_getElem hx)
  have hj : (s.objs.set i none)[j]? = some (some y) := by
    rw [List.getElem?_set_ne hij]; exact obj_eq_getElem hy
  have h2 := count_owned_set none p hj
  have h3 := inv_count hinv p
  simp [owns, hp, hq] at h1 h2
  omega

/-- C4 (copy assignment without propagation), evaluated on `demo_state` with
`propagate_on_container_copy_assignment` not set: `t = s` for container 0
(allocator 1) and container 1 (allocator 2) builds its temporary with the plain
copy constructor (line 207), so the block at 300 that container 0 owns
afterwards was allocated through `select_on_container_copy_construction` of
the allocator of `s`, which is allocator 2, and not through allocator 1, which
container 0 still holds; the former block of container 0, at 100, is destroyed
through allocator 2. With `propagate_on_container_swap` set, the same
assignment replaces the allocator of container 0 by allocator 2. -/
theorem copy_assign_clones_through_source_allocator :
    (∃ s' x cb,
      polymorphic.copy_assign demo_env 0 1 (.ok 300) demo_state = some (s', .returned) ∧
      s'.obj 0 = some x ∧ x.cb_ = some 300 ∧ x.alloc_ = ⟨1⟩ ∧
      lookup s'.mem.heap 300 = some cb ∧ cb.allocated_by = ⟨2⟩ ∧
      Event.allocate ⟨2⟩ 300 ∈ s'.mem.log ∧ Event.allocate ⟨1⟩ 300 ∉ s'.mem.log ∧
      Event.destroy ⟨2⟩ 100 ∈ s'.mem.log) ∧
    (∃ s' x,
      polymorphic.copy_assign { demo_env with pocs := true } 0 1 (.ok 300) demo_state
        = some (s', .returned) ∧
      demo_state.obj 0 = some ⟨some 100, ⟨1⟩⟩ ∧ s'.obj 0 = some x ∧ x.alloc_ = ⟨2⟩) :=
  ⟨⟨_, _, _, rfl, rfl, rfl, rfl, rfl, rfl, by decide, by decide, by decide⟩,
   ⟨_, _, rfl, rfl, rfl, rfl⟩⟩

/-! ## Move assignment -/

theorem set_self {α : Type} {l : List α} {i : Nat} {a : α} (h : l[i]? = some a) :
    l.set i a = l := by
  induction l generalizing i with
  | nil => rfl
  | cons y l ih =>
    cases i with
    | zero => simp at h; simp [h]
    | succ i => simp at h; simp [ih h]

theorem set_set_set {α : Type} (l : List α) {i j : Nat} (a b c : α) (hij : i ≠ j) :
    ((l.set i a).set j b).set i c = (l.set i c).set j b := by
  rw [List.set_comm _ _ _ (fun h => hij h.symm), List.set_set]

theorem obj_getElem {s : State V} {i : Nat} {x : Polymorphic} (h : s.obj i = some x)
    (hlt : i < s.objs.length) : s.objs[i] = some x := by
  have := obj_eq_getElem h
  rw [List.getElem?_eq_getElem hlt] at this
  exact Option.some.inj this

theorem reset_ok {s : State V} (hinv : s.inv) {i : Nat} {x : Polymorphic}
    (hx : s.obj i = some x) :
    polymorphic.reset i s =
      some ⟨after_reset s.mem x, s.objs.set i (some ⟨none, x.alloc_⟩)⟩ := by
  cases hp : x.cb_ with
  | none =>
    have hx2 := obj_eq_getElem hx
    have hxe : x = ⟨none, x.alloc_⟩ := by cases x; simp_all
    rw [← hxe, set_self hx2]
    simp [polymorphic.reset, hx, hp, after_reset]
  | some p =>
    obtain ⟨cb, hcb, _⟩ := inv_owned_lookup hinv hx hp
    simp [polymorphic.reset, hx, hp, after_reset, control_block.destroy, hcb, State.set_cb,
      State.set_obj, State.obj, obj_eq_getElem hx]

theorem move_assign_direct_ok (env : Env V) {s : State V} (hinv : s.inv) {i j q : Nat}
    {x y : Polymorphic} (o : Oracle) (hij : i ≠ j)
    (hx : s.obj i = some x) (hy : s.obj j = some y) (hq : y.cb_ = some q)
    (hd : env.pocma = true ∨ x.alloc_ = y.alloc_) :
    polymorphic.move_assign env i j o s =
      some (⟨after_reset s.mem x,
          (s.objs.set i (some ⟨some q, if env.pocma then y.alloc_ else x.alloc_⟩)).set j
            (some ⟨none, y.alloc_⟩)⟩, .returned) := by
  have hlt := obj_lt hx
  have hlt2 := obj_lt hy
  have hy2 := obj_eq_getElem hy
  have hji : j ≠ i := fun h => hij h.symm
  have hx3 := obj_getElem hx hlt
  have hy3 := obj_getElem hy hlt2
  cases hpm : env.pocma with
  | true =>
    simp [polymorphic.move_assign, hx, hy, hq, reset_ok hinv hx, hpm, State.obj, State.set_cb,
      State.set_obj, State.set_alloc, List.getElem?_set, hlt, hlt2, hij, hji, hy2, hx3, hy3, set_set_set]
  | false =>
    have he : x.alloc_ = y.alloc_ := by simpa [hpm] using hd
    simp [polymorphic.move_assign, hx, hy, hq, reset_ok hinv hx, hpm, State.obj, State.set_cb,
      State.set_obj, State.set_alloc, List.getElem?_set, hlt, hlt2, hij, hji, hy2, hx3, hy3, he, set_set_set]
theorem deref_of_lookup {s : State V} {i p : Nat} {x : Polymorphic} {cb : Block V}
    (hx : s.obj i = some x) (hp : x.cb_ = some p) (hcb : lookup s.mem.heap p = some cb)
    (hself : cb.p_ = p) :
    polymorphic.arrow i s = some p ∧ polymorphic.deref i s = some cb.u_ := by
  have ha : polymorphic.arrow i s = some p := by
    simp [polymorphic.arrow, hx, hp, hcb, hself]
  exact ⟨ha, by simp [polymorphic.deref, ha, hcb]⟩

theorem lookup_not_live {h : List (Nat × Block V)} {p : Nat} (hp : p ∉ live h) :
    lookup h p = none := by
  cases hl : lookup h p with
  | none => rfl
  | some cb => exact absurd (lookup_live hl) hp

theorem lookup_remove_self {h : List (Nat × Block V)} (hn : (live h).Nodup) (p : Nat) :
    lookup (remove h p) p = none := by
  apply lookup_not_live
  rw [live_remove]
  exact hn.not_mem_erase

theorem after_reset_heap (m : Mem V) (x : Polymorphic) {q : Nat} (hq : x.cb_ ≠ some q) :
    lookup (after_reset m x).heap q = lookup m.heap q := by
  cases hp : x.cb_ with
  | none => simp [after_reset, hp]
  | some p =>
    have hpq : p ≠ q := fun h => hq (by rw [hp, h])
    simp [after_reset, hp, lookup_remove_ne hpq]

theorem after_reset_counts (m : Mem V) (x : Polymorphic) (q : Nat) :
    clones (after_reset m x).log = clones m.log ∧
      allocations (after_reset m x).log = allocations m.log ∧
      destroys (after_reset m x).log q = destroys m.log q + owns (some x) q := by
  cases hp : x.cb_ with
  | none => simp [after_reset, hp, owns]
  | some p =>
    by_cases hpq : p = q
    · simp [after_reset, hp, owns, clones, allocations, destroys, List.filter_append, hpq]
    · simp [after_reset, hp, owns, clones, allocations, destroys, List.filter_append, hpq]

/-- C5 (move assignment, direct transfer). In a state satisfying the ownership
invariant, let `i` and `j` be different containers, `j` owning the block at
`q`. If `propagate_on_container_move_assignment` is set, or it is not set and
the two allocators compare equal, then `i = std::move(j)` returns; the free
store and the call record are those left by `reset()` of `i` (the block `i`
owned, if any, is gone and was destroyed once, nothing else was destroyed,
cloned or allocated); `i` owns the block at `q`, which is untouched, so the
value accessed through `i` is the value accessed through `j` before; `j` is
valueless; and when the trait is set the allocator of `i` is that of `j`. -/
theorem move_assign_direct_transfer (env : Env V) (s : State V) (i j q : Nat)
    (x y : Polymorphic) (o : Oracle) (hinv : s.inv) (hij : i ≠ j)
    (hx : s.obj i = some x) (hy : s.obj j = some y) (hq : y.cb_ = some q)
    (hd : env.pocma = true ∨ (env.pocma = false ∧ x.alloc_ = y.alloc_)) :
    ∃ s' v, polymorphic.move_assign env i j o s = some (s', .returned) ∧
      s'.mem = after_reset s.mem x ∧
      (∀ p, x.cb_ = some p →
        lookup s'.mem.heap p = none ∧ destroys s'.mem.log p = destroys s.mem.log p + 1) ∧
      destroys s'.mem.log q = destroys s.mem.log q ∧
      clones s'.mem.log = clones s.mem.log ∧
      allocations s'.mem.log = allocations s.mem.log ∧
      s'.obj i = some ⟨some q, if env.pocma then y.alloc_ else x.alloc_⟩ ∧
      lookup s'.mem.heap q = lookup s.mem.heap q ∧
      polymorphic.deref j s = some v ∧ polymorphic.deref i s' = some v ∧
      s'.obj j = some ⟨none, y.alloc_⟩ ∧
      polymorphic.valueless_after_move j s' = some true ∧
      (env.pocma = true → polymorphic.get_allocator i s' = some y.alloc_) := by
  obtain ⟨cq, hcq, hselfq⟩ := inv_owned_lookup hinv hy hq
  have hlt := obj_lt hx
  have hlt2 := obj_lt hy
  have hji : j ≠ i := fun h => hij h.symm
  have hne : x.cb_ ≠ some q := fun h => inv_distinct hinv hij hx h hy hq rfl
  have hd' : env.pocma = true ∨ x.alloc_ = y.alloc_ := hd.imp id And.right
  have hcnt := after_reset_counts s.mem x
  have hheap := after_reset_heap s.mem x hne
  refine ⟨_, cq.u_, move_assign_direct_ok env hinv o hij hx hy hq hd', rfl, ?_, ?_, (hcnt q).1,
    (hcnt q).2.1, ?_, hheap, ?_, ?_, ?_, ?_, ?_⟩
  · intro p hp
    refine ⟨?_, ?_⟩
    · simp [after_reset, hp, lookup_remove_self hinv.2.1]
    · rw [(hcnt p).2.2]; simp [owns, hp]
  · rw [(hcnt q).2.2]; simp [owns, hne]
  · simp [State.obj, List.getElem?_set, hlt, hlt2, hij, hji]
  · exact (deref_of_lookup hy hq hcq hselfq).2
  · simp [polymorphic.deref, polymorphic.arrow, State.obj, List.getElem?_set, hlt, hlt2, hij,
      hji, hheap, hcq, hselfq]
  · simp [State.obj, List.getElem?_set, hlt, hlt2, hij, hji]
  · simp [polymorphic.valueless_after_move, State.obj, List.getElem?_set, hlt, hlt2, hij, hji]
  · intro hpm
    simp [polymorphic.get_allocator, State.obj, List.getElem?_set, hlt, hlt2, hij, hji, hpm]

/-- C5 instantiated: the trait is set, container 0 takes the block of container 1. -/
theorem move_assign_direct_transfer_witness :
    demo_state.inv ∧ (0 : Nat) ≠ 1 ∧ demo_state.obj 0 = some ⟨some 100, ⟨1⟩⟩ ∧
      demo_state.obj 1 = some ⟨some 200, ⟨2⟩⟩ ∧
      (demo_env_propagating.pocma = true ∨
        (demo_env_propagating.pocma = false ∧ (⟨1⟩ : Alloc) = ⟨2⟩)) ∧
      ∃ s' v,
        polymorphic.move_assign demo_env_propagating 0 1 .bad_alloc demo_state
          = some (s', .returned) ∧
        s'.mem = after_reset demo_state.mem ⟨some 100, ⟨1⟩⟩ ∧
        (∀ p, (⟨some 100, ⟨1⟩⟩ : Polymorphic).cb_ = some p →
          lookup s'.mem.heap p = none ∧
            destroys s'.mem.log p = destroys demo_state.mem.log p + 1) ∧
        destroys s'.mem.log 200 = destroys demo_state.mem.log 200 ∧
        clones s'.mem.log = clones demo_state.mem.log ∧
        allocations s'.mem.log = allocations demo_state.mem.log ∧
        s'.obj 0 = some ⟨some 200,
          if demo_env_propagating.pocma then (⟨2⟩ : Alloc) else ⟨1⟩⟩ ∧
        lookup s'.mem.heap 200 = lookup demo_state.mem.heap 200 ∧
        polymorphic.deref 1 demo_state = some v ∧ polymorphic.deref 0 s' = some v ∧
        s'.obj 1 = some ⟨none, ⟨2⟩⟩ ∧
        polymorphic.valueless_after_move 1 s' = some true ∧
        (demo_env_propagating.pocma = true → polymorphic.get_allocator 0 s' = some ⟨2⟩) :=
  ⟨by decide, by decide, rfl, rfl, Or.inl rfl,
    move_assign_direct_transfer demo_env_propagating demo_state 0 1 200
      ⟨some 100, ⟨1⟩⟩ ⟨some 200, ⟨2⟩⟩ .bad_alloc (by decide) (by decide) rfl rfl rfl
      (Or.inl rfl)⟩

theorem move_assign_clone_ok (env : Env V) {s : State V} (hinv : s.inv) {i j q mem : Nat}
    {x y : Polymorphic} {cq : Block V} (hij : i ≠ j)
    (hx : s.obj i = some x) (hy : s.obj j = some y) (hq : y.cb_ = some q)
    (hcq : lookup s.mem.heap q = some cq)
    (hpm : env.pocma = false) (hne : x.alloc_ ≠ y.alloc_) (hmem : mem ≠ q) :
    polymorphic.move_assign env i j (.ok mem) s =
      some (⟨⟨remove ((mem, ⟨mem, cq.u_, x.alloc_⟩) :: (after_reset s.mem x).heap) q,
            (after_reset s.mem x).log ++
              [.clone x.alloc_ q, .allocate x.alloc_ mem, .construct x.alloc_ mem,
                .destroy y.alloc_ q, .deallocate y.alloc_ q]⟩,
          (s.objs.set i (some ⟨some mem, x.alloc_⟩)).set j (some ⟨none, y.alloc_⟩)⟩,
        .returned) := by
  have hlt := obj_lt hx
  have hlt2 := obj_lt hy
  have hy2 := obj_eq_getElem hy
  have hji : j ≠ i := fun h => hij h.symm
  have hx3 := obj_getElem hx hlt
  have hy3 := obj_getElem hy hlt2
  have hxq : x.cb_ ≠ some q := fun h => inv_distinct hinv hij hx h hy hq rfl
  have hheap := after_reset_heap s.mem x hxq
  simp [polymorphic.move_assign, hx, hy, hq, reset_ok hinv hx, hpm, State.obj, State.set_cb,
    State.set_obj, State.set_alloc, List.getElem?_set, hlt, hlt2, hij, hji, hy2, hx3, hy3, hne,
    control_block.clone, hheap, hcq, allocate_construct]
  simp [polymorphic.reset, State.obj, State.set_cb, State.set_obj, List.getElem?_set, hlt, hlt2,
    hij, hji, hy2, hy3, hq, control_block.destroy, lookup, hmem, hheap, hcq]

theorem after_reset_nodup {m : Mem V} (hn : (live m.heap).Nodup) (x : Polymorphic) :
    (live (after_reset m x).heap).Nodup := by
  cases hp : x.cb_ with
  | none => simpa [after_reset, hp] using hn
  | some p =>
    simp only [after_reset, hp, live_remove]
    exact hn.erase p

/-- C6 (move assignment, clone path). In a state satisfying the ownership
invariant, let `i` and `j` be different containers, `j` owning the block at
`q`, with `propagate_on_container_move_assignment` not set and unequal
allocators. If the clone succeeds at an address `mem` that is not live after
`reset()` of `i`, then `i = std::move(j)` returns; `i` keeps its allocator and
owns the block at `mem`, which was allocated through that allocator and whose
payload is the value accessed through `j` before; `mem` differs from `q`; `j`
is valueless and the block at `q` is gone; after `reset()` of `i` the calls made
are the clone of `q` through the allocator of `i` and one destroy and
deallocate of `q` through the allocator of `j`. -/
theorem move_assign_clone (env : Env V) (s : State V) (i j q mem : Nat)
    (x y : Polymorphic) (hinv : s.inv) (hij : i ≠ j)
    (hx : s.obj i = some x) (hy : s.obj j = some y) (hq : y.cb_ = some q)
    (hpm : env.pocma = false) (hne : x.alloc_ ≠ y.alloc_)
    (hfresh : (Oracle.ok mem).fresh (after_reset s.mem x).heap) :
    ∃ s' v cb, polymorphic.move_assign env i j (.ok mem) s = some (s', .returned) ∧
      s'.obj i = some ⟨some mem, x.alloc_⟩ ∧
      lookup s'.mem.heap mem = some cb ∧ cb.allocated_by = x.alloc_ ∧
      polymorphic.deref j s = some v ∧ polymorphic.deref i s' = some v ∧
      mem ≠ q ∧
      s'.obj j = some ⟨none, y.alloc_⟩ ∧
      polymorphic.valueless_after_move j s' = some true ∧
      lookup s'.mem.heap q = none ∧
      s'.mem.log = (after_reset s.mem x).log ++
        [.clone x.alloc_ q, .allocate x.alloc_ mem, .construct x.alloc_ mem,
          .destroy y.alloc_ q, .deallocate y.alloc_ q] ∧
      destroys s'.mem.log q = destroys s.mem.log q + 1 := by
  obtain ⟨cq, hcq, hselfq⟩ := inv_owned_lookup hinv hy hq
  have hlt := obj_lt hx
  have hlt2 := obj_lt hy
  have hji : j ≠ i := fun h => hij h.symm
  have hxq : x.cb_ ≠ some q := fun h => inv_distinct hinv hij hx h hy hq rfl
  have hheap := after_reset_heap s.mem x hxq
  have hmem : mem ≠ q := fun h =>
    hfresh mem rfl (h ▸ lookup_live (hheap.trans hcq))
  have hcnt := after_reset_counts s.mem x q
  have hnd := after_reset_nodup hinv.2.1 x
  refine ⟨_, cq.u_, ⟨mem, cq.u_, x.alloc_⟩,
    move_assign_clone_ok env hinv hij hx hy hq hcq hpm hne hmem, ?_, ?_, rfl, ?_, ?_, hmem,
    ?_, ?_, ?_, rfl, ?_⟩
  · simp [State.obj, List.getElem?_set, hlt, hlt2, hij, hji]
  · simp [remove, hmem, lookup]
  · exact (deref_of_lookup hy hq hcq hselfq).2
  · simp [polymorphic.deref, polymorphic.arrow, State.obj, List.getElem?_set, hlt, hlt2, hij,
      hji, remove, hmem, lookup]
  · simp [State.obj, List.getElem?_set, hlt, hlt2, hij, hji]
  · simp [polymorphic.valueless_after_move, State.obj, List.getElem?_set, hlt, hlt2, hij, hji]
  · simp [remove, hmem, lookup, lookup_remove_self hnd]
  · have h3 := hcnt.2.2
    simp only [owns] at h3
    simp [destroys, List.filter_append] at h3 ⊢
    simp [hxq] at h3
    omega

/-- C6 instantiated: container 0 (allocator 1) is assigned from container 1
(allocator 2); the clone lands at 100, the address `reset()` has just freed. -/
theorem move_assign_clone_witness :
    demo_state.inv ∧ (0 : Nat) ≠ 1 ∧ demo_state.obj 0 = some ⟨some 100, ⟨1⟩⟩ ∧
      demo_state.obj 1 = some ⟨some 200, ⟨2⟩⟩ ∧ demo_env.pocma = false ∧
      (⟨1⟩ : Alloc) ≠ ⟨2⟩ ∧
      (Oracle.ok 100).fresh (after_reset demo_state.mem ⟨some 100, ⟨1⟩⟩).heap ∧
      ∃ s' v cb,
        polymorphic.move_assign demo_env 0 1 (.ok 100) demo_state = some (s', .returned) ∧
        s'.obj 0 = some ⟨some 100, ⟨1⟩⟩ ∧
        lookup s'.mem.heap 100 = some cb ∧ cb.allocated_by = ⟨1⟩ ∧
        polymorphic.deref 1 demo_state = some v ∧ polymorphic.deref 0 s' = some v ∧
        100 ≠ 200 ∧
        s'.obj 1 = some ⟨none, ⟨2⟩⟩ ∧
        polymorphic.valueless_after_move 1 s' = some true ∧
        lookup s'.mem.heap 200 = none ∧
        s'.mem.log = (after_reset demo_state.mem ⟨some 100, ⟨1⟩⟩).log ++
          [.clone ⟨1⟩ 200, .allocate ⟨1⟩ 100, .construct ⟨1⟩ 100,
            .destroy ⟨2⟩ 200, .deallocate ⟨2⟩ 200] ∧
        destroys s'.mem.log 200 = destroys demo_state.mem.log 200 + 1 :=
  ⟨by decide, by decide, rfl, rfl, rfl, by decide, by decide,
    move_assign_clone demo_env demo_state 0 1 200 100 ⟨some 100, ⟨1⟩⟩ ⟨some 200, ⟨2⟩⟩
      (by decide) (by decide) rfl rfl rfl rfl (by decide) (by decide)⟩

/-! ## Swap -/

theorem swap_body_ne (env : Env V) {s : State V} {i j : Nat} {x y : Polymorphic} (hij : i ≠ j)
    (hx : s.obj i = some x) (hy : s.obj j = some y) :
    swap_body env i j s =
      some ⟨s.mem, (s.objs.set i (some ⟨y.cb_, if env.pocs then y.alloc_ else x.alloc_⟩)).set j
        (some ⟨x.cb_, if env.pocs then x.alloc_ else y.alloc_⟩)⟩ := by
  have hlt := obj_lt hx
  have hlt2 := obj_lt hy
  have hji : j ≠ i := fun h => hij h.symm
  have hx3 := obj_getElem hx hlt
  have hy3 := obj_getElem hy hlt2
  cases hps : env.pocs with
  | false =>
    simp [swap_body, hx, hy, hps, State.obj, State.set_cb, State.set_obj, State.set_alloc,
      List.getElem?_set, hlt, hlt2, hij, hji, hx3, hy3]
  | true =>
    simp [swap_body, hx, hy, hps, State.obj, State.set_cb, State.set_obj, State.set_alloc,
      List.getElem?_set, hlt, hlt2, hij, hji, hx3, hy3, set_set_set, List.set_set]

theorem swap_body_self (env : Env V) {s : State V} {i : Nat} {x : Polymorphic}
    (hx : s.obj i = some x) : swap_body env i i s = some s := by
  have hlt := obj_lt hx
  have hx2 := obj_eq_getElem hx
  have hx3 := obj_getElem hx hlt
  cases hps : env.pocs with
  | false =>
    simp [swap_body, hx, hps, State.obj, State.set_cb, State.set_obj, State.set_alloc,
      List.getElem?_set, hlt, hx3, List.set_set, set_self hx2]
  | true =>
    simp [swap_body, hx, hps, State.obj, State.set_cb, State.set_obj, State.set_alloc,
      List.getElem?_set, hlt, hx3, List.set_set, set_self hx2]

/-- C7 (double swap). For containers `i` and `j` that are not valueless, under
either value of `propagate_on_container_swap`, a swap of `i` and `j` (member or
friend) returns with the two `cb_` exchanged, and a second swap of `i` and `j`
(member or friend) returns in the state the first one started from: every
container has its original block and allocator, and the free store is
untouched, so every accessed value is the original one. -/
theorem swap_swap (env : Env V) (s : State V) (i j p q : Nat) (x y : Polymorphic)
    (hx : s.obj i = some x) (hp : x.cb_ = some p)
    (hy : s.obj j = some y) (hq : y.cb_ = some q) :
    ∀ f ∈ [polymorphic.swap env, xyz.swap env], ∀ g ∈ [polymorphic.swap env, xyz.swap env],
      ∃ s1 x1 y1, f i j s = some (s1, .returned) ∧
        s1.obj i = some x1 ∧ x1.cb_ = some q ∧ s1.obj j = some y1 ∧ y1.cb_ = some p ∧
        g i j s1 = some (s, .returned) := by
  have hlt := obj_lt hx
  have hlt2 := obj_lt hy
  have hx2 := obj_eq_getElem hx
  have hy2 := obj_eq_getElem hy
  by_cases hij : i = j
  · subst hij
    have hxy : y = x := by rw [hx] at hy; exact (Option.some.inj hy).symm
    subst hxy
    have hpq : p = q := by rw [hp] at hq; exact Option.some.inj hq
    subst hpq
    have hb := swap_body_self env hx
    intro f hf g hg
    simp only [List.mem_cons, List.mem_singleton, List.not_mem_nil, or_false] at hf hg
    refine ⟨s, y, y, ?_, hx, hp, hx, hp, ?_⟩
    · rcases hf with rfl | rfl <;> simp [polymorphic.swap, xyz.swap, hx, hp, hb]
    · rcases hg with rfl | rfl <;> simp [polymorphic.swap, xyz.swap, hx, hp, hb]
  · have hji : j ≠ i := fun h => hij h.symm
    have hb := swap_body_ne env hij hx hy
    have hi1 : State.obj (V := V) ⟨s.mem,
        (s.objs.set i (some ⟨y.cb_, if env.pocs then y.alloc_ else x.alloc_⟩)).set j
          (some ⟨x.cb_, if env.pocs then x.alloc_ else y.alloc_⟩)⟩ i
        = some ⟨y.cb_, if env.pocs then y.alloc_ else x.alloc_⟩ := by
      simp [State.obj, List.getElem?_set, hlt, hlt2, hij, hji]
    have hj1 : State.obj (V := V) ⟨s.mem,
        (s.objs.set i (some ⟨y.cb_, if env.pocs then y.alloc_ else x.alloc_⟩)).set j
          (some ⟨x.cb_, if env.pocs then x.alloc_ else y.alloc_⟩)⟩ j
        = some ⟨x.cb_, if env.pocs then x.alloc_ else y.alloc_⟩ := by
      simp [State.obj, List.getElem?_set, hlt, hlt2, hij, hji]
    have hb2 := swap_body_ne env hij hi1 hj1
    have hback : swap_body env i j ⟨s.mem,
        (s.objs.set i (some ⟨y.cb_, if env.pocs then y.alloc_ else x.alloc_⟩)).set j
          (some ⟨x.cb_, if env.pocs then x.alloc_ else y.alloc_⟩)⟩ = some s := by
      rw [hb2]
      have hxe : (⟨x.cb_, x.alloc_⟩ : Polymorphic) = x := rfl
      have hye : (⟨y.cb_, y.alloc_⟩ : Polymorphic) = y := rfl
      cases hps : env.pocs <;>
        simp [set_set_set, List.set_set, hij, hji, List.set_comm, hxe, hye, set_self hx2,
          set_self hy2]
    clear hb2
    generalize (⟨s.mem,
        (s.objs.set i (some ⟨y.cb_, if env.pocs then y.alloc_ else x.alloc_⟩)).set j
          (some ⟨x.cb_, if env.pocs then x.alloc_ else y.alloc_⟩)⟩ : State V) = s1
      at hb hi1 hj1 hback
    intro f hf g hg
    simp only [List.mem_cons, List.mem_singleton, List.not_mem_nil, or_false] at hf hg
    refine ⟨s1, _, _, ?_, hi1, hq, hj1, hp, ?_⟩
    · rcases hf with rfl | rfl <;> simp [polymorphic.swap, xyz.swap, hx, hy, hp, hq, hb]
    · rcases hg with rfl | rfl <;>
        simp [polymorphic.swap, xyz.swap, hi1, hj1, hp, hq, hback]

/-- C7 instantiated: containers 0 and 1 of `demo_state`, allocators exchanged too. -/
theorem swap_swap_witness :
    demo_state.obj 0 = some ⟨some 100, ⟨1⟩⟩ ∧ demo_state.obj 1 = some ⟨some 200, ⟨2⟩⟩ ∧
      ∀ f ∈ [polymorphic.swap demo_env_propagating, xyz.swap demo_env_propagating],
        ∀ g ∈ [polymorphic.swap demo_env_propagating, xyz.swap demo_env_propagating],
          ∃ s1 x1 y1, f 0 1 demo_state = some (s1, .returned) ∧
            s1.obj 0 = some x1 ∧ x1.cb_ = some 200 ∧ s1.obj 1 = some y1 ∧ y1.cb_ = some 100 ∧
            g 0 1 s1 = some (demo_state, .returned) :=
  ⟨rfl, rfl,
    swap_swap demo_env_propagating demo_state 0 1 100 200 ⟨some 100, ⟨1⟩⟩ ⟨some 200, ⟨2⟩⟩
      rfl rfl rfl rfl⟩

/-! ## Effects of destruction and of a successful copy assignment -/

theorem reset_of_live {s : State V} {i : Nat} {x : Polymorphic}
    (hx : s.obj i = some x) (hlive : ∀ p, x.cb_ = some p → ∃ cb, lookup s.mem.heap p = some cb) :
    polymorphic.reset i s =
      some ⟨after_reset s.mem x, s.objs.set i (some ⟨none, x.alloc_⟩)⟩ := by
  cases hp : x.cb_ with
  | none =>
    have hx2 := obj_eq_getElem hx
    have hxe : x = ⟨none, x.alloc_⟩ := by cases x; simp_all
    rw [← hxe, set_self hx2]
    simp [polymorphic.reset, hx, hp, after_reset]
  | some p =>
    obtain ⟨cb, hcb⟩ := hlive p hp
    simp [polymorphic.reset, hx, hp, after_reset, control_block.destroy, hcb, State.set_cb,
      State.set_obj, State.obj, obj_eq_getElem hx]

theorem destructor_of_live {s : State V} {i : Nat} {x : Polymorphic}
    (hx : s.obj i = some x) (hlive : ∀ p, x.cb_ = some p → ∃ cb, lookup s.mem.heap p = some cb) :
    polymorphic.destructor i s =
      some (⟨after_reset s.mem x, s.objs.set i none⟩, .returned) := by
  simp [polymorphic.destructor, reset_of_live hx hlive, State.end_obj, List.set_set]

theorem swap_and_drop_tmp_ok (env : Env V) {m : Mem V} {objs : List (Option Polymorphic)}
    {i : Nat} {x : Polymorphic} (mem : Nat) (a : Alloc)
    (hx : objs[i]? = some (some x))
    (hlive : ∀ p, x.cb_ = some p → ∃ cb, lookup m.heap p = some cb) :
    swap_and_drop_tmp env i ⟨m, objs ++ [some (Polymorphic.mk (some mem) a)]⟩ =
      some (⟨after_reset m ⟨x.cb_, if env.pocs then x.alloc_ else a⟩,
          objs.set i (some (Polymorphic.mk (some mem) (if env.pocs then a else x.alloc_))) ++ [none]⟩,
        .returned) := by
  have hlt : i < objs.length := by
    by_contra h
    rw [List.getElem?_eq_none (Nat.le_of_not_lt h)] at hx
    cases hx
  have hne : i ≠ objs.length := Nat.ne_of_lt hlt
  have hi : State.obj (V := V) ⟨m, objs ++ [some (Polymorphic.mk (some mem) a)]⟩ i = some x := by
    simp [State.obj, List.getElem?_append_left hlt, hx]
  have ht : State.obj (V := V) ⟨m, objs ++ [some (Polymorphic.mk (some mem) a)]⟩ objs.length
      = some (Polymorphic.mk (some mem) a) := by
    simp [State.obj]
  have hb := swap_body_ne env hne hi ht
  simp [swap_and_drop_tmp, polymorphic.swap, hi, ht, hb]
  have ht2 : State.obj (V := V) ⟨m, ((objs ++ [some (Polymorphic.mk (some mem) a)]).set i
      (some (Polymorphic.mk (some mem) (if env.pocs then a else x.alloc_)))).set objs.length
      (some (Polymorphic.mk x.cb_ (if env.pocs then x.alloc_ else a)))⟩ objs.length
      = some (Polymorphic.mk x.cb_ (if env.pocs then x.alloc_ else a)) := by
    simp [State.obj, List.getElem?_set, hne]
  rw [destructor_of_live ht2 (by simpa using hlive)]
  simp [List.set_set, List.set_append, hlt, Nat.lt_irrefl]

theorem copy_assign_ok (env : Env V) {s : State V} {i j q mem : Nat} {x y : Polymorphic}
    {cq : Block V} (hij : i ≠ j) (hx : s.obj i = some x) (hy : s.obj j = some y)
    (hq : y.cb_ = some q) (hcq : lookup s.mem.heap q = some cq)
    (hlive : ∀ p, x.cb_ = some p → ∃ cb, lookup s.mem.heap p = some cb)
    (hfresh : mem ∉ live s.mem.heap) :
    polymorphic.copy_assign env i j (.ok mem) s =
      some (⟨after_reset
            ⟨(mem, ⟨mem, cq.u_, if env.pocca then y.alloc_ else env.socc y.alloc_⟩) :: s.mem.heap,
              s.mem.log ++ [.clone (if env.pocca then y.alloc_ else env.socc y.alloc_) q] ++
                [.allocate (if env.pocca then y.alloc_ else env.socc y.alloc_) mem,
                  .construct (if env.pocca then y.alloc_ else env.socc y.alloc_) mem]⟩
            (Polymorphic.mk x.cb_ (if env.pocs then (if env.pocca then y.alloc_ else x.alloc_)
              else (if env.pocca then y.alloc_ else env.socc y.alloc_))),
          s.objs.set i (some (Polymorphic.mk (some mem)
            (if env.pocs then (if env.pocca then y.alloc_ else env.socc y.alloc_)
              else (if env.pocca then y.alloc_ else x.alloc_)))) ++ [none]⟩,
        .returned) := by
  have hlt := obj_lt hx
  have hlt2 := obj_lt hy
  have hx2 := obj_eq_getElem hx
  have hy2 := obj_eq_getElem hy
  have hji : j ≠ i := fun h => hij h.symm
  have hlive2 : ∀ (a : Alloc) (lg : List Event) (p : Nat), x.cb_ = some p →
      ∃ cb, lookup ((mem, (⟨mem, cq.u_, a⟩ : Block V)) :: s.mem.heap) p = some cb := by
    intro a lg p hp
    obtain ⟨cb, hcb⟩ := hlive p hp
    have hne : mem ≠ p := fun h => hfresh (h ▸ lookup_live hcb)
    exact ⟨cb, by rw [lookup_cons_ne _ hne]; exact hcb⟩
  cases hpo : env.pocca with
  | false =>
    have h1 := alloc_copy_ok (env.socc y.alloc_) mem hy hq hcq
    have h2 := swap_and_drop_tmp_ok env
      (m := ⟨(mem, ⟨mem, cq.u_, env.socc y.alloc_⟩) :: s.mem.heap,
        s.mem.log ++ [.clone (env.socc y.alloc_) q] ++
          [.allocate (env.socc y.alloc_) mem, .construct (env.socc y.alloc_) mem]⟩)
      mem (env.socc y.alloc_) hx2 (hlive2 _ [])
    simp only [polymorphic.copy_assign, hx, hy, hq, hij, hpo, copy_eq_alloc_copy env _ hy, h1]
    simpa using h2
  | true =>
    have hj1 : State.obj (V := V) ⟨s.mem, s.objs.set i (some ⟨x.cb_, y.alloc_⟩)⟩ j = some y := by
      simp [State.obj, List.getElem?_set, hij, hy2]
    have hi1 : (s.objs.set i (some (Polymorphic.mk x.cb_ y.alloc_)))[i]?
        = some (some (Polymorphic.mk x.cb_ y.alloc_)) := by
      simp [List.getElem?_set, hlt]
    have h1 := alloc_copy_ok y.alloc_ mem hj1 hq hcq
    have h2 := swap_and_drop_tmp_ok env
      (m := ⟨(mem, ⟨mem, cq.u_, y.alloc_⟩) :: s.mem.heap,
        s.mem.log ++ [.clone y.alloc_ q] ++ [.allocate y.alloc_ mem, .construct y.alloc_ mem]⟩)
      mem y.alloc_ hi1 (hlive2 _ [])
    simp only [polymorphic.copy_assign, hx, hy, hq, hij, hpo, State.set_alloc, State.set_obj]
    simp [State.obj, List.getElem?_set, hlt]
    simp at h1
    rw [h1]
    simpa [List.set_set] using h2

/-! ## The ownership invariant is kept -/

theorem inv_of_counts {s : State V}
    (h1 : ∀ a, (owned s.objs).count a = (live s.mem.heap).count a)
    (h2 : ∀ a, (live s.mem.heap).count a ≤ 1)
    (h3 : ∀ e ∈ s.mem.heap, e.2.p_ = e.1) : s.inv :=
  ⟨List.perm_iff_count.mpr h1, List.nodup_iff_count_le_one.mpr h2, h3⟩

theorem count_live_cons (h : List (Nat × Block V)) (mem : Nat) (b : Block V) (a : Nat) :
    (live ((mem, b) :: h)).count a = (if mem = a then 1 else 0) + (live h).count a := by
  by_cases hma : mem = a
  · simp [live, hma]; omega
  · simp [live, hma, List.count_cons]

theorem count_live_remove (h : List (Nat × Block V)) (p a : Nat) :
    (live (remove h p)).count a = (live h).count a - (if p = a then 1 else 0) := by
  rw [live_remove, List.count_erase]
  by_cases hpa : p = a
  · simp [hpa]
  · have : ¬ a = p := fun h => hpa h.symm
    simp [hpa, this]

theorem count_live_after_reset (m : Mem V) (x : Polymorphic) (a : Nat) :
    (live (after_reset m x).heap).count a = (live m.heap).count a - owns (some x) a := by
  cases hp : x.cb_ with
  | none => simp [after_reset, hp, owns]
  | some p => simp [after_reset, hp, owns, count_live_remove]

theorem selfptr_after_reset {m : Mem V} (x : Polymorphic) (h : ∀ e ∈ m.heap, e.2.p_ = e.1) :
    ∀ e ∈ (after_reset m x).heap, e.2.p_ = e.1 := by
  cases hp : x.cb_ with
  | none => simpa [after_reset, hp] using h
  | some p =>
    intro e he
    simp only [after_reset, hp] at he
    exact h e (mem_remove he)

theorem count_not_live {h : List (Nat × Block V)} {mem : Nat} (hf : mem ∉ live h) :
    (live h).count mem = 0 := List.count_eq_zero_of_not_mem hf

/-- A new container that owns a new block. -/
theorem inv_construct {s : State V} (hinv : s.inv) {mem : Nat} (v : V) (a al : Alloc)
    (lg : List Event) (hf : mem ∉ live s.mem.heap) :
    State.inv (V := V) ⟨⟨(mem, ⟨mem, v, a⟩) :: s.mem.heap, lg⟩,
      s.objs ++ [some (Polymorphic.mk (some mem) al)]⟩ := by
  apply inv_of_counts
  · intro b
    have h := inv_count hinv b
    have h0 := count_not_live hf
    simp only [count_owned_append, count_live_cons, owns, Option.bind]
    by_cases hb : mem = b
    · subst hb; simp; omega
    · simp [hb]; omega
  · intro b
    have h := inv_count hinv b
    have h0 := count_not_live hf
    simp only [count_live_cons]
    by_cases hb : mem = b
    · subst hb; simp; omega
    · simp [hb]; omega
  · intro e he
    simp only [List.mem_cons] at he
    rcases he with rfl | he
    · rfl
    · exact hinv.2.2 e he

/-- Only the record of calls and allocators of containers changed. -/
theorem inv_same {s : State V} (hinv : s.inv) {s' : State V}
    (hh : s'.mem.heap = s.mem.heap) (ho : owned s'.objs = owned s.objs) : s'.inv := by
  unfold State.inv at *
  rw [hh, ho]; exact hinv

theorem count_owned_set2 {l : List (Option Polymorphic)} {i j : Nat}
    {ox oy : Option Polymorphic} (nx ny : Option Polymorphic) (a : Nat) (hij : i ≠ j)
    (hx : l[i]? = some ox) (hy : l[j]? = some oy) :
    (owned ((l.set i nx).set j ny)).count a + owns ox a + owns oy a
      = (owned l).count a + owns nx a + owns ny a := by
  have h1 := count_owned_set nx a hx
  have hj : (l.set i nx)[j]? = some oy := by rw [List.getElem?_set_ne hij]; exact hy
  have h2 := count_owned_set ny a hj
  omega

theorem owns_none (a : Nat) : owns none a = 0 := rfl

theorem owns_valueless (al : Alloc) (a : Nat) : owns (some ⟨none, al⟩) a = 0 := rfl

theorem owns_some (p : Nat) (al : Alloc) (a : Nat) :
    owns (some ⟨some p, al⟩) a = if p = a then 1 else 0 := by
  simp [owns]

theorem owns_cb (x : Polymorphic) (al : Alloc) (a : Nat) :
    owns (some ⟨x.cb_, al⟩) a = owns (some x) a := rfl

/-- Move construction: `j` gives its block to a new container. -/
theorem inv_move_construct {s : State V} (hinv : s.inv) {j q : Nat} {y : Polymorphic}
    (hy : s.obj j = some y) (hq : y.cb_ = some q) (a al : Alloc) :
    State.inv (V := V) ⟨s.mem,
      s.objs.set j (some (Polymorphic.mk none al)) ++ [some (Polymorphic.mk (some q) a)]⟩ := by
  have hy2 := obj_eq_getElem hy
  apply inv_of_counts
  · intro b
    have h := inv_count hinv b
    have h1 := count_owned_set (some (Polymorphic.mk none al)) b hy2
    have h2 : owns (some y) b = if q = b then 1 else 0 := by simp [owns, hq]
    simp only [count_owned_append, owns_some, owns_valueless] at h1 ⊢
    omega
  · exact fun b => (inv_count hinv b).2
  · exact hinv.2.2

/-- Destruction of a container. -/
theorem inv_destructor {s : State V} (hinv : s.inv) {k : Nat} {x : Polymorphic}
    (hx : s.obj k = some x) :
    State.inv (V := V) ⟨after_reset s.mem x, s.objs.set k none⟩ := by
  have hx2 := obj_eq_getElem hx
  apply inv_of_counts
  · intro b
    have h := inv_count hinv b
    have h1 := count_owned_set none b hx2
    simp only [count_live_after_reset, owns_none] at h1 ⊢
    omega
  · intro b
    have h := inv_count hinv b
    simp only [count_live_after_reset]
    omega
  · exact selfptr_after_reset x hinv.2.2

/-- Only `cb_` of one container is cleared after its `reset()`. -/
theorem inv_reset {s : State V} (hinv : s.inv) {k : Nat} {x : Polymorphic}
    (hx : s.obj k = some x) (al : Alloc) (lg : List Event) :
    State.inv (V := V) ⟨⟨(after_reset s.mem x).heap, lg⟩,
      s.objs.set k (some (Polymorphic.mk none al))⟩ := by
  have h0 := inv_destructor hinv hx
  apply inv_of_counts
  · intro b
    have h := inv_count h0 b
    have hx2 := obj_eq_getElem hx
    have h1 := count_owned_set none b hx2
    have h2 := count_owned_set (some (Polymorphic.mk none al)) b hx2
    simp only [owns_none, owns_valueless] at h1 h2 ⊢
    have := h.1
    simp only at this
    omega
  · exact fun b => (inv_count h0 b).2
  · exact h0.2.2

/-- Only the allocator of one container is replaced. -/
theorem inv_set_alloc {s : State V} (hinv : s.inv) {k : Nat} {x : Polymorphic}
    (hx : s.obj k = some x) (al : Alloc) (m : Mem V) (hm : m.heap = s.mem.heap) :
    State.inv (V := V) ⟨m, s.objs.set k (some (Polymorphic.mk x.cb_ al))⟩ := by
  have hx2 := obj_eq_getElem hx
  apply inv_of_counts
  · intro b
    have h := inv_count hinv b
    have h1 := count_owned_set (some (Polymorphic.mk x.cb_ al)) b hx2
    simp only [owns_cb, hm] at h1 ⊢
    omega
  · intro b; simp only [hm]; exact (inv_count hinv b).2
  · simp only [hm]; exact hinv.2.2

/-- Swap of two different containers. -/
theorem inv_swap {s : State V} (hinv : s.inv) {i j : Nat} {x y : Polymorphic} (hij : i ≠ j)
    (hx : s.obj i = some x) (hy : s.obj j = some y) (a1 a2 : Alloc) :
    State.inv (V := V) ⟨s.mem,
      (s.objs.set i (some (Polymorphic.mk y.cb_ a1))).set j (some (Polymorphic.mk x.cb_ a2))⟩ := by
  apply inv_of_counts
  · intro b
    have h := inv_count hinv b
    have h1 := count_owned_set2 (some (Polymorphic.mk y.cb_ a1)) (some (Polymorphic.mk x.cb_ a2))
      b hij (obj_eq_getElem hx) (obj_eq_getElem hy)
    simp only [owns_cb] at h1 ⊢
    omega
  · exact fun b => (inv_count hinv b).2
  · exact hinv.2.2

/-- Move assignment that transfers the block of `j` to `i`. -/
theorem inv_move_assign_direct {s : State V} (hinv : s.inv) {i j q : Nat} {x y : Polymorphic}
    (hij : i ≠ j) (hx : s.obj i = some x) (hy : s.obj j = some y) (hq : y.cb_ = some q)
    (a1 a2 : Alloc) :
    State.inv (V := V) ⟨after_reset s.mem x,
      (s.objs.set i (some (Polymorphic.mk (some q) a1))).set j
        (some (Polymorphic.mk none a2))⟩ := by
  apply inv_of_counts
  · intro b
    have h := inv_count hinv b
    have h1 := count_owned_set2 (some (Polymorphic.mk (some q) a1))
      (some (Polymorphic.mk none a2)) b hij (obj_eq_getElem hx) (obj_eq_getElem hy)
    have h2 : owns (some y) b = if q = b then 1 else 0 := by simp [owns, hq]
    have h3 := count_owned_set none b (obj_eq_getElem hx)
    simp only [owns_some, owns_valueless, owns_none, count_live_after_reset] at h1 h3 ⊢
    omega
  · intro b
    have h := inv_count hinv b
    simp only [count_live_after_reset]
    omega
  · exact selfptr_after_reset x hinv.2.2

/-- Copy assignment that succeeds: `i` owns the clone, its former block is gone. -/
theorem inv_copy_assign {s : State V} (hinv : s.inv) {i mem : Nat} {x : Polymorphic}
    (hx : s.obj i = some x) (hf : mem ∉ live s.mem.heap) (v : V) (a a1 a2 : Alloc)
    (lg : List Event) :
    State.inv (V := V) ⟨after_reset ⟨(mem, ⟨mem, v, a⟩) :: s.mem.heap, lg⟩ (Polymorphic.mk x.cb_ a1),
      s.objs.set i (some (Polymorphic.mk (some mem) a2)) ++ [none]⟩ := by
  have hx2 := obj_eq_getElem hx
  have h0 := count_not_live hf
  apply inv_of_counts
  · intro b
    have h := inv_count hinv b
    have h1 := count_owned_set (some (Polymorphic.mk (some mem) a2)) b hx2
    have h3 := count_owned_set none b hx2
    simp only [count_owned_append, owns_some, owns_none, count_live_after_reset, owns_cb,
      count_live_cons] at h1 h3 ⊢
    by_cases hb : mem = b
    · subst hb; simp at h1 ⊢; omega
    · simp [hb] at h1 ⊢; omega
  · intro b
    have h := inv_count hinv b
    simp only [count_live_after_reset, count_live_cons]
    have h3 := count_owned_set none b hx2
    simp only [owns_none, owns_cb] at h3 ⊢
    by_cases hb : mem = b
    · subst hb; simp; omega
    · simp [hb]; omega
  · apply selfptr_after_reset
    intro e he
    simp only [List.mem_cons] at he
    rcases he with rfl | he
    · rfl
    · exact hinv.2.2 e he

/-- Move assignment that clones: `i` owns the clone, both former blocks are gone. -/
theorem inv_move_assign_clone {s : State V} (hinv : s.inv) {i j q mem : Nat}
    {x y : Polymorphic} (hij : i ≠ j) (hx : s.obj i = some x) (hy : s.obj j = some y)
    (hq : y.cb_ = some q) (hf : mem ∉ live (after_reset s.mem x).heap) (v : V)
    (a a1 a2 : Alloc) (lg : List Event) :
    State.inv (V := V) ⟨⟨remove ((mem, ⟨mem, v, a⟩) :: (after_reset s.mem x).heap) q, lg⟩,
      (s.objs.set i (some (Polymorphic.mk (some mem) a1))).set j
        (some (Polymorphic.mk none a2))⟩ := by
  have h0 := count_not_live hf
  apply inv_of_counts
  · intro b
    have h := inv_count hinv b
    have h1 := count_owned_set2 (some (Polymorphic.mk (some mem) a1))
      (some (Polymorphic.mk none a2)) b hij (obj_eq_getElem hx) (obj_eq_getElem hy)
    have h2 : owns (some y) b = if q = b then 1 else 0 := by simp [owns, hq]
    have h3 := count_owned_set2 none none b hij (obj_eq_getElem hx) (obj_eq_getElem hy)
    simp only [owns_some, owns_valueless, owns_none, count_live_after_reset, count_live_remove,
      count_live_cons] at h0 h1 h3 ⊢
    by_cases hb : mem = b
    · subst hb; simp at h1 ⊢; omega
    · simp [hb] at h1 ⊢; omega
  · intro b
    have h := inv_count hinv b
    simp only [count_live_after_reset, count_live_remove, count_live_cons] at h0 ⊢
    by_cases hb : mem = b
    · subst hb; simp; omega
    · simp [hb]; omega
  · intro e he
    have he2 := mem_remove he
    simp only [List.mem_cons] at he2
    rcases he2 with rfl | he2
    · rfl
    · exact selfptr_after_reset x hinv.2.2 e he2

/-! ## Every call keeps the ownership invariant -/

theorem move_assign_self (env : Env V) {s : State V} (hinv : s.inv) {i p : Nat}
    {x : Polymorphic} (o : Oracle) (hx : s.obj i = some x) (hp : x.cb_ = some p) :
    polymorphic.move_assign env i i o s =
      some (⟨after_reset s.mem x, s.objs.set i (some ⟨none, x.alloc_⟩)⟩, .returned) := by
  have hlt := obj_lt hx
  have hx3 := obj_getElem hx hlt
  cases hpm : env.pocma <;>
    simp [polymorphic.move_assign, hx, hp, reset_ok hinv hx, hpm, State.obj, State.set_cb,
      State.set_obj, State.set_alloc, List.getElem?_set, hlt, hx3, List.set_set]

theorem move_assign_clone_fail (env : Env V) {s : State V} (hinv : s.inv) {i j q : Nat}
    {x y : Polymorphic} (o : Oracle) (hij : i ≠ j)
    (hx : s.obj i = some x) (hy : s.obj j = some y) (hq : y.cb_ = some q)
    (hpm : env.pocma = false) (hne : x.alloc_ ≠ y.alloc_) (ho : ∀ mem, o ≠ .ok mem) :
    ∃ lg f, polymorphic.move_assign env i j o s =
      some (⟨⟨(after_reset s.mem x).heap, lg⟩, s.objs.set i (some ⟨none, x.alloc_⟩)⟩,
        .threw f) := by
  obtain ⟨cq, hcq, _⟩ := inv_owned_lookup hinv hy hq
  have hlt := obj_lt hx
  have hlt2 := obj_lt hy
  have hy2 := obj_eq_getElem hy
  have hji : j ≠ i := fun h => hij h.symm
  have hx3 := obj_getElem hx hlt
  have hy3 := obj_getElem hy hlt2
  have hxq : x.cb_ ≠ some q := fun h => inv_distinct hinv hij hx h hy hq rfl
  have hheap := after_reset_heap s.mem x hxq
  cases o with
  | ok mem => exact absurd rfl (ho mem)
  | bad_alloc =>
    exact ⟨(after_reset s.mem x).log ++ [.clone x.alloc_ q], .bad_alloc, by
      simp [polymorphic.move_assign, hx, hy, hq, reset_ok hinv hx, hpm, State.obj, State.set_cb,
        State.set_obj, State.set_alloc, List.getElem?_set, hlt, hlt2, hij, hji, hy2, hx3, hy3,
        hne, control_block.clone, hheap, hcq, allocate_construct]⟩
  | ctor_throws mem =>
    exact ⟨(after_reset s.mem x).log ++ [.clone x.alloc_ q] ++
        [.allocate x.alloc_ mem, .construct x.alloc_ mem, .deallocate x.alloc_ mem],
        .construction, by
      simp [polymorphic.move_assign, hx, hy, hq, reset_ok hinv hx, hpm, State.obj, State.set_cb,
        State.set_obj, State.set_alloc, List.getElem?_set, hlt, hlt2, hij, hji, hy2, hx3, hy3,
        hne, control_block.clone, hheap, hcq, allocate_construct]⟩

theorem inv_live {s : State V} (hinv : s.inv) {i : Nat} {x : Polymorphic}
    (hx : s.obj i = some x) : ∀ p, x.cb_ = some p → ∃ cb, lookup s.mem.heap p = some cb :=
  fun _ hp => (inv_owned_lookup hinv hx hp).imp fun _ h => h.1

theorem construct_in_place_inv {s s' : State V} {st : Status} (hinv : s.inv) (alloc : Alloc)
    (v : V) (o : Oracle) (hf : o.fresh s.mem.heap)
    (h : construct_in_place alloc v o s = some (s', st)) : s'.inv := by
  cases o with
  | bad_alloc =>
    simp [construct_in_place, allocate_construct] at h
    rw [← h.1]; exact hinv
  | ctor_throws mem =>
    simp [construct_in_place, allocate_construct] at h
    rw [← h.1]; exact inv_same hinv rfl rfl
  | ok mem =>
    simp [construct_in_place, allocate_construct, State.new_obj] at h
    rw [← h.1]; exact inv_construct hinv v alloc alloc _ (hf mem rfl)

theorem alloc_copy_inv {s s' : State V} {st : Status} (hinv : s.inv) (alloc : Alloc)
    (j : Nat) (o : Oracle) (hf : o.fresh s.mem.heap)
    (h : polymorphic.alloc_copy alloc j o s = some (s', st)) : s'.inv := by
  cases hy : s.obj j with
  | none => simp [polymorphic.alloc_copy, hy] at h
  | some y =>
    cases hq : y.cb_ with
    | none => simp [polymorphic.alloc_copy, hy, hq] at h
    | some q =>
      obtain ⟨cq, hcq, _⟩ := inv_owned_lookup hinv hy hq
      cases o with
      | ok mem =>
        rw [alloc_copy_ok alloc mem hy hq hcq] at h
        simp at h
        rw [← h.1]; exact inv_construct hinv _ alloc alloc _ (hf mem rfl)
      | bad_alloc =>
        obtain ⟨m, f, hm, hh⟩ := alloc_copy_fail alloc .bad_alloc hy hq hcq (fun _ h => by cases h)
        rw [hm] at h
        simp at h
        rw [← h.1]; exact inv_same hinv hh rfl
      | ctor_throws mem =>
        obtain ⟨m, f, hm, hh⟩ := alloc_copy_fail alloc (.ctor_throws mem) hy hq hcq
          (fun _ h => by cases h)
        rw [hm] at h
        simp at h
        rw [← h.1]; exact inv_same hinv hh rfl

theorem alloc_move_inv {s s' : State V} {st : Status} (hinv : s.inv) (alloc : Alloc)
    (j : Nat) (h : polymorphic.alloc_move alloc j s = some (s', st)) : s'.inv := by
  cases hy : s.obj j with
  | none => simp [polymorphic.alloc_move, hy] at h
  | some y =>
    cases hq : y.cb_ with
    | none => simp [polymorphic.alloc_move, hy, hq] at h
    | some q =>
      rw [alloc_move_ok alloc hy hq] at h
      simp at h
      rw [← h.1]; exact inv_move_construct hinv hy hq alloc y.alloc_

theorem destructor_inv {s s' : State V} {st : Status} (hinv : s.inv) (k : Nat)
    (h : polymorphic.destructor k s = some (s', st)) : s'.inv := by
  cases hx : s.obj k with
  | none => simp [polymorphic.destructor, polymorphic.reset, hx] at h
  | some x =>
    rw [destructor_of_live hx (inv_live hinv hx)] at h
    simp at h
    rw [← h.1]; exact inv_destructor hinv hx

theorem swap_body_inv (env : Env V) {s s' : State V} (hinv : s.inv) (i j : Nat)
    (h : swap_body env i j s = some s') : s'.inv := by
  cases hx : s.obj i with
  | none => simp [swap_body, hx] at h
  | some x =>
    cases hy : s.obj j with
    | none => simp [swap_body, hx, hy] at h
    | some y =>
      by_cases hij : i = j
      · subst hij
        rw [swap_body_self env hx] at h
        simp at h
        rw [← h]; exact hinv
      · rw [swap_body_ne env hij hx hy] at h
        simp at h
        rw [← h]; exact inv_swap hinv hij hx hy _ _

theorem swap_inv (env : Env V) {s s' : State V} {st : Status} (hinv : s.inv) (i j : Nat) :
    (polymorphic.swap env i j s = some (s', st) → s'.inv) ∧
      (xyz.swap env i j s = some (s', st) → s'.inv) := by
  cases hx : s.obj i with
  | none => simp [polymorphic.swap, xyz.swap, hx]
  | some x =>
    cases hy : s.obj j with
    | none => simp [polymorphic.swap, xyz.swap, hx, hy]
    | some y =>
      cases hb : swap_body env i j s with
      | none => simp [polymorphic.swap, xyz.swap, hx, hy, hb]
      | some s1 =>
        have h1 := swap_body_inv env hinv i j hb
        constructor
        · intro h
          simp [polymorphic.swap, hx, hy, hb] at h
          rw [← h.2.1]; exact h1
        · intro h
          simp [xyz.swap, hx, hy, hb] at h
          rw [← h.2.2.1]; exact h1

theorem copy_assign_inv (env : Env V) {s s' : State V} {st : Status} (hinv : s.inv)
    (i j : Nat) (o : Oracle) (hf : o.fresh s.mem.heap)
    (h : polymorphic.copy_assign env i j o s = some (s', st)) : s'.inv := by
  cases hx : s.obj i with
  | none => simp [polymorphic.copy_assign, hx] at h
  | some x =>
    cases hy : s.obj j with
    | none => simp [polymorphic.copy_assign, hx, hy] at h
    | some y =>
      cases hq : y.cb_ with
      | none => simp [polymorphic.copy_assign, hx, hy, hq] at h
      | some q =>
        by_cases hij : i = j
        · simp [polymorphic.copy_assign, hx, hy, hq, hij] at h
          rw [← h.1]; exact hinv
        · obtain ⟨cq, hcq, _⟩ := inv_owned_lookup hinv hy hq
          have hlt := obj_lt hx
          have hy2 := obj_eq_getElem hy
          by_cases ho : ∃ mem, o = .ok mem
          · obtain ⟨mem, rfl⟩ := ho
            rw [copy_assign_ok env hij hx hy hq hcq (inv_live hinv hx) (hf mem rfl)] at h
            simp at h
            rw [← h.1]; exact inv_copy_assign hinv hx (hf mem rfl) _ _ _ _ _
          · have ho' : ∀ mem, o ≠ .ok mem := fun mem hm => ho ⟨mem, hm⟩
            cases hpo : env.pocca with
            | false =>
              obtain ⟨m, f, hm, hh⟩ := alloc_copy_fail (env.socc y.alloc_) o hy hq hcq ho'
              simp [polymorphic.copy_assign, hx, hy, hq, hij, hpo, copy_eq_alloc_copy env o hy,
                hm] at h
              rw [← h.1]; exact inv_same hinv hh rfl
            | true =>
              have hj1 : State.obj (V := V) ⟨s.mem, s.objs.set i (some ⟨x.cb_, y.alloc_⟩)⟩ j
                  = some y := by
                simp [State.obj, List.getElem?_set, hij, hy2]
              obtain ⟨m, f, hm, hh⟩ := alloc_copy_fail
                (s := ⟨s.mem, s.objs.set i (some ⟨x.cb_, y.alloc_⟩)⟩) y.alloc_ o hj1 hq hcq ho'
              simp [polymorphic.copy_assign, hx, hy, hq, hij, hpo, State.set_alloc,
                State.set_obj] at h
              simp [State.obj, List.getElem?_set, hlt] at h
              rw [hm] at h
              simp at h
              rw [← h.1]; exact inv_set_alloc hinv hx y.alloc_ m hh

theorem move_assign_inv (env : Env V) {s s' : State V} {st : Status} (hinv : s.inv)
    (i j : Nat) (o : Oracle)
    (hf : ∀ x, s.obj i = some x → o.fresh (after_reset s.mem x).heap)
    (h : polymorphic.move_assign env i j o s = some (s', st)) : s'.inv := by
  cases hx : s.obj i with
  | none => simp [polymorphic.move_assign, hx] at h
  | some x =>
    cases hy : s.obj j with
    | none => simp [polymorphic.move_assign, hx, hy] at h
    | some y =>
      cases hq : y.cb_ with
      | none => simp [polymorphic.move_assign, hx, hy, hq] at h
      | some q =>
        by_cases hij : i = j
        · subst hij
          rw [move_assign_self env hinv o hx (by rw [hx] at hy; cases hy; exact hq)] at h
          simp at h
          rw [← h.1]; exact inv_reset hinv hx _ _
        · by_cases hd : env.pocma = true ∨ x.alloc_ = y.alloc_
          · rw [move_assign_direct_ok env hinv o hij hx hy hq hd] at h
            simp at h
            rw [← h.1]; exact inv_move_assign_direct hinv hij hx hy hq _ _
          · have hpm : env.pocma = false := by
              cases hpm : env.pocma with
              | false => rfl
              | true => exact absurd (Or.inl hpm) hd
            have hne : x.alloc_ ≠ y.alloc_ := fun he => hd (Or.inr he)
            obtain ⟨cq, hcq, _⟩ := inv_owned_lookup hinv hy hq
            by_cases ho : ∃ mem, o = .ok mem
            · obtain ⟨mem, rfl⟩ := ho
              have hfm := hf x hx mem rfl
              have hxq : x.cb_ ≠ some q := fun h => inv_distinct hinv hij hx h hy hq rfl
              have hmem : mem ≠ q := fun he =>
                hfm (he ▸ lookup_live ((after_reset_heap s.mem x hxq).trans hcq))
              rw [move_assign_clone_ok env hinv hij hx hy hq hcq hpm hne hmem] at h
              simp at h
              rw [← h.1]; exact inv_move_assign_clone hinv hij hx hy hq hfm _ _ _ _ _
            · have ho' : ∀ mem, o ≠ .ok mem := fun mem hm => ho ⟨mem, hm⟩
              obtain ⟨lg, f, hm⟩ := move_assign_clone_fail env hinv o hij hx hy hq hpm hne ho'
              rw [hm] at h
              simp at h
              rw [← h.1]; exact inv_reset hinv hx _ _

theorem step_inv (env : Env V) {op : Op V} {s s' : State V} {st : Status} (hinv : s.inv)
    (h : step env op s = some (s', st)) : s'.inv := by
  unfold step at h
  cases hadm : op.admissible s with
  | false => simp [hadm] at h
  | true =>
    simp only [hadm, if_true] at h
    cases op with
    | default o =>
      exact construct_in_place_inv hinv _ _ o (by simpa [Op.admissible] using hadm) h
    | in_place v o =>
      exact construct_in_place_inv hinv _ _ o (by simpa [Op.admissible] using hadm) h
    | alloc_in_place a v o =>
      exact construct_in_place_inv hinv _ _ o (by simpa [Op.admissible] using hadm) h
    | copy j o =>
      cases hy : s.obj j with
      | none => simp [Op.call, polymorphic.copy, hy] at h
      | some y =>
        simp only [Op.call, copy_eq_alloc_copy env o hy] at h
        exact alloc_copy_inv hinv _ j o (by simpa [Op.admissible] using hadm) h
    | alloc_copy a j o =>
      exact alloc_copy_inv hinv a j o (by simpa [Op.admissible] using hadm) h
    | move j =>
      cases hy : s.obj j with
      | none => simp [Op.call, polymorphic.move, hy] at h
      | some y =>
        simp only [Op.call, move_eq_alloc_move hy] at h
        exact alloc_move_inv hinv _ j h
    | alloc_move a j => exact alloc_move_inv hinv a j h
    | destructor i => exact destructor_inv hinv i h
    | copy_assign i j o =>
      exact copy_assign_inv env hinv i j o (by simpa [Op.admissible] using hadm) h
    | move_assign i j o =>
      refine move_assign_inv env hinv i j o ?_ h
      intro x hx
      simpa [Op.admissible, reset_ok hinv hx] using hadm
    | swap i j => exact (swap_inv env hinv i j).1 h
    | free_swap i j => exact (swap_inv env hinv i j).2 h
    | arrow i =>
      simp [Op.call] at h
      rw [← h.2.1]; exact hinv
    | deref i =>
      simp [Op.call] at h
      rw [← h.2.1]; exact hinv
    | valueless_after_move i =>
      simp [Op.call] at h
      rw [← h.2.1]; exact hinv
    | get_allocator i =>
      simp [Op.call] at h
      rw [← h.2.1]; exact hinv

theorem init_inv : (State.init : State V).inv := by
  refine ⟨?_, ?_, ?_⟩ <;> simp [State.init, owned, live]

theorem run_inv (env : Env V) (ops : List (Op V)) {s s' : State V} (hinv : s.inv)
    (h : run env ops s = some s') : s'.inv := by
  induction ops generalizing s with
  | nil => simp [run] at h; rw [← h]; exact hinv
  | cons op ops ih =>
    cases hs : step env op s with
    | none => simp [run, hs] at h
    | some r =>
      obtain ⟨s1, st⟩ := r
      simp only [run, hs] at h
      exact ih (step_inv env hinv hs) h

theorem live_owned {s : State V} (hinv : s.inv) {p : Nat} (hp : p ∈ live s.mem.heap) :
    ∃ i x, s.obj i = some x ∧ x.cb_ = some p := by
  have hmem : p ∈ owned s.objs := hinv.1.symm.subset hp
  obtain ⟨o, ho, hb⟩ := List.mem_filterMap.mp hmem
  cases o with
  | none => simp at hb
  | some x =>
    obtain ⟨i, hi⟩ := List.mem_iff_getElem?.mp ho
    exact ⟨i, x, by simp [State.obj, hi], by simpa using hb⟩

/-- C10 (single ownership). In every state that a sequence of public calls
reaches from the initial state (calls that report a failure included), the
number of live blocks equals the number of containers that own a block, no
address is live twice, every block a container owns is live, every live block
is owned by a container, and two containers that own the same block are the
same container. -/
theorem single_ownership (env : Env V) (ops : List (Op V)) (s : State V)
    (h : run env ops State.init = some s) :
    (live s.mem.heap).length = (owned s.objs).length ∧
      (live s.mem.heap).Nodup ∧
      (∀ i x p, s.obj i = some x → x.cb_ = some p → ∃ cb, lookup s.mem.heap p = some cb) ∧
      (∀ p, p ∈ live s.mem.heap → ∃ i x, s.obj i = some x ∧ x.cb_ = some p) ∧
      (∀ i j x y p, s.obj i = some x → s.obj j = some y → x.cb_ = some p →
        y.cb_ = some p → i = j) := by
  have hinv := run_inv env ops init_inv h
  refine ⟨hinv.1.length_eq.symm, hinv.2.1, ?_, fun p hp => live_owned hinv hp, ?_⟩
  · intro i x p hx hp
    exact inv_live hinv hx p hp
  · intro i j x y p hx hy hp hq
    by_contra hij
    exact inv_distinct hinv hij hx hp hy hq rfl

/-- C10 instantiated on `demo_program`, which ends in `demo_final`. -/
theorem single_ownership_witness :
    run demo_env demo_program State.init = some demo_final ∧
      (live demo_final.mem.heap).length = (owned demo_final.objs).length ∧
      (live demo_final.mem.heap).Nodup ∧
      (∀ i x p, demo_final.obj i = some x → x.cb_ = some p →
        ∃ cb, lookup demo_final.mem.heap p = some cb) ∧
      (∀ p, p ∈ live demo_final.mem.heap → ∃ i x, demo_final.obj i = some x ∧ x.cb_ = some p) ∧
      (∀ i j x y p, demo_final.obj i = some x → demo_final.obj j = some y → x.cb_ = some p →
        y.cb_ = some p → i = j) :=
  ⟨rfl, single_ownership demo_env demo_program demo_final rfl⟩

/-! ## Destruction after a move -/

theorem not_live_after_reset {m : Mem V} (z : Polymorphic) {q : Nat}
    (h : q ∉ live m.heap ∨ z.cb_ = some q) (hn : (live m.heap).Nodup) :
    q ∉ live (after_reset m z).heap := by
  cases hp : z.cb_ with
  | none =>
    rcases h with h | h
    · simpa [after_reset, hp] using h
    · rw [hp] at h; cases h
  | some p =>
    simp only [after_reset, hp, live_remove]
    rcases h with h | h
    · exact fun hm => h (List.mem_of_mem_erase hm)
    · rw [hp] at h
      cases h
      exact hn.not_mem_erase

theorem destructor_valueless {s : State V} {k : Nat} {z : Polymorphic}
    (hz : s.obj k = some z) (hv : z.cb_ = none) :
    polymorphic.destructor k s = some (s.end_obj k, .returned) := by
  rw [destructor_of_live hz (by intro p hp; rw [hv] at hp; cases hp)]
  simp [after_reset, hv, State.end_obj]

theorem destroy_both {s1 : State V} (hinv : s1.inv) {t j : Nat} {zt zj : Polymorphic}
    (htj : t ≠ j) (ht : s1.obj t = some zt) (hj : s1.obj j = some zj) (hzj : zj.cb_ = none)
    (q : Nat) (hq : q ∉ live s1.mem.heap ∨ zt.cb_ = some q) :
    ∀ ord ∈ [(t, j), (j, t)], ∃ s2 s3,
      polymorphic.destructor ord.1 s1 = some (s2, .returned) ∧
      polymorphic.destructor ord.2 s2 = some (s3, .returned) ∧
      destroys s3.mem.log q = destroys s1.mem.log q + owns (some zt) q ∧
      q ∉ live s3.mem.heap := by
  have hjt : j ≠ t := fun h => htj h.symm
  have hlt := obj_lt ht
  have hlj := obj_lt hj
  have ht2 := obj_eq_getElem ht
  have hj2 := obj_eq_getElem hj
  have e1 := destructor_of_live ht (inv_live hinv ht)
  have e2 := destructor_of_live hj (inv_live hinv hj)
  have i1 := inv_destructor hinv ht
  have i2 := inv_destructor hinv hj
  have hj' : State.obj (V := V) ⟨after_reset s1.mem zt, s1.objs.set t none⟩ j = some zj := by
    simp [State.obj, List.getElem?_set, htj, hj2]
  have ht' : State.obj (V := V) ⟨after_reset s1.mem zj, s1.objs.set j none⟩ t = some zt := by
    simp [State.obj, List.getElem?_set, hjt, ht2]
  have e3 := destructor_of_live hj' (inv_live i1 hj')
  have e4 := destructor_of_live ht' (inv_live i2 ht')
  have c1 := (after_reset_counts s1.mem zt q).2.2
  have c2 := (after_reset_counts (after_reset s1.mem zt) zj q).2.2
  have c3 := (after_reset_counts s1.mem zj q).2.2
  have c4 := (after_reset_counts (after_reset s1.mem zj) zt q).2.2
  have o0 : owns (some zj) q = 0 := by simp [owns, hzj]
  have n1 := not_live_after_reset zt hq hinv.2.1
  have n2 := not_live_after_reset zj (Or.inl n1) i1.2.1
  have hz : after_reset s1.mem zj = s1.mem := by simp [after_reset, hzj]
  have n4 : q ∉ live (after_reset (after_reset s1.mem zj) zt).heap := by rw [hz]; exact n1
  intro ord hord
  simp only [List.mem_cons, List.mem_singleton, List.not_mem_nil, or_false] at hord
  rcases hord with rfl | rfl
  · exact ⟨_, _, e1, e3, by simp only; omega, n2⟩
  · exact ⟨_, _, e2, e4, by simp only; omega, n4⟩

theorem destroys_append (l1 l2 : List Event) (q : Nat) :
    destroys (l1 ++ l2) q = destroys l1 q + destroys l2 q := by
  simp [destroys, List.filter_append]

/-- C8 (no double release). In a state satisfying the ownership invariant, let
`j` own the block at `q`; no other container need exist. A move construction
from `j` (plain or allocator-extended, the new container having identity
`s.objs.length`) returns and leaves `j` valueless, and so does, for every
other container `i`, a move assignment `i = std::move(j)` that succeeds
(directly, or by a clone at an address that is not live). Destroying the two
containers of the pair, in either order, returns both times, and over the move
and both destructions `destroy` is called on the block at `q` exactly once,
after which `q` is not live. Destroying any valueless container returns and
leaves the free store and the record of allocator calls as they were. -/
theorem no_double_release (env : Env V) (alloc : Alloc) (s : State V) (j q : Nat)
    (y : Polymorphic) (hinv : s.inv) (hy : s.obj j = some y) (hq : y.cb_ = some q) :
    (∀ mv ∈ [polymorphic.move j, polymorphic.alloc_move alloc j],
      ∃ s1, mv s = some (s1, .returned) ∧
        polymorphic.valueless_after_move j s1 = some true ∧
        ∀ ord ∈ [(s.objs.length, j), (j, s.objs.length)], ∃ s2 s3,
          polymorphic.destructor ord.1 s1 = some (s2, .returned) ∧
          polymorphic.destructor ord.2 s2 = some (s3, .returned) ∧
          destroys s3.mem.log q = destroys s.mem.log q + 1 ∧ q ∉ live s3.mem.heap) ∧
    (∀ (i : Nat) (x : Polymorphic) (o : Oracle), i ≠ j → s.obj i = some x →
      o.fresh (after_reset s.mem x).heap →
      (env.pocma = true ∨ x.alloc_ = y.alloc_ ∨ ∃ mem, o = .ok mem) →
      ∃ s1, polymorphic.move_assign env i j o s = some (s1, .returned) ∧
        polymorphic.valueless_after_move j s1 = some true ∧
        ∀ ord ∈ [(i, j), (j, i)], ∃ s2 s3,
          polymorphic.destructor ord.1 s1 = some (s2, .returned) ∧
          polymorphic.destructor ord.2 s2 = some (s3, .returned) ∧
          destroys s3.mem.log q = destroys s.mem.log q + 1 ∧ q ∉ live s3.mem.heap) ∧
    (∀ (s0 : State V) (k : Nat) (z : Polymorphic), s0.obj k = some z → z.cb_ = none →
      polymorphic.destructor k s0 = some (s0.end_obj k, .returned) ∧
        (s0.end_obj k).mem = s0.mem) := by
  have hlj := obj_lt hy
  have key : ∀ (s1 : State V) (t : Nat) (zt zj : Polymorphic), s1.inv → t ≠ j →
      s1.obj t = some zt → s1.obj j = some zj → zj.cb_ = none →
      destroys s1.mem.log q + owns (some zt) q = destroys s.mem.log q + 1 →
      (q ∉ live s1.mem.heap ∨ zt.cb_ = some q) →
      polymorphic.valueless_after_move j s1 = some true ∧
        ∀ ord ∈ [(t, j), (j, t)], ∃ s2 s3,
          polymorphic.destructor ord.1 s1 = some (s2, .returned) ∧
          polymorphic.destructor ord.2 s2 = some (s3, .returned) ∧
          destroys s3.mem.log q = destroys s.mem.log q + 1 ∧ q ∉ live s3.mem.heap := by
    intro s1 t zt zj hinv1 htj ht hj hzj hcount hlive
    refine ⟨by simp [polymorphic.valueless_after_move, hj, hzj], ?_⟩
    intro ord hord
    obtain ⟨s2, s3, h1, h2, h3, h4⟩ := destroy_both hinv1 htj ht hj hzj q hlive ord hord
    exact ⟨s2, s3, h1, h2, by omega, h4⟩
  have hmove : ∀ a : Alloc, ∃ s1, polymorphic.alloc_move a j s = some (s1, .returned) ∧
      polymorphic.valueless_after_move j s1 = some true ∧
        ∀ ord ∈ [(s.objs.length, j), (j, s.objs.length)], ∃ s2 s3,
          polymorphic.destructor ord.1 s1 = some (s2, .returned) ∧
          polymorphic.destructor ord.2 s2 = some (s3, .returned) ∧
          destroys s3.mem.log q = destroys s.mem.log q + 1 ∧ q ∉ live s3.mem.heap := by
    intro a
    have hne : s.objs.length ≠ j := fun h => Nat.lt_irrefl _ (h ▸ hlj)
    have hlj2 : j < (s.objs.set j (some (Polymorphic.mk none y.alloc_))).length := by
      simpa using hlj
    refine ⟨_, alloc_move_ok a hy hq, key _ s.objs.length ⟨some q, a⟩ ⟨none, y.alloc_⟩
      (inv_move_construct hinv hy hq a y.alloc_) hne ?_ ?_ rfl ?_ (Or.inr rfl)⟩
    · simp [State.obj]
    · simp [State.obj, List.getElem?_append_left hlj2, List.getElem?_set, hlj]
    · simp [owns]
  refine ⟨?_, ?_, fun s0 k z hz hv => ⟨destructor_valueless hz hv, rfl⟩⟩
  · intro mv hmv
    simp only [List.mem_cons, List.mem_singleton, List.not_mem_nil, or_false] at hmv
    rcases hmv with rfl | rfl
    · simp only [move_eq_alloc_move hy]; exact hmove _
    · exact hmove _
  · intro i x o hij hx ho hsucc
    have hlt := obj_lt hx
    have hji : j ≠ i := fun h => hij h.symm
    have hxq : x.cb_ ≠ some q := fun h => inv_distinct hinv hij hx h hy hq rfl
    have hcnt := (after_reset_counts s.mem x q).2.2
    have hox : owns (some x) q = 0 := by simp [owns, hxq]
    by_cases hd : env.pocma = true ∨ x.alloc_ = y.alloc_
    · refine ⟨_, move_assign_direct_ok env hinv o hij hx hy hq hd,
        key _ i ⟨some q, if env.pocma then y.alloc_ else x.alloc_⟩ ⟨none, y.alloc_⟩
          (inv_move_assign_direct hinv hij hx hy hq _ _) hij ?_ ?_ rfl ?_ (Or.inr rfl)⟩
      · simp [State.obj, List.getElem?_set, hlt, hlj, hij, hji]
      · simp [State.obj, List.getElem?_set, hlt, hlj, hij, hji]
      · simp only [hcnt, hox]; simp [owns]
    · have hpm : env.pocma = false := by
        cases hpm : env.pocma with
        | false => rfl
        | true => exact absurd (Or.inl hpm) hd
      have hne : x.alloc_ ≠ y.alloc_ := fun he => hd (Or.inr he)
      obtain ⟨mem, rfl⟩ : ∃ mem, o = .ok mem := by
        rcases hsucc with h | h | h
        · exact absurd (Or.inl h) hd
        · exact absurd (Or.inr h) hd
        · exact h
      obtain ⟨cq, hcq, _⟩ := inv_owned_lookup hinv hy hq
      have hfm := ho mem rfl
      have hmem : mem ≠ q := fun he =>
        hfm (he ▸ lookup_live ((after_reset_heap s.mem x hxq).trans hcq))
      have hinv1 := inv_move_assign_clone hinv hij hx hy hq hfm cq.u_ x.alloc_ x.alloc_ y.alloc_
        ((after_reset s.mem x).log ++
          [.clone x.alloc_ q, .allocate x.alloc_ mem, .construct x.alloc_ mem,
            .destroy y.alloc_ q, .deallocate y.alloc_ q])
      refine ⟨_, move_assign_clone_ok env hinv hij hx hy hq hcq hpm hne hmem,
        key _ i ⟨some mem, x.alloc_⟩ ⟨none, y.alloc_⟩ hinv1 hij ?_ ?_ rfl ?_ (Or.inl ?_)⟩
      · simp [State.obj, List.getElem?_set, hlt, hlj, hij, hji]
      · simp [State.obj, List.getElem?_set, hlt, hlj, hij, hji]
      · have h5 : destroys [Event.clone x.alloc_ q, .allocate x.alloc_ mem,
            .construct x.alloc_ mem, .destroy y.alloc_ q, .deallocate y.alloc_ q] q = 1 := by
          simp [destroys]
        simp only [destroys_append, h5, owns_some, hmem, if_false, hcnt, hox]
      · have hnd := after_reset_nodup hinv.2.1 x
        have hnd2 : (live ((mem, (⟨mem, cq.u_, x.alloc_⟩ : Block V)) ::
            (after_reset s.mem x).heap)).Nodup := List.nodup_cons.mpr ⟨hfm, hnd⟩
        simp only [live_remove]
        exact hnd2.not_mem_erase

/-- C8 instantiated twice. On `demo_single`, where container 0 is the only
container: the two move constructions from it. On `demo_state`: the two move
constructions from container 1 and the move assignment of container 1 to
container 0, which clones at 300. -/
theorem no_double_release_witness :
    (demo_single.inv ∧ demo_single.obj 0 = some ⟨some 100, ⟨1⟩⟩ ∧
      ∀ mv ∈ [polymorphic.move 0, polymorphic.alloc_move ⟨5⟩ 0],
        ∃ s1, mv demo_single = some (s1, .returned) ∧
          polymorphic.valueless_after_move 0 s1 = some true ∧
          ∀ ord ∈ [(demo_single.objs.length, 0), (0, demo_single.objs.length)], ∃ s2 s3,
            polymorphic.destructor ord.1 s1 = some (s2, .returned) ∧
            polymorphic.destructor ord.2 s2 = some (s3, .returned) ∧
            destroys s3.mem.log 100 = destroys demo_single.mem.log 100 + 1 ∧
            100 ∉ live s3.mem.heap) ∧
    (demo_state.inv ∧ demo_state.obj 1 = some ⟨some 200, ⟨2⟩⟩ ∧
      (∀ mv ∈ [polymorphic.move 1, polymorphic.alloc_move ⟨5⟩ 1],
        ∃ s1, mv demo_state = some (s1, .returned) ∧
          polymorphic.valueless_after_move 1 s1 = some true ∧
          ∀ ord ∈ [(demo_state.objs.length, 1), (1, demo_state.objs.length)], ∃ s2 s3,
            polymorphic.destructor ord.1 s1 = some (s2, .returned) ∧
            polymorphic.destructor ord.2 s2 = some (s3, .returned) ∧
            destroys s3.mem.log 200 = destroys demo_state.mem.log 200 + 1 ∧
            200 ∉ live s3.mem.heap) ∧
      (0 : Nat) ≠ 1 ∧ demo_state.obj 0 = some ⟨some 100, ⟨1⟩⟩ ∧
      (Oracle.ok 300).fresh (after_reset demo_state.mem ⟨some 100, ⟨1⟩⟩).heap ∧
      (∃ s1, polymorphic.move_assign demo_env 0 1 (.ok 300) demo_state = some (s1, .returned) ∧
        polymorphic.valueless_after_move 1 s1 = some true ∧
        ∀ ord ∈ [((0 : Nat), (1 : Nat)), (1, 0)], ∃ s2 s3,
          polymorphic.destructor ord.1 s1 = some (s2, .returned) ∧
          polymorphic.destructor ord.2 s2 = some (s3, .returned) ∧
          destroys s3.mem.log 200 = destroys demo_state.mem.log 200 + 1 ∧
          200 ∉ live s3.mem.heap) ∧
      (∀ (s0 : State Nat) (k : Nat) (z : Polymorphic), s0.obj k = some z → z.cb_ = none →
        polymorphic.destructor k s0 = some (s0.end_obj k, .returned) ∧
          (s0.end_obj k).mem = s0.mem)) :=
  ⟨⟨by decide, rfl,
      (no_double_release demo_env ⟨5⟩ demo_single 0 100 ⟨some 100, ⟨1⟩⟩ (by decide) rfl rfl).1⟩,
    ⟨by decide, rfl,
      (no_double_release demo_env ⟨5⟩ demo_state 1 200 ⟨some 200, ⟨2⟩⟩ (by decide) rfl rfl).1,
      by decide, rfl, by decide,
      (no_double_release demo_env ⟨5⟩ demo_state 1 200 ⟨some 200, ⟨2⟩⟩ (by decide) rfl
        rfl).2.1 0 ⟨some 100, ⟨1⟩⟩ (.ok 300) (by decide) rfl (by decide)
        (Or.inr (Or.inr ⟨300, rfl⟩)),
      (no_double_release demo_env ⟨5⟩ demo_state 1 200 ⟨some 200, ⟨2⟩⟩ (by decide) rfl
        rfl).2.2⟩⟩

/-! ## How a container becomes valueless -/

theorem vl_iff (s : State V) (k : Nat) :
    polymorphic.valueless_after_move k s = some true ↔
      ∃ al, s.objs[k]? = some (some ⟨none, al⟩) := by
  constructor
  · intro h
    cases hz : s.obj k with
    | none => simp [polymorphic.valueless_after_move, hz] at h
    | some z =>
      obtain ⟨cb, al⟩ := z
      simp [polymorphic.valueless_after_move, hz] at h
      subst h
      exact ⟨al, obj_eq_getElem hz⟩
  · rintro ⟨al, h⟩
    simp [polymorphic.valueless_after_move, State.obj, h]

theorem getElem?_set_cases {α : Type} {l : List α} {i k : Nat} {a b : α}
    (h : (l.set i a)[k]? = some b) : (k = i ∧ a = b) ∨ (k ≠ i ∧ l[k]? = some b) := by
  by_cases hki : k = i
  · subst hki
    by_cases hlt : k < l.length
    · simp [List.getElem?_set, hlt] at h
      exact Or.inl ⟨rfl, h⟩
    · simp [List.getElem?_set, hlt] at h
  · rw [List.getElem?_set_ne (fun h => hki h.symm)] at h
    exact Or.inr ⟨hki, h⟩

theorem getElem?_append_cases {α : Type} {l : List α} {k : Nat} {a b : α}
    (h : (l ++ [a])[k]? = some b) : (k = l.length ∧ a = b) ∨ l[k]? = some b := by
  rcases Nat.lt_trichotomy k l.length with hlt | heq | hgt
  · rw [List.getElem?_append_left hlt] at h
    exact Or.inr h
  · subst heq
    simp at h
    exact Or.inl ⟨rfl, h⟩
  · rw [List.getElem?_eq_none (by simp; omega)] at h
    cases h

theorem construct_in_place_vl {s s' : State V} {st : Status} (alloc : Alloc) (v : V)
    (o : Oracle) (k : Nat) (h : construct_in_place alloc v o s = some (s', st))
    (hv : polymorphic.valueless_after_move k s' = some true) :
    polymorphic.valueless_after_move k s = some true := by
  rw [vl_iff] at hv ⊢
  obtain ⟨al, hv⟩ := hv
  cases o with
  | bad_alloc =>
    simp [construct_in_place, allocate_construct] at h
    rw [← h.1] at hv; exact ⟨al, hv⟩
  | ctor_throws mem =>
    simp [construct_in_place, allocate_construct] at h
    rw [← h.1] at hv; exact ⟨al, hv⟩
  | ok mem =>
    simp [construct_in_place, allocate_construct, State.new_obj] at h
    rw [← h.1] at hv
    rcases getElem?_append_cases hv with ⟨_, h2⟩ | h2
    · simp at h2
    · exact ⟨al, h2⟩

theorem alloc_copy_vl {s s' : State V} {st : Status} (hinv : s.inv) (alloc : Alloc)
    (j : Nat) (o : Oracle) (k : Nat) (h : polymorphic.alloc_copy alloc j o s = some (s', st))
    (hv : polymorphic.valueless_after_move k s' = some true) :
    polymorphic.valueless_after_move k s = some true := by
  rw [vl_iff] at hv ⊢
  obtain ⟨al, hv⟩ := hv
  cases hy : s.obj j with
  | none => simp [polymorphic.alloc_copy, hy] at h
  | some y =>
    cases hq : y.cb_ with
    | none => simp [polymorphic.alloc_copy, hy, hq] at h
    | some q =>
      obtain ⟨cq, hcq, _⟩ := inv_owned_lookup hinv hy hq
      cases o with
      | ok mem =>
        rw [alloc_copy_ok alloc mem hy hq hcq] at h
        simp at h
        rw [← h.1] at hv
        rcases getElem?_append_cases hv with ⟨_, h2⟩ | h2
        · simp at h2
        · exact ⟨al, h2⟩
      | bad_alloc =>
        obtain ⟨m, f, hm, hh⟩ := alloc_copy_fail alloc .bad_alloc hy hq hcq (fun _ h => by cases h)
        rw [hm] at h
        simp at h
        rw [← h.1] at hv; exact ⟨al, hv⟩
      | ctor_throws mem =>
        obtain ⟨m, f, hm, hh⟩ := alloc_copy_fail alloc (.ctor_throws mem) hy hq hcq
          (fun _ h => by cases h)
        rw [hm] at h
        simp at h
        rw [← h.1] at hv; exact ⟨al, hv⟩

theorem alloc_move_vl {s s' : State V} {st : Status} (alloc : Alloc)
    (j : Nat) (k : Nat) (h : polymorphic.alloc_move alloc j s = some (s', st))
    (hv : polymorphic.valueless_after_move k s' = some true) :
    polymorphic.valueless_after_move k s = some true ∨ j = k := by
  rw [vl_iff] at hv ⊢
  obtain ⟨al, hv⟩ := hv
  cases hy : s.obj j with
  | none => simp [polymorphic.alloc_move, hy] at h
  | some y =>
    cases hq : y.cb_ with
    | none => simp [polymorphic.alloc_move, hy, hq] at h
    | some q =>
      rw [alloc_move_ok alloc hy hq] at h
      simp at h
      rw [← h.1] at hv
      rcases getElem?_append_cases hv with ⟨_, h2⟩ | h2
      · simp at h2
      · rcases getElem?_set_cases h2 with ⟨h3, _⟩ | ⟨_, h3⟩
        · exact Or.inr h3.symm
        · exact Or.inl ⟨al, h3⟩

theorem destructor_vl {s s' : State V} {st : Status} (hinv : s.inv) (i k : Nat)
    (h : polymorphic.destructor i s = some (s', st))
    (hv : polymorphic.valueless_after_move k s' = some true) :
    polymorphic.valueless_after_move k s = some true := by
  rw [vl_iff] at hv ⊢
  obtain ⟨al, hv⟩ := hv
  cases hx : s.obj i with
  | none => simp [polymorphic.destructor, polymorphic.reset, hx] at h
  | some x =>
    rw [destructor_of_live hx (inv_live hinv hx)] at h
    simp at h
    rw [← h.1] at hv
    rcases getElem?_set_cases hv with ⟨_, h3⟩ | ⟨_, h3⟩
    · cases h3
    · exact ⟨al, h3⟩

theorem swap_body_vl (env : Env V) {s s' : State V} (i j k : Nat)
    (h : swap_body env i j s = some s')
    (hv : polymorphic.valueless_after_move k s' = some true) :
    polymorphic.valueless_after_move k s = some true ∨
      (k = i ∧ polymorphic.valueless_after_move j s = some true) ∨
      (k = j ∧ polymorphic.valueless_after_move i s = some true) := by
  cases hx : s.obj i with
  | none => simp [swap_body, hx] at h
  | some x =>
    cases hy : s.obj j with
    | none => simp [swap_body, hx, hy] at h
    | some y =>
      by_cases hij : i = j
      · subst hij
        rw [swap_body_self env hx] at h
        simp at h
        rw [← h] at hv; exact Or.inl hv
      · rw [swap_body_ne env hij hx hy] at h
        simp at h
        rw [vl_iff] at hv
        obtain ⟨al, hv⟩ := hv
        rw [← h] at hv
        rcases getElem?_set_cases hv with ⟨h3, h4⟩ | ⟨_, h3⟩
        · simp at h4
          refine Or.inr (Or.inr ⟨h3, ?_⟩)
          simp [polymorphic.valueless_after_move, hx, h4.1]
        · rcases getElem?_set_cases h3 with ⟨h5, h6⟩ | ⟨_, h5⟩
          · simp at h6
            refine Or.inr (Or.inl ⟨h5, ?_⟩)
            simp [polymorphic.valueless_after_move, hy, h6.1]
          · exact Or.inl ((vl_iff s k).mpr ⟨al, h5⟩)

theorem swap_vl (env : Env V) {s s' : State V} {st : Status} (i j k : Nat)
    (hv : polymorphic.valueless_after_move k s' = some true) :
    (polymorphic.swap env i j s = some (s', st) →
      polymorphic.valueless_after_move k s = some true ∨
        (j = k ∧ polymorphic.valueless_after_move i s = some true)) ∧
    (xyz.swap env i j s = some (s', st) → polymorphic.valueless_after_move k s = some true) := by
  cases hx : s.obj i with
  | none => simp [polymorphic.swap, xyz.swap, hx]
  | some x =>
    cases hy : s.obj j with
    | none => simp [polymorphic.swap, xyz.swap, hx, hy]
    | some y =>
      cases hb : swap_body env i j s with
      | none => simp [polymorphic.swap, xyz.swap, hx, hy, hb]
      | some s1 =>
        constructor
        · intro h
          simp [polymorphic.swap, hx, hy, hb] at h
          rw [← h.2.1] at hv
          rcases swap_body_vl env i j k hb hv with h1 | ⟨_, h1⟩ | ⟨h1, h2⟩
          · exact Or.inl h1
          · simp [polymorphic.valueless_after_move, hy] at h1
            exact absurd h1 h.1
          · exact Or.inr ⟨h1.symm, h2⟩
        · intro h
          simp [xyz.swap, hx, hy, hb] at h
          rw [← h.2.2.1] at hv
          rcases swap_body_vl env i j k hb hv with h1 | ⟨_, h1⟩ | ⟨_, h1⟩
          · exact h1
          · simp [polymorphic.valueless_after_move, hy] at h1
            exact absurd h1 h.2.1
          · simp [polymorphic.valueless_after_move, hx] at h1
            exact absurd h1 h.1

theorem copy_assign_vl (env : Env V) {s s' : State V} {st : Status} (hinv : s.inv)
    (i j : Nat) (o : Oracle) (k : Nat) (hf : o.fresh s.mem.heap)
    (h : polymorphic.copy_assign env i j o s = some (s', st))
    (hv : polymorphic.valueless_after_move k s' = some true) :
    polymorphic.valueless_after_move k s = some true := by
  rw [vl_iff] at hv ⊢
  obtain ⟨al, hv⟩ := hv
  cases hx : s.obj i with
  | none => simp [polymorphic.copy_assign, hx] at h
  | some x =>
    cases hy : s.obj j with
    | none => simp [polymorphic.copy_assign, hx, hy] at h
    | some y =>
      cases hq : y.cb_ with
      | none => simp [polymorphic.copy_assign, hx, hy, hq] at h
      | some q =>
        by_cases hij : i = j
        · simp [polymorphic.copy_assign, hx, hy, hq, hij] at h
          rw [← h.1] at hv; exact ⟨al, hv⟩
        · obtain ⟨cq, hcq, _⟩ := inv_owned_lookup hinv hy hq
          have hlt := obj_lt hx
          have hx2 := obj_eq_getElem hx
          have hy2 := obj_eq_getElem hy
          by_cases ho : ∃ mem, o = .ok mem
          · obtain ⟨mem, rfl⟩ := ho
            rw [copy_assign_ok env hij hx hy hq hcq (inv_live hinv hx) (hf mem rfl)] at h
            simp at h
            rw [← h.1] at hv
            rcases getElem?_append_cases hv with ⟨_, h2⟩ | h2
            · cases h2
            · rcases getElem?_set_cases h2 with ⟨_, h3⟩ | ⟨_, h3⟩
              · simp at h3
              · exact ⟨al, h3⟩
          · have ho' : ∀ mem, o ≠ .ok mem := fun mem hm => ho ⟨mem, hm⟩
            cases hpo : env.pocca with
            | false =>
              obtain ⟨m, f, hm, hh⟩ := alloc_copy_fail (env.socc y.alloc_) o hy hq hcq ho'
              simp [polymorphic.copy_assign, hx, hy, hq, hij, hpo, copy_eq_alloc_copy env o hy,
                hm] at h
              rw [← h.1] at hv; exact ⟨al, hv⟩
            | true =>
              have hj1 : State.obj (V := V) ⟨s.mem, s.objs.set i (some ⟨x.cb_, y.alloc_⟩)⟩ j
                  = some y := by
                simp [State.obj, List.getElem?_set, hij, hy2]
              obtain ⟨m, f, hm, hh⟩ := alloc_copy_fail
                (s := ⟨s.mem, s.objs.set i (some ⟨x.cb_, y.alloc_⟩)⟩) y.alloc_ o hj1 hq hcq ho'
              simp [polymorphic.copy_assign, hx, hy, hq, hij, hpo, State.set_alloc,
                State.set_obj] at h
              simp [State.obj, List.getElem?_set, hlt] at h
              rw [hm] at h
              simp at h
              rw [← h.1] at hv
              rcases getElem?_set_cases hv with ⟨h2, h3⟩ | ⟨_, h3⟩
              · simp at h3
                subst h2
                refine ⟨x.alloc_, ?_⟩
                rw [hx2]
                obtain ⟨c, a⟩ := x
                simp at h3
                simp [h3.1]
              · exact ⟨al, h3⟩

theorem move_assign_vl (env : Env V) {s s' : State V} {st : Status} (hinv : s.inv)
    (i j : Nat) (o : Oracle) (k : Nat)
    (hf : ∀ x, s.obj i = some x → o.fresh (after_reset s.mem x).heap)
    (h : polymorphic.move_assign env i j o s = some (s', st))
    (hv : polymorphic.valueless_after_move k s' = some true) :
    polymorphic.valueless_after_move k s = some true ∨ j = k ∨
      (i = k ∧ st ≠ .returned) := by
  rw [vl_iff] at hv ⊢
  obtain ⟨al, hv⟩ := hv
  cases hx : s.obj i with
  | none => simp [polymorphic.move_assign, hx] at h
  | some x =>
    cases hy : s.obj j with
    | none => simp [polymorphic.move_assign, hx, hy] at h
    | some y =>
      cases hq : y.cb_ with
      | none => simp [polymorphic.move_assign, hx, hy, hq] at h
      | some q =>
        by_cases hij : i = j
        · subst hij
          rw [move_assign_self env hinv o hx (by rw [hx] at hy; cases hy; exact hq)] at h
          simp at h
          rw [← h.1] at hv
          rcases getElem?_set_cases hv with ⟨h2, _⟩ | ⟨_, h3⟩
          · exact Or.inr (Or.inl h2.symm)
          · exact Or.inl ⟨al, h3⟩
        · by_cases hd : env.pocma = true ∨ x.alloc_ = y.alloc_
          · rw [move_assign_direct_ok env hinv o hij hx hy hq hd] at h
            simp at h
            rw [← h.1] at hv
            rcases getElem?_set_cases hv with ⟨h2, _⟩ | ⟨_, h3⟩
            · exact Or.inr (Or.inl h2.symm)
            · rcases getElem?_set_cases h3 with ⟨_, h4⟩ | ⟨_, h4⟩
              · simp at h4
              · exact Or.inl ⟨al, h4⟩
          · have hpm : env.pocma = false := by
              cases hpm : env.pocma with
              | false => rfl
              | true => exact absurd (Or.inl hpm) hd
            have hne : x.alloc_ ≠ y.alloc_ := fun he => hd (Or.inr he)
            obtain ⟨cq, hcq, _⟩ := inv_owned_lookup hinv hy hq
            by_cases ho : ∃ mem, o = .ok mem
            · obtain ⟨mem, rfl⟩ := ho
              have hfm := hf x hx mem rfl
              have hxq : x.cb_ ≠ some q := fun h => inv_distinct hinv hij hx h hy hq rfl
              have hmem : mem ≠ q := fun he =>
                hfm (he ▸ lookup_live ((after_reset_heap s.mem x hxq).trans hcq))
              rw [move_assign_clone_ok env hinv hij hx hy hq hcq hpm hne hmem] at h
              simp at h
              rw [← h.1] at hv
              rcases getElem?_set_cases hv with ⟨h2, _⟩ | ⟨_, h3⟩
              · exact Or.inr (Or.inl h2.symm)
              · rcases getElem?_set_cases h3 with ⟨_, h4⟩ | ⟨_, h4⟩
                · simp at h4
                · exact Or.inl ⟨al, h4⟩
            · have ho' : ∀ mem, o ≠ .ok mem := fun mem hm => ho ⟨mem, hm⟩
              obtain ⟨lg, f, hm⟩ := move_assign_clone_fail env hinv o hij hx hy hq hpm hne ho'
              rw [hm] at h
              simp at h
              rw [← h.1] at hv
              rcases getElem?_set_cases hv with ⟨h2, _⟩ | ⟨_, h3⟩
              · refine Or.inr (Or.inr ⟨h2.symm, ?_⟩)
                rw [← h.2]; simp
              · exact Or.inl ⟨al, h3⟩

theorem step_valueless (env : Env V) {op : Op V} {s s' : State V} {st : Status} (k : Nat)
    (hinv : s.inv) (h : step env op s = some (s', st))
    (hv : polymorphic.valueless_after_move k s' = some true) :
    polymorphic.valueless_after_move k s = some true ∨ op.vacates s st k = true := by
  unfold step at h
  cases hadm : op.admissible s with
  | false => simp [hadm] at h
  | true =>
    simp only [hadm, if_true] at h
    cases op with
    | default o => exact Or.inl (construct_in_place_vl _ _ o k h hv)
    | in_place v o => exact Or.inl (construct_in_place_vl _ _ o k h hv)
    | alloc_in_place a v o => exact Or.inl (construct_in_place_vl _ _ o k h hv)
    | copy j o =>
      cases hy : s.obj j with
      | none => simp [Op.call, polymorphic.copy, hy] at h
      | some y =>
        simp only [Op.call, copy_eq_alloc_copy env o hy] at h
        exact Or.inl (alloc_copy_vl hinv _ j o k h hv)
    | alloc_copy a j o => exact Or.inl (alloc_copy_vl hinv a j o k h hv)
    | move j =>
      cases hy : s.obj j with
      | none => simp [Op.call, polymorphic.move, hy] at h
      | some y =>
        simp only [Op.call, move_eq_alloc_move hy] at h
        exact (alloc_move_vl _ j k h hv).imp id (by simp [Op.vacates])
    | alloc_move a j => exact (alloc_move_vl a j k h hv).imp id (by simp [Op.vacates])
    | destructor i => exact Or.inl (destructor_vl hinv i k h hv)
    | copy_assign i j o =>
      exact Or.inl (copy_assign_vl env hinv i j o k (by simpa [Op.admissible] using hadm) h hv)
    | move_assign i j o =>
      have := move_assign_vl env hinv i j o k
        (fun x hx => by simpa [Op.admissible, reset_ok hinv hx] using hadm) h hv
      rcases this with h1 | h1 | ⟨h1, h2⟩
      · exact Or.inl h1
      · exact Or.inr (by simp [Op.vacates, h1])
      · exact Or.inr (by simp [Op.vacates, h1, h2])
    | swap i j =>
      rcases (swap_vl env i j k hv).1 h with h1 | ⟨h1, h2⟩
      · exact Or.inl h1
      · exact Or.inr (by simp [Op.vacates, h1, h2])
    | free_swap i j => exact Or.inl ((swap_vl env i j k hv).2 h)
    | arrow i =>
      simp [Op.call] at h
      rw [← h.2.1] at hv; exact Or.inl hv
    | deref i =>
      simp [Op.call] at h
      rw [← h.2.1] at hv; exact Or.inl hv
    | valueless_after_move i =>
      simp [Op.call] at h
      rw [← h.2.1] at hv; exact Or.inl hv
    | get_allocator i =>
      simp [Op.call] at h
      rw [← h.2.1] at hv; exact Or.inl hv

theorem run_valueless (env : Env V) (ops : List (Op V)) {s0 s : State V} (k : Nat)
    (hinv : s0.inv) (h : run env ops s0 = some s)
    (hv : polymorphic.valueless_after_move k s = some true) :
    polymorphic.valueless_after_move k s0 = some true ∨
      ∃ pre op post sa sb st, ops = pre ++ op :: post ∧ run env pre s0 = some sa ∧
        step env op sa = some (sb, st) ∧ op.vacates sa st k = true := by
  induction ops generalizing s0 with
  | nil =>
    simp [run] at h
    rw [← h] at hv; exact Or.inl hv
  | cons op ops ih =>
    cases hs : step env op s0 with
    | none => simp [run, hs] at h
    | some r =>
      obtain ⟨s1, st⟩ := r
      simp only [run, hs] at h
      rcases ih (step_inv env hinv hs) h with h1 | ⟨pre, op', post, sa, sb, st', e, hr, hst, hvac⟩
      · rcases step_valueless env k hinv hs h1 with h2 | h2
        · exact Or.inl h2
        · exact Or.inr ⟨[], op, ops, s0, s1, st, rfl, rfl, hs, h2⟩
      · refine Or.inr ⟨op :: pre, op', post, sa, sb, st', by rw [e]; rfl, ?_, hst, hvac⟩
        simp only [run, hs]; exact hr

/-- C9, as the code has it. If a sequence of public calls from the initial
state (each with its asserted preconditions satisfied, calls that report a
failure included) ends in a state where `valueless_after_move()` of container
`k` is true, then the sequence contains a call, made in a state `sa` the
preceding calls reach, that is a move construction or move assignment from
`k`, or a move assignment to `k` that reported a failure, or a member `swap`
with argument `k` called on a container that was valueless in `sa`. -/
theorem valueless_only_after_vacating (env : Env V) (ops : List (Op V)) (s : State V)
    (k : Nat) (h : run env ops State.init = some s)
    (hv : polymorphic.valueless_after_move k s = some true) :
    ∃ pre op post sa sb st, ops = pre ++ op :: post ∧ run env pre State.init = some sa ∧
      step env op sa = some (sb, st) ∧ op.vacates sa st k = true := by
  rcases run_valueless env ops k init_inv h hv with h1 | h1
  · simp [polymorphic.valueless_after_move, State.obj, State.init] at h1
  · exact h1

/-- C9 as the code has it, instantiated on `demo_swap_program` and container 1. -/
theorem valueless_only_after_vacating_witness :
    run demo_env demo_swap_program State.init = some demo_swapped ∧
      polymorphic.valueless_after_move 1 demo_swapped = some true ∧
      ∃ pre op post sa sb st, demo_swap_program = pre ++ op :: post ∧
        run demo_env pre State.init = some sa ∧
        step demo_env op sa = some (sb, st) ∧ op.vacates sa st 1 = true :=
  ⟨rfl, rfl, valueless_only_after_vacating demo_env demo_swap_program demo_swapped 1 rfl rfl⟩

/-- C9 as stated fails: `demo_swap_program` leaves container 1 valueless and
`demo_failing_program` leaves container 0 valueless, and neither program
contains a move construction or a move assignment from that container. -/
theorem valueless_without_being_moved_from :
    (∃ s, run demo_env demo_swap_program State.init = some s ∧
      polymorphic.valueless_after_move 1 s = some true ∧
      ∀ op ∈ demo_swap_program, op.moves_from 1 = false) ∧
    (∃ s, run demo_env demo_failing_program State.init = some s ∧
      polymorphic.valueless_after_move 0 s = some true ∧
      ∀ op ∈ demo_failing_program, op.moves_from 0 = false) :=
  ⟨⟨_, rfl, rfl, by decide⟩, ⟨_, rfl, rfl, by decide⟩⟩

/-! ## Failure of a payload constructor -/

theorem outstanding_alloc_dealloc (log : List Event) (pre : List Event) (a : Alloc) (mem : Nat)
    (hpre : ∀ e ∈ pre, ∃ b q, e = Event.clone b q) :
    outstanding (log ++ pre ++ [.allocate a mem, .construct a mem, .deallocate a mem])
      = outstanding log := by
  have h1 : ∀ acc : List (Alloc × Nat), pre.foldl track acc = acc := by
    induction pre with
    | nil => intro acc; rfl
    | cons e pre ih =>
      intro acc
      obtain ⟨b, q, rfl⟩ := hpre e (List.mem_cons_self _ _)
      simp only [List.foldl_cons, track]
      exact ih (fun e he => hpre e (List.mem_cons_of_mem _ he)) acc
  simp [outstanding, List.foldl_append, h1, track]

/-- C11 (allocate-then-construct failure cleanup). In any state, the initial one
included, when the allocation succeeds at `mem` and the payload's constructor
throws, the default constructor and both in-place constructors report a
construction failure; the calls they have added to the record are the
allocation of `mem`, the `construct` call that threw and the deallocation of
`mem`, all three through the same allocator; the free store holds the blocks
it held, no container was created, and the allocations outstanding after the
call are those outstanding before it. The same holds for the clone lambda
applied to any live block and for both copy constructors applied to any
container that owns a live block, where the payload's copy constructor throws
and the three calls follow the `clone` entry. -/
theorem construct_failure_cleanup (env : Env V) (alloc : Alloc) (v : V) (mem : Nat)
    (s : State V) :
    (∀ ra ∈ [(polymorphic.default env (.ctor_throws mem) s, env.default_alloc),
              (polymorphic.in_place env v (.ctor_throws mem) s, env.default_alloc),
              (polymorphic.alloc_in_place alloc v (.ctor_throws mem) s, alloc)],
      ∃ s', ra.1 = some (s', .threw .construction) ∧ s'.objs = s.objs ∧
        s'.mem.heap = s.mem.heap ∧
        s'.mem.log = s.mem.log ++
          [.allocate ra.2 mem, .construct ra.2 mem, .deallocate ra.2 mem] ∧
        outstanding s'.mem.log = outstanding s.mem.log) ∧
    (∀ (p : Nat) (cb : Block V), lookup s.mem.heap p = some cb →
      ∃ m, control_block.clone (.ctor_throws mem) s.mem p alloc
          = some (m, .error .construction) ∧
        m.heap = s.mem.heap ∧
        m.log = s.mem.log ++
          [.clone alloc p, .allocate alloc mem, .construct alloc mem, .deallocate alloc mem] ∧
        outstanding m.log = outstanding s.mem.log) ∧
    (∀ (j p : Nat) (x : Polymorphic) (cb : Block V), s.obj j = some x → x.cb_ = some p →
      lookup s.mem.heap p = some cb →
      ∀ ra ∈ [(polymorphic.copy env j (.ctor_throws mem) s, env.socc x.alloc_),
              (polymorphic.alloc_copy alloc j (.ctor_throws mem) s, alloc)],
        ∃ s', ra.1 = some (s', .threw .construction) ∧ s'.objs = s.objs ∧
          s'.mem.heap = s.mem.heap ∧
          s'.mem.log = s.mem.log ++
            [.clone ra.2 p, .allocate ra.2 mem, .construct ra.2 mem, .deallocate ra.2 mem] ∧
          outstanding s'.mem.log = outstanding s.mem.log) := by
  have ho : ∀ (a : Alloc) (p : Nat), outstanding
      (s.mem.log ++ [.clone a p, .allocate a mem, .construct a mem, .deallocate a mem])
        = outstanding s.mem.log := by
    intro a p
    have := outstanding_alloc_dealloc s.mem.log [.clone a p] a mem
      (by intro e he; simp at he; exact ⟨a, p, he⟩)
    simpa using this
  have ho2 : ∀ a : Alloc, outstanding
      (s.mem.log ++ [.allocate a mem, .construct a mem, .deallocate a mem])
        = outstanding s.mem.log := by
    intro a
    have := outstanding_alloc_dealloc s.mem.log [] a mem (by intro e he; cases he)
    simpa using this
  refine ⟨?_, ?_, ?_⟩
  · intro ra hra
    simp only [List.mem_cons, List.mem_singleton, List.not_mem_nil, or_false] at hra
    rcases hra with rfl | rfl | rfl <;>
      exact ⟨⟨⟨s.mem.heap, s.mem.log ++
          [.allocate _ mem, .construct _ mem, .deallocate _ mem]⟩, s.objs⟩,
        by simp [polymorphic.default, polymorphic.in_place, polymorphic.alloc_in_place,
          construct_in_place, allocate_construct], rfl, rfl, rfl, ho2 _⟩
  · intro p cb hcb
    exact ⟨⟨s.mem.heap, s.mem.log ++
        [.clone alloc p, .allocate alloc mem, .construct alloc mem, .deallocate alloc mem]⟩,
      by simp [control_block.clone, hcb, allocate_construct], rfl, rfl, ho alloc p⟩
  · intro j p x cb hx hp hcb ra hra
    simp only [List.mem_cons, List.mem_singleton, List.not_mem_nil, or_false] at hra
    rcases hra with rfl | rfl <;>
      exact ⟨⟨⟨s.mem.heap, s.mem.log ++
          [.clone _ p, .allocate _ mem, .construct _ mem, .deallocate _ mem]⟩, s.objs⟩,
        by simp [polymorphic.copy, polymorphic.alloc_copy, hx, hp, control_block.clone, hcb,
          allocate_construct], rfl, rfl, rfl, ho _ p⟩

/-- C11 instantiated twice, the payload constructor throwing in the memory at
300. On `State.init`, where nothing is allocated and no container exists: the
three constructors. On `demo_state`: the clone of the block of container 1 and
the two copy constructions from container 1. -/
theorem construct_failure_cleanup_witness :
    (∀ ra ∈ [(polymorphic.default demo_env (.ctor_throws 300) State.init,
                demo_env.default_alloc),
              (polymorphic.in_place demo_env 4 (.ctor_throws 300) State.init,
                demo_env.default_alloc),
              (polymorphic.alloc_in_place ⟨5⟩ 4 (.ctor_throws 300) State.init, ⟨5⟩)],
      ∃ s', ra.1 = some (s', .threw .construction) ∧ s'.objs = [] ∧
        s'.mem.heap = [] ∧
        s'.mem.log = [.allocate ra.2 300, .construct ra.2 300, .deallocate ra.2 300] ∧
        outstanding s'.mem.log = []) ∧
    (demo_state.obj 1 = some ⟨some 200, ⟨2⟩⟩ ∧
      lookup demo_state.mem.heap 200 = some ⟨200, 9, ⟨2⟩⟩ ∧
      (∃ m, control_block.clone (.ctor_throws 300) demo_state.mem 200 ⟨5⟩
          = some (m, .error .construction) ∧
        m.heap = demo_state.mem.heap ∧
        m.log = demo_state.mem.log ++
          [.clone ⟨5⟩ 200, .allocate ⟨5⟩ 300, .construct ⟨5⟩ 300, .deallocate ⟨5⟩ 300] ∧
        outstanding m.log = outstanding demo_state.mem.log) ∧
      (∀ ra ∈ [(polymorphic.copy demo_env 1 (.ctor_throws 300) demo_state,
                  demo_env.socc ⟨2⟩),
                (polymorphic.alloc_copy ⟨5⟩ 1 (.ctor_throws 300) demo_state, ⟨5⟩)],
        ∃ s', ra.1 = some (s', .threw .construction) ∧ s'.objs = demo_state.objs ∧
          s'.mem.heap = demo_state.mem.heap ∧
          s'.mem.log = demo_state.mem.log ++
            [.clone ra.2 200, .allocate ra.2 300, .construct ra.2 300,
              .deallocate ra.2 300] ∧
          outstanding s'.mem.log = outstanding demo_state.mem.log)) :=
  ⟨(construct_failure_cleanup demo_env ⟨5⟩ 4 300 State.init).1,
    ⟨rfl, rfl,
      (construct_failure_cleanup demo_env ⟨5⟩ 4 300 demo_state).2.1 200 ⟨200, 9, ⟨2⟩⟩ rfl,
      (construct_failure_cleanup demo_env ⟨5⟩ 4 300 demo_state).2.2 1 200 ⟨some 200, ⟨2⟩⟩
        ⟨200, 9, ⟨2⟩⟩ rfl rfl rfl⟩⟩

/-- C12 (swap exchanges ownership only). For containers `i` and `j` that are not
valueless, owning the blocks at `p` and `q`, the member and the friend `swap`
return; the free store and the record of allocator and vtable calls are
unchanged (no payload touched, nothing allocated, cloned or destroyed); `i`
owns the block at `q` and `j` the block at `p`; the two allocators are
exchanged if `propagate_on_container_swap` holds and are left as they were
otherwise; every other container is unchanged. -/
theorem swap_exchanges_ownership (env : Env V) (s : State V) (i j p q : Nat)
    (x y : Polymorphic) (hx : s.obj i = some x) (hp : x.cb_ = some p)
    (hy : s.obj j = some y) (hq : y.cb_ = some q) :
    ∀ f ∈ [polymorphic.swap env, xyz.swap env],
      ∃ s', f i j s = some (s', .returned) ∧
        s'.mem = s.mem ∧
        s'.obj i = some ⟨some q, if env.pocs then y.alloc_ else x.alloc_⟩ ∧
        s'.obj j = some ⟨some p, if env.pocs then x.alloc_ else y.alloc_⟩ ∧
        ∀ k, k ≠ i → k ≠ j → s'.obj k = s.obj k := by
  have hlt := obj_lt hx
  have hlt2 := obj_lt hy
  by_cases hij : i = j
  · subst hij
    have hxy : y = x := by rw [hx] at hy; exact (Option.some.inj hy).symm
    subst hxy
    have hpq : p = q := by rw [hp] at hq; exact Option.some.inj hq
    subst hpq
    have hb := swap_body_self env hx
    have hxe : (Polymorphic.mk (some p) (if env.pocs then y.alloc_ else y.alloc_)) = y := by
      obtain ⟨c, a⟩ := y
      simp at hp
      simp [hp]
    intro f hf
    simp only [List.mem_cons, List.mem_singleton, List.not_mem_nil, or_false] at hf
    refine ⟨s, ?_, rfl, by rw [hxe]; exact hx, by rw [hxe]; exact hx, fun _ _ _ => rfl⟩
    rcases hf with rfl | rfl <;> simp [polymorphic.swap, xyz.swap, hx, hp, hb]
  · have hji : j ≠ i := fun h => hij h.symm
    have hb := swap_body_ne env hij hx hy
    intro f hf
    simp only [List.mem_cons, List.mem_singleton, List.not_mem_nil, or_false] at hf
    refine ⟨⟨s.mem, (s.objs.set i (some (Polymorphic.mk y.cb_
        (if env.pocs then y.alloc_ else x.alloc_)))).set j (some (Polymorphic.mk x.cb_
        (if env.pocs then x.alloc_ else y.alloc_)))⟩, ?_, rfl, ?_, ?_, ?_⟩
    · rcases hf with rfl | rfl <;> simp [polymorphic.swap, xyz.swap, hx, hy, hp, hq, hb]
    · simp [State.obj, List.getElem?_set, hlt, hlt2, hij, hji, hq]
    · simp [State.obj, List.getElem?_set, hlt, hlt2, hij, hji, hp]
    · intro k hki hkj
      have h1 : i ≠ k := fun h => hki h.symm
      have h2 : j ≠ k := fun h => hkj h.symm
      simp [State.obj, List.getElem?_set, h1, h2]

/-- C12 instantiated on `demo_state` with `propagate_on_container_swap` not set. -/
theorem swap_exchanges_ownership_witness :
    demo_state.obj 0 = some ⟨some 100, ⟨1⟩⟩ ∧ demo_state.obj 1 = some ⟨some 200, ⟨2⟩⟩ ∧
      ∀ f ∈ [polymorphic.swap demo_env, xyz.swap demo_env],
        ∃ s', f 0 1 demo_state = some (s', .returned) ∧
          s'.mem = demo_state.mem ∧
          s'.obj 0 = some ⟨some 200, if demo_env.pocs then (⟨2⟩ : Alloc) else ⟨1⟩⟩ ∧
          s'.obj 1 = some ⟨some 100, if demo_env.pocs then (⟨1⟩ : Alloc) else ⟨2⟩⟩ ∧
          ∀ k, k ≠ 0 → k ≠ 1 → s'.obj k = demo_state.obj k :=
  ⟨rfl, rfl,
    swap_exchanges_ownership demo_env demo_state 0 1 100 200 ⟨some 100, ⟨1⟩⟩ ⟨some 200, ⟨2⟩⟩
      rfl rfl rfl rfl⟩

/-! ## Failure of assignments -/

/-- C13 (failed copy assignment leaves the prior state intact), evaluated on
`demo_state` with `propagate_on_container_copy_assignment` set: `t = s` for
container 0 (allocator 1) and container 1 (allocator 2) executes
`alloc_ = other.alloc_` (line 203) before the clone (line 204); when the clone
fails, by a throwing payload copy or by a failed allocation, the failure is
reported with container 0 still owning the block at 100, which allocator 1
allocated, but holding allocator 2. -/
theorem copy_assign_failure_changes_allocator :
    (∃ s' f x cb,
      polymorphic.copy_assign { demo_env with pocca := true } 0 1 (.ctor_throws 300) demo_state
        = some (s', .threw f) ∧
      polymorphic.get_allocator 0 demo_state = some ⟨1⟩ ∧
      polymorphic.get_allocator 0 s' = some ⟨2⟩ ∧
      s'.obj 0 = some x ∧ x.cb_ = some 100 ∧
      lookup s'.mem.heap 100 = some cb ∧ cb.allocated_by = ⟨1⟩) ∧
    (∃ s' f x cb,
      polymorphic.copy_assign { demo_env with pocca := true } 0 1 .bad_alloc demo_state
        = some (s', .threw f) ∧
      polymorphic.get_allocator 0 demo_state = some ⟨1⟩ ∧
      polymorphic.get_allocator 0 s' = some ⟨2⟩ ∧
      s'.obj 0 = some x ∧ x.cb_ = some 100 ∧
      lookup s'.mem.heap 100 = some cb ∧ cb.allocated_by = ⟨1⟩) :=
  ⟨⟨_, _, _, _, rfl, rfl, rfl, rfl, rfl, rfl, rfl⟩,
    ⟨_, _, _, _, rfl, rfl, rfl, rfl, rfl, rfl, rfl⟩⟩

/-- C14 (move assignment, when it can fail). In a state satisfying the
ownership invariant, for a target `i`, valueless or not, and a source `j` that
is not valueless (`i = j` allowed), with an allocator that keeps its contract,
`i = std::move(j)` has a result; it returns whenever
`propagate_on_container_move_assignment` is set or the two allocators compare
equal; and it reports a failure exactly when the trait is not set, the
allocators are unequal and the clone of the payload of `j` fails. -/
theorem move_assign_fails_iff (env : Env V) (s : State V) (i j q : Nat)
    (x y : Polymorphic) (o : Oracle) (hinv : s.inv)
    (hx : s.obj i = some x) (hy : s.obj j = some y) (hq : y.cb_ = some q)
    (ho : o.fresh (after_reset s.mem x).heap) :
    ∃ s' st, polymorphic.move_assign env i j o s = some (s', st) ∧
      ((env.pocma = true ∨ x.alloc_ = y.alloc_) → st = .returned) ∧
      (st ≠ .returned ↔
        (env.pocma = false ∧ x.alloc_ ≠ y.alloc_ ∧ ∀ mem, o ≠ .ok mem)) := by
  by_cases hij : i = j
  · subst hij
    have hxy : y = x := by rw [hx] at hy; exact (Option.some.inj hy).symm
    subst hxy
    refine ⟨_, _, move_assign_self env hinv o hx hq, fun _ => rfl, ?_⟩
    simp
  · by_cases hd : env.pocma = true ∨ x.alloc_ = y.alloc_
    · refine ⟨_, _, move_assign_direct_ok env hinv o hij hx hy hq hd, fun _ => rfl, ?_⟩
      constructor
      · intro h; exact absurd rfl h
      · rintro ⟨h1, h2, _⟩
        rcases hd with hd | hd
        · rw [h1] at hd; cases hd
        · exact absurd hd h2
    · have hpm : env.pocma = false := by
        cases hpm : env.pocma with
        | false => rfl
        | true => exact absurd (Or.inl hpm) hd
      have hne : x.alloc_ ≠ y.alloc_ := fun he => hd (Or.inr he)
      obtain ⟨cq, hcq, _⟩ := inv_owned_lookup hinv hy hq
      by_cases hok : ∃ mem, o = .ok mem
      · obtain ⟨mem, rfl⟩ := hok
        have hfm := ho mem rfl
        have hxq : x.cb_ ≠ some q := fun h => inv_distinct hinv hij hx h hy hq rfl
        have hmem : mem ≠ q := fun he =>
          hfm (he ▸ lookup_live ((after_reset_heap s.mem x hxq).trans hcq))
        refine ⟨_, _, move_assign_clone_ok env hinv hij hx hy hq hcq hpm hne hmem,
          fun _ => rfl, ?_⟩
        constructor
        · intro h; exact absurd rfl h
        · rintro ⟨_, _, h3⟩
          exact absurd rfl (h3 mem)
      · have ho' : ∀ mem, o ≠ .ok mem := fun mem hm => hok ⟨mem, hm⟩
        obtain ⟨lg, f, hm⟩ := move_assign_clone_fail env hinv o hij hx hy hq hpm hne ho'
        refine ⟨_, _, hm, fun h => absurd h hd, ?_⟩
        constructor
        · intro _; exact ⟨hpm, hne, ho'⟩
        · intro _; simp

/-- C14 instantiated on `demo_state`: trait not set, unequal allocators, the
allocation of the clone fails. -/
theorem move_assign_fails_iff_witness :
    demo_state.inv ∧ demo_state.obj 0 = some ⟨some 100, ⟨1⟩⟩ ∧
      demo_state.obj 1 = some ⟨some 200, ⟨2⟩⟩ ∧
      Oracle.bad_alloc.fresh (after_reset demo_state.mem ⟨some 100, ⟨1⟩⟩).heap ∧
      ∃ s' st, polymorphic.move_assign demo_env 0 1 .bad_alloc demo_state = some (s', st) ∧
        ((demo_env.pocma = true ∨ (⟨1⟩ : Alloc) = ⟨2⟩) → st = .returned) ∧
        (st ≠ .returned ↔
          (demo_env.pocma = false ∧ (⟨1⟩ : Alloc) ≠ ⟨2⟩ ∧ ∀ mem, Oracle.bad_alloc ≠ .ok mem)) :=
  ⟨by decide, rfl, rfl, by decide,
    move_assign_fails_iff demo_env demo_state 0 1 200 ⟨some 100, ⟨1⟩⟩ ⟨some 200, ⟨2⟩⟩
      .bad_alloc (by decide) rfl rfl rfl (by decide)⟩

/-! ## Allocators of containers -/

/-- C15 (the allocator changes only when a trait mandates it), evaluated on
`demo_state` with `propagate_on_container_copy_assignment` not set and
`propagate_on_container_swap` set: `t = s` for container 0 (allocator 1) and
container 1 (allocator 2) builds its temporary with the plain copy
constructor (line 207), whose allocator is
`select_on_container_copy_construction` of allocator 2, and the member `swap`
with the temporary (line 208) exchanges the allocators; `get_allocator()` of
container 0 returns allocator 1 before the assignment and allocator 2 after. -/
theorem copy_assign_adopts_source_allocator :
    ∃ s', polymorphic.copy_assign { demo_env with pocs := true } 0 1 (.ok 300) demo_state
        = some (s', .returned) ∧
      ({ demo_env with pocs := true } : Env Nat).pocca = false ∧
      polymorphic.get_allocator 0 demo_state = some ⟨1⟩ ∧
      polymorphic.get_allocator 0 s' = some ⟨2⟩ :=
  ⟨_, rfl, rfl, rfl, rfl⟩

/-- C16 (allocator of a copy-constructed container). In a state satisfying the
ownership invariant, let container `j` own the block at `p`. A copy
construction from `j` that succeeds with a block at `mem` gives the new
container (identity `s.objs.length`) the allocator
`select_on_container_copy_construction (x.alloc_)` in the plain form and the
supplied allocator in the allocator-extended form; the clone, the allocation
and the construction of the new block are made through that same allocator,
and `get_allocator()` of `j` is unchanged. -/
theorem copy_construct_allocator (env : Env V) (alloc : Alloc) (s : State V) (j p mem : Nat)
    (x : Polymorphic) (hinv : s.inv) (hx : s.obj j = some x) (hp : x.cb_ = some p) :
    ∀ ra ∈ [(polymorphic.copy env j (.ok mem) s, env.socc x.alloc_),
            (polymorphic.alloc_copy alloc j (.ok mem) s, alloc)],
      ∃ s' cb, ra.1 = some (s', .returned) ∧
        s'.obj s.objs.length = some ⟨some mem, ra.2⟩ ∧
        polymorphic.get_allocator s.objs.length s' = some ra.2 ∧
        lookup s'.mem.heap mem = some cb ∧ cb.allocated_by = ra.2 ∧
        s'.mem.log = s.mem.log ++ [.clone ra.2 p, .allocate ra.2 mem, .construct ra.2 mem] ∧
        polymorphic.get_allocator j s' = some x.alloc_ := by
  obtain ⟨cb, hcb, _⟩ := inv_owned_lookup hinv hx hp
  have hlt := obj_lt hx
  have hx2 := obj_eq_getElem hx
  have key : ∀ a : Alloc, ∃ s' cb', polymorphic.alloc_copy a j (.ok mem) s = some (s', .returned) ∧
        s'.obj s.objs.length = some ⟨some mem, a⟩ ∧
        polymorphic.get_allocator s.objs.length s' = some a ∧
        lookup s'.mem.heap mem = some cb' ∧ cb'.allocated_by = a ∧
        s'.mem.log = s.mem.log ++ [.clone a p, .allocate a mem, .construct a mem] ∧
        polymorphic.get_allocator j s' = some x.alloc_ := by
    intro a
    refine ⟨_, ⟨mem, cb.u_, a⟩, alloc_copy_ok a mem hx hp hcb, ?_⟩
    simp [State.obj, polymorphic.get_allocator, List.getElem?_append_left hlt, hx2, lookup]
  intro ra hra
  simp only [List.mem_cons, List.mem_singleton, List.not_mem_nil, or_false] at hra
  rcases hra with rfl | rfl
  · simp only [copy_eq_alloc_copy env _ hx]; exact key _
  · exact key _

/-- C16 instantiated: copies of container 1 of `demo_state` with a copy
selection that maps every allocator to allocator 9. -/
theorem copy_construct_allocator_witness :
    demo_state.inv ∧ demo_state.obj 1 = some ⟨some 200, ⟨2⟩⟩ ∧
      ∀ ra ∈ [(polymorphic.copy { demo_env with socc := fun _ => ⟨9⟩ } 1 (.ok 300) demo_state,
                ({ demo_env with socc := fun _ => ⟨9⟩ } : Env Nat).socc ⟨2⟩),
              (polymorphic.alloc_copy ⟨5⟩ 1 (.ok 300) demo_state, ⟨5⟩)],
        ∃ s' cb, ra.1 = some (s', .returned) ∧
          s'.obj demo_state.objs.length = some ⟨some 300, ra.2⟩ ∧
          polymorphic.get_allocator demo_state.objs.length s' = some ra.2 ∧
          lookup s'.mem.heap 300 = some cb ∧ cb.allocated_by = ra.2 ∧
          s'.mem.log = demo_state.mem.log ++
            [.clone ra.2 200, .allocate ra.2 300, .construct ra.2 300] ∧
          polymorphic.get_allocator 1 s' = some ⟨2⟩ :=
  ⟨by decide, rfl,
    copy_construct_allocator { demo_env with socc := fun _ => ⟨9⟩ } ⟨5⟩ demo_state 1 200 300
      ⟨some 200, ⟨2⟩⟩ (by decide) rfl rfl⟩

/-! ## Successful copy assignment -/

/-- C17 (successful copy assignment). In a state satisfying the ownership
invariant, let `i` and `j` be different containers owning the blocks at `p`
and `q`. If the clone succeeds at an address `mem` that is not live, then under
either value of `propagate_on_container_copy_assignment` the assignment
`i = j` returns; `i` owns the block at `mem` and the value accessed through it
is the value accessed through `j`; `mem` differs from `q` and from `p`;
container `j`, its block and its value are unchanged; the block at `p` is gone
and `destroy` was called on it exactly once; and when the trait is set the
allocator of `i` is that of `j`. -/
theorem copy_assign_success (env : Env V) (s : State V) (i j p q mem : Nat)
    (x y : Polymorphic) (hinv : s.inv) (hij : i ≠ j)
    (hx : s.obj i = some x) (hp : x.cb_ = some p)
    (hy : s.obj j = some y) (hq : y.cb_ = some q)
    (hfresh : (Oracle.ok mem).fresh s.mem.heap) :
    ∃ s' x' v, polymorphic.copy_assign env i j (.ok mem) s = some (s', .returned) ∧
      s'.obj i = some x' ∧ x'.cb_ = some mem ∧
      polymorphic.deref j s = some v ∧ polymorphic.deref i s' = some v ∧
      mem ≠ q ∧ mem ≠ p ∧
      s'.obj j = some y ∧ lookup s'.mem.heap q = lookup s.mem.heap q ∧
      polymorphic.deref j s' = some v ∧
      lookup s'.mem.heap p = none ∧ destroys s'.mem.log p = destroys s.mem.log p + 1 ∧
      (env.pocca = true → x'.alloc_ = y.alloc_) := by
  obtain ⟨cp, hcp, hselfp⟩ := inv_owned_lookup hinv hx hp
  obtain ⟨cq, hcq, hselfq⟩ := inv_owned_lookup hinv hy hq
  have hlt := obj_lt hx
  have hlt2 := obj_lt hy
  have hji : j ≠ i := fun h => hij h.symm
  have hy2 := obj_eq_getElem hy
  have hf : mem ∉ live s.mem.heap := hfresh mem rfl
  have hmq : mem ≠ q := fun h => hf (h ▸ lookup_live hcq)
  have hmp : mem ≠ p := fun h => hf (h ▸ lookup_live hcp)
  have hpq : p ≠ q := inv_distinct hinv hij hx hp hy hq
  have hlt3 : i < (s.objs.set i (some (Polymorphic.mk (some mem)
      (if env.pocs then (if env.pocca then y.alloc_ else env.socc y.alloc_)
        else (if env.pocca then y.alloc_ else x.alloc_))))).length := by simpa using hlt
  have hlt4 : j < (s.objs.set i (some (Polymorphic.mk (some mem)
      (if env.pocs then (if env.pocca then y.alloc_ else env.socc y.alloc_)
        else (if env.pocca then y.alloc_ else x.alloc_))))).length := by simpa using hlt2
  have hnd : (live ((mem, (⟨mem, cq.u_,
      if env.pocca then y.alloc_ else env.socc y.alloc_⟩ : Block V)) :: s.mem.heap)).Nodup :=
    List.nodup_cons.mpr ⟨hf, hinv.2.1⟩
  refine ⟨_, Polymorphic.mk (some mem)
      (if env.pocs then (if env.pocca then y.alloc_ else env.socc y.alloc_)
        else (if env.pocca then y.alloc_ else x.alloc_)), cq.u_,
    copy_assign_ok env hij hx hy hq hcq (inv_live hinv hx) hf, ?_, rfl,
    (deref_of_lookup hy hq hcq hselfq).2, ?_, hmq, hmp, ?_, ?_, ?_, ?_, ?_, ?_⟩
  · simp [State.obj, List.getElem?_append_left hlt3, List.getElem?_set, hlt]
  · simp [polymorphic.deref, polymorphic.arrow, State.obj, List.getElem?_append_left hlt3,
      List.getElem?_set, hlt, after_reset, hp, remove, hmp, lookup]
  · simp [State.obj, List.getElem?_append_left hlt4, List.getElem?_set, hij, hy2]
  · simp [after_reset, hp, remove, hmp, lookup, hmq, lookup_remove_ne hpq]
  · simp [polymorphic.deref, polymorphic.arrow, State.obj, List.getElem?_append_left hlt4,
      List.getElem?_set, hij, hy2, hq, after_reset, hp, remove, hmp, lookup, hmq,
      lookup_remove_ne hpq, hcq, hselfq]
  · simp only [after_reset, hp]
    exact lookup_remove_self hnd p
  · simp [after_reset, hp, destroys, List.filter_append]
  · intro hpo
    simp [hpo]

/-- C17 instantiated on `demo_state` with every propagation trait set. -/
theorem copy_assign_success_witness :
    demo_state.inv ∧ (0 : Nat) ≠ 1 ∧ demo_state.obj 0 = some ⟨some 100, ⟨1⟩⟩ ∧
      demo_state.obj 1 = some ⟨some 200, ⟨2⟩⟩ ∧
      (Oracle.ok 300).fresh demo_state.mem.heap ∧
      ∃ s' x' v,
        polymorphic.copy_assign demo_env_propagating 0 1 (.ok 300) demo_state
          = some (s', .returned) ∧
        s'.obj 0 = some x' ∧ x'.cb_ = some 300 ∧
        polymorphic.deref 1 demo_state = some v ∧ polymorphic.deref 0 s' = some v ∧
        300 ≠ 200 ∧ 300 ≠ 100 ∧
        s'.obj 1 = some ⟨some 200, ⟨2⟩⟩ ∧
        lookup s'.mem.heap 200 = lookup demo_state.mem.heap 200 ∧
        polymorphic.deref 1 s' = some v ∧
        lookup s'.mem.heap 100 = none ∧
        destroys s'.mem.log 100 = destroys demo_state.mem.log 100 + 1 ∧
        (demo_env_propagating.pocca = true → x'.alloc_ = ⟨2⟩) :=
  ⟨by decide, by decide, rfl, rfl, by decide,
    copy_assign_success demo_env_propagating demo_state 0 1 100 200 300
      ⟨some 100, ⟨1⟩⟩ ⟨some 200, ⟨2⟩⟩ (by decide) (by decide) rfl rfl rfl rfl (by decide)⟩

/-! ## The access pointer -/

/-- C18 (access pointer). A block built by the allocate-then-construct sequence
of the constructors, and a block built by the clone lambda, has an access
pointer that designates its own payload (for the clone: not the payload of the
source block). In every state that a sequence of public calls reaches from the
initial state, every live block still has an access pointer that designates
its own payload, and for every container that owns a block, `operator->`
yields the address of that block's payload and `operator*` its payload. -/
theorem access_pointer_invariant (env : Env V) (ops : List (Op V)) (s : State V)
    (h : run env ops State.init = some s) :
    (∀ (m : Mem V) (a : Alloc) (v : V) (mem : Nat),
      ∃ m', allocate_construct (.ok mem) m a v = (m', .ok mem) ∧
        ∃ cb, lookup m'.heap mem = some cb ∧ cb.p_ = mem ∧ cb.u_ = v) ∧
    (∀ (m : Mem V) (a : Alloc) (p mem : Nat) (src : Block V), lookup m.heap p = some src →
      ∃ m', control_block.clone (.ok mem) m p a = some (m', .ok mem) ∧
        ∃ cb, lookup m'.heap mem = some cb ∧ cb.p_ = mem ∧ cb.u_ = src.u_) ∧
    (∀ p cb, lookup s.mem.heap p = some cb → cb.p_ = p) ∧
    (∀ i x p, s.obj i = some x → x.cb_ = some p →
      ∃ cb, lookup s.mem.heap p = some cb ∧ polymorphic.arrow i s = some p ∧
        polymorphic.deref i s = some cb.u_) := by
  have hinv := run_inv env ops init_inv h
  refine ⟨?_, ?_, ?_, ?_⟩
  · intro m a v mem
    exact ⟨_, rfl, ⟨mem, v, a⟩, lookup_cons_eq _ _ _, rfl, rfl⟩
  · intro m a p mem src hsrc
    refine ⟨_, by simp [control_block.clone, hsrc, allocate_construct]; rfl, ⟨mem, src.u_, a⟩,
      lookup_cons_eq _ _ _, rfl, rfl⟩
  · intro p cb hcb
    exact hinv.2.2 _ (lookup_mem hcb)
  · intro i x p hx hp
    obtain ⟨cb, hcb, hself⟩ := inv_owned_lookup hinv hx hp
    exact ⟨cb, hcb, deref_of_lookup hx hp hcb hself⟩

/-- C18 instantiated on `demo_program`, which ends in `demo_final`. -/
theorem access_pointer_invariant_witness :
    run demo_env demo_program State.init = some demo_final ∧
      (∀ (m : Mem Nat) (a : Alloc) (v : Nat) (mem : Nat),
        ∃ m', allocate_construct (.ok mem) m a v = (m', .ok mem) ∧
          ∃ cb, lookup m'.heap mem = some cb ∧ cb.p_ = mem ∧ cb.u_ = v) ∧
      (∀ (m : Mem Nat) (a : Alloc) (p mem : Nat) (src : Block Nat),
        lookup m.heap p = some src →
        ∃ m', control_block.clone (.ok mem) m p a = some (m', .ok mem) ∧
          ∃ cb, lookup m'.heap mem = some cb ∧ cb.p_ = mem ∧ cb.u_ = src.u_) ∧
      (∀ p cb, lookup demo_final.mem.heap p = some cb → cb.p_ = p) ∧
      (∀ i x p, demo_final.obj i = some x → x.cb_ = some p →
        ∃ cb, lookup demo_final.mem.heap p = some cb ∧
          polymorphic.arrow i demo_final = some p ∧
          polymorphic.deref i demo_final = some cb.u_) :=
  ⟨rfl, access_pointer_invariant demo_env demo_program demo_final rfl⟩

/-! ## Release through the container's allocator, and self-assignment -/

/-- C19 (a block is released through the allocator that allocated it),
evaluated on a program without any `swap`: after the two constructions of
`demo_ops`, the allocator-extended move constructor (lines 189-194) with
allocator 5 takes the block at 200 from container 1 without comparing
allocators, so the new container 2 holds allocator 5 and owns a block that
allocator 2 allocated; its destructor then passes allocator 5 to `destroy`,
which destroys and deallocates the block at 200 through it. -/
theorem release_through_other_allocator :
    ∃ s1 s2 x cb,
      run demo_env (demo_ops ++ [.alloc_move ⟨5⟩ 1]) State.init = some s1 ∧
      s1.obj 2 = some x ∧ x.cb_ = some 200 ∧ x.alloc_ = ⟨5⟩ ∧
      lookup s1.mem.heap 200 = some cb ∧ cb.allocated_by = ⟨2⟩ ∧
      x.alloc_ ≠ cb.allocated_by ∧
      run demo_env (demo_ops ++ [.alloc_move ⟨5⟩ 1, .destructor 2]) State.init = some s2 ∧
      Event.allocate ⟨2⟩ 200 ∈ s2.mem.log ∧
      Event.destroy ⟨5⟩ 200 ∈ s2.mem.log ∧ Event.deallocate ⟨5⟩ 200 ∈ s2.mem.log ∧
      ∀ op ∈ demo_ops ++ [Op.alloc_move ⟨5⟩ 1, .destructor 2],
        (∀ i j, op ≠ .swap i j) ∧ (∀ i j, op ≠ .free_swap i j) :=
  ⟨_, _, _, _, rfl, rfl, rfl, rfl, rfl, rfl, by decide, rfl, by decide, by decide, by decide,
    by
      intro op hop
      simp [demo_ops] at hop
      rcases hop with rfl | rfl | rfl | rfl <;>
        exact ⟨fun _ _ h => (by cases h), fun _ _ h => (by cases h)⟩⟩

/-- C20 (self-assignment). In a state satisfying the ownership invariant, let
container `i` own the block at `p`. Copy assignment of `i` to itself returns
in the very same state: nothing allocated, cloned or destroyed, block, value
and allocator unchanged. Move assignment of `i` to itself returns, under
either value of `propagate_on_container_move_assignment`, with `i` valueless
and its allocator unchanged; the calls it has added to the record are one
`destroy` and one `deallocate` of the block at `p`, which is gone, so the
value that was accessed through `i` is no longer accessible. -/
theorem self_assignment (env : Env V) (s : State V) (i p : Nat) (x : Polymorphic) (o : Oracle)
    (hinv : s.inv) (hx : s.obj i = some x) (hp : x.cb_ = some p) :
    polymorphic.copy_assign env i i o s = some (s, .returned) ∧
      ∃ s' v, polymorphic.move_assign env i i o s = some (s', .returned) ∧
        polymorphic.valueless_after_move i s' = some true ∧
        polymorphic.get_allocator i s' = some x.alloc_ ∧
        lookup s'.mem.heap p = none ∧
        s'.mem.log = s.mem.log ++ [.destroy x.alloc_ p, .deallocate x.alloc_ p] ∧
        destroys s'.mem.log p = destroys s.mem.log p + 1 ∧
        polymorphic.deref i s = some v ∧ polymorphic.deref i s' = none := by
  obtain ⟨cb, hcb, hself⟩ := inv_owned_lookup hinv hx hp
  have hlt := obj_lt hx
  refine ⟨by simp [polymorphic.copy_assign, hx, hp], _, cb.u_,
    move_assign_self env hinv o hx hp, ?_, ?_, ?_, ?_, ?_,
    (deref_of_lookup hx hp hcb hself).2, ?_⟩
  · simp [polymorphic.valueless_after_move, State.obj, List.getElem?_set, hlt]
  · simp [polymorphic.get_allocator, State.obj, List.getElem?_set, hlt]
  · simp only [after_reset, hp]
    exact lookup_remove_self hinv.2.1 p
  · simp [after_reset, hp]
  · simp [after_reset, hp, destroys, List.filter_append]
  · simp [polymorphic.deref, polymorphic.arrow, State.obj, List.getElem?_set, hlt]

/-- C20 instantiated on container 0 of `demo_state`. -/
theorem self_assignment_witness :
    demo_state.inv ∧ demo_state.obj 0 = some ⟨some 100, ⟨1⟩⟩ ∧
      polymorphic.copy_assign demo_env 0 0 (.ok 300) demo_state
        = some (demo_state, .returned) ∧
      ∃ s' v, polymorphic.move_assign demo_env 0 0 (.ok 300) demo_state
          = some (s', .returned) ∧
        polymorphic.valueless_after_move 0 s' = some true ∧
        polymorphic.get_allocator 0 s' = some ⟨1⟩ ∧
        lookup s'.mem.heap 100 = none ∧
        s'.mem.log = demo_state.mem.log ++ [.destroy ⟨1⟩ 100, .deallocate ⟨1⟩ 100] ∧
        destroys s'.mem.log 100 = destroys demo_state.mem.log 100 + 1 ∧
        polymorphic.deref 0 demo_state = some v ∧ polymorphic.deref 0 s' = none :=
  ⟨by decide, rfl,
    self_assignment demo_env demo_state 0 100 ⟨some 100, ⟨1⟩⟩ (.ok 300) (by decide) rfl rfl⟩

/-! ## Where the allocator is kept -/

/-- Where C15 holds: move assignment without `propagate_on_container_move_assignment`
and both forms of `swap` without `propagate_on_container_swap` return or fail
with `get_allocator()` of both containers unchanged, and so does copy
assignment when neither `propagate_on_container_copy_assignment` nor
`propagate_on_container_swap` is set. -/
theorem allocator_kept_without_propagation (env : Env V) (s : State V) (i j q : Nat)
    (x y : Polymorphic) (o : Oracle) (hinv : s.inv)
    (hx : s.obj i = some x) (hy : s.obj j = some y) (hq : y.cb_ = some q)
    (hf : o.fresh s.mem.heap) (hf2 : o.fresh (after_reset s.mem x).heap) :
    (env.pocma = false → ∃ s' st, polymorphic.move_assign env i j o s = some (s', st) ∧
      polymorphic.get_allocator i s' = some x.alloc_ ∧
      polymorphic.get_allocator j s' = some y.alloc_) ∧
    (env.pocs = false → x.cb_ ≠ none → ∀ f ∈ [polymorphic.swap env, xyz.swap env],
      ∃ s' st, f i j s = some (s', st) ∧
        polymorphic.get_allocator i s' = some x.alloc_ ∧
        polymorphic.get_allocator j s' = some y.alloc_) ∧
    (env.pocca = false → env.pocs = false →
      ∃ s' st, polymorphic.copy_assign env i j o s = some (s', st) ∧
        polymorphic.get_allocator i s' = some x.alloc_ ∧
        polymorphic.get_allocator j s' = some y.alloc_) := by
  have hlt := obj_lt hx
  have hlt2 := obj_lt hy
  have hx2 := obj_eq_getElem hx
  have hy2 := obj_eq_getElem hy
  obtain ⟨cq, hcq, _⟩ := inv_owned_lookup hinv hy hq
  have hself : i = j → x = y := by
    intro h; subst h; rw [hx] at hy; exact Option.some.inj hy
  refine ⟨?_, ?_, ?_⟩
  · intro hpm
    by_cases hij : i = j
    · have hxy := hself hij
      subst hij; subst hxy
      exact ⟨_, _, move_assign_self env hinv o hx hq,
        by simp [polymorphic.get_allocator, State.obj, List.getElem?_set, hlt],
        by simp [polymorphic.get_allocator, State.obj, List.getElem?_set, hlt]⟩
    · have hji : j ≠ i := fun h => hij h.symm
      by_cases hd : x.alloc_ = y.alloc_
      · exact ⟨_, _, move_assign_direct_ok env hinv o hij hx hy hq (Or.inr hd),
          by simp [polymorphic.get_allocator, State.obj, List.getElem?_set, hlt, hlt2, hij,
            hji, hpm],
          by simp [polymorphic.get_allocator, State.obj, List.getElem?_set, hlt, hlt2, hij,
            hji]⟩
      · by_cases hok : ∃ mem, o = .ok mem
        · obtain ⟨mem, rfl⟩ := hok
          have hfm := hf2 mem rfl
          have hxq : x.cb_ ≠ some q := fun h => inv_distinct hinv hij hx h hy hq rfl
          have hmem : mem ≠ q := fun he =>
            hfm (he ▸ lookup_live ((after_reset_heap s.mem x hxq).trans hcq))
          exact ⟨_, _, move_assign_clone_ok env hinv hij hx hy hq hcq hpm hd hmem,
            by simp [polymorphic.get_allocator, State.obj, List.getElem?_set, hlt, hlt2, hij,
              hji],
            by simp [polymorphic.get_allocator, State.obj, List.getElem?_set, hlt, hlt2, hij,
              hji]⟩
        · have ho' : ∀ mem, o ≠ .ok mem := fun mem hm => hok ⟨mem, hm⟩
          obtain ⟨lg, f, hm⟩ := move_assign_clone_fail env hinv o hij hx hy hq hpm hd ho'
          exact ⟨_, _, hm,
            by simp [polymorphic.get_allocator, State.obj, List.getElem?_set, hlt],
            by simp [polymorphic.get_allocator, State.obj, List.getElem?_set, hij, hy2]⟩
  · intro hps hxv f hf
    simp only [List.mem_cons, List.mem_singleton, List.not_mem_nil, or_false] at hf
    by_cases hij : i = j
    · have hxy := hself hij
      subst hij; subst hxy
      refine ⟨s, .returned, ?_, by simp [polymorphic.get_allocator, hx],
        by simp [polymorphic.get_allocator, hx]⟩
      rcases hf with rfl | rfl <;>
        simp [polymorphic.swap, xyz.swap, hx, hq, swap_body_self env hx]
    · have hji : j ≠ i := fun h => hij h.symm
      refine ⟨⟨s.mem, (s.objs.set i (some (Polymorphic.mk y.cb_
        (if env.pocs then y.alloc_ else x.alloc_)))).set j (some (Polymorphic.mk x.cb_
        (if env.pocs then x.alloc_ else y.alloc_)))⟩, .returned, ?_, ?_, ?_⟩
      · rcases hf with rfl | rfl <;>
          simp [polymorphic.swap, xyz.swap, hx, hy, hq, hxv, swap_body_ne env hij hx hy]
      · simp [polymorphic.get_allocator, State.obj, List.getElem?_set, hlt, hlt2, hij, hji, hps]
      · simp [polymorphic.get_allocator, State.obj, List.getElem?_set, hlt, hlt2, hij, hji, hps]
  · intro hpo hps
    by_cases hij : i = j
    · exact ⟨s, .returned, by simp [polymorphic.copy_assign, hx, hy, hq, hij],
        by simp [polymorphic.get_allocator, hx], by simp [polymorphic.get_allocator, hy]⟩
    · have hji : j ≠ i := fun h => hij h.symm
      by_cases hok : ∃ mem, o = .ok mem
      · obtain ⟨mem, rfl⟩ := hok
        exact ⟨_, _, copy_assign_ok env hij hx hy hq hcq (inv_live hinv hx) (hf mem rfl),
          by simp [polymorphic.get_allocator, State.obj, List.getElem?_append,
            List.getElem?_set, hlt, hpo, hps],
          by simp [polymorphic.get_allocator, State.obj, List.getElem?_append,
            List.getElem?_set, hlt2, hij, hy2, obj_getElem hy hlt2]⟩
      · have ho' : ∀ mem, o ≠ .ok mem := fun mem hm => hok ⟨mem, hm⟩
        obtain ⟨m, f, hm, hh⟩ := alloc_copy_fail (env.socc y.alloc_) o hy hq hcq ho'
        exact ⟨⟨m, s.objs⟩, .threw f,
          by simp [polymorphic.copy_assign, hx, hy, hq, hij, hpo, copy_eq_alloc_copy env o hy,
            hm],
          by simp [polymorphic.get_allocator, State.obj, hx2],
          by simp [polymorphic.get_allocator, State.obj, hy2]⟩

/-- What a failed copy assignment leaves behind: the free store holds the blocks
it held; without `propagate_on_container_copy_assignment` every container is
as it was, with it the target has its former block and the allocator of the
source, and every other container is as it was. -/
theorem copy_assign_failure_state (env : Env V) (s : State V) (i j q : Nat)
    (x y : Polymorphic) (o : Oracle) (hinv : s.inv) (hij : i ≠ j)
    (hx : s.obj i = some x) (hy : s.obj j = some y) (hq : y.cb_ = some q)
    (ho : ∀ mem, o ≠ .ok mem) :
    ∃ s' f, polymorphic.copy_assign env i j o s = some (s', .threw f) ∧
      s'.mem.heap = s.mem.heap ∧
      s'.objs = if env.pocca then s.objs.set i (some ⟨x.cb_, y.alloc_⟩) else s.objs := by
  obtain ⟨cq, hcq, _⟩ := inv_owned_lookup hinv hy hq
  have hlt := obj_lt hx
  have hy2 := obj_eq_getElem hy
  cases hpo : env.pocca with
  | false =>
    obtain ⟨m, f, hm, hh⟩ := alloc_copy_fail (env.socc y.alloc_) o hy hq hcq ho
    exact ⟨⟨m, s.objs⟩, f,
      by simp [polymorphic.copy_assign, hx, hy, hq, hij, hpo, copy_eq_alloc_copy env o hy, hm],
      hh, by simp⟩
  | true =>
    have hj1 : State.obj (V := V) ⟨s.mem, s.objs.set i (some ⟨x.cb_, y.alloc_⟩)⟩ j = some y := by
      simp [State.obj, List.getElem?_set, hij, hy2]
    obtain ⟨m, f, hm, hh⟩ := alloc_copy_fail
      (s := ⟨s.mem, s.objs.set i (some ⟨x.cb_, y.alloc_⟩)⟩) y.alloc_ o hj1 hq hcq ho
    refine ⟨⟨m, s.objs.set i (some ⟨x.cb_, y.alloc_⟩)⟩, f, ?_, hh, by simp⟩
    simp [polymorphic.copy_assign, hx, hy, hq, hij, hpo, State.set_alloc, State.set_obj]
    simp [State.obj, List.getElem?_set, hlt]
    rw [hm]

end xyz
